import Mathlib

/-! # Peridigm: field-data manager and neighbor-list redistribution

A shallow embedding of `Peridigm_DataManager.cpp` and `io/Peridigm_ProximitySearch.cpp`.

The program is SPMD: every rank runs the same code on its own part of each distributed
object.  The embedding keeps one logical object per C++ object and stores the rank-local
parts side by side, indexed by rank.  A `double` that the code only copies is an `Int`.
-/

namespace PeridigmNS

/-! ## Ways a call can end other than by returning -/

/-- The ways a call can fail.  The first two are the exceptions of the `TEST_FOR_EXCEPTION` tests;
the last two are undefined behaviour of the C++ program (`operator->` on a null `RCP`, and an
array access outside its allocation). -/
inductive Failure where
  | RangeError
  | NullReferenceError
  | nullDereference
  | outOfBounds
deriving DecidableEq, Repr

/-- An exception the caller can catch, as opposed to undefined behaviour. -/
def Failure.isThrown : Failure → Bool
  | .RangeError => true
  | .NullReferenceError => true
  | .nullDereference => false
  | .outOfBounds => false

/-- A value copied by the code (a `double` in the source). -/
abbrev Val := Int

/-! ## Loops and raw arrays -/

/-- The loop `for(int i = start; i < start + n; ++i) body`, threading the loop state. -/
def loopFrom {σ : Type} (body : Nat → σ → Except Failure σ) : Nat → Nat → σ → Except Failure σ
  | _, 0, s => .ok s
  | start, n + 1, s =>
    match body start s with
    | .ok s' => loopFrom body (start + 1) n s'
    | .error e => .error e

/-- Run a fallible function over a list, left to right. -/
def mapE {α β : Type} (f : α → Except Failure β) : List α → Except Failure (List β)
  | [] => .ok []
  | a :: as =>
    match f a with
    | .ok b =>
      match mapE f as with
      | .ok bs => .ok (b :: bs)
      | .error e => .error e
    | .error e => .error e

/-- The read `a[i]` of a raw array with `int` index. -/
def readAt {α : Type} (a : List α) (i : Int) : Except Failure α :=
  if i < 0 then .error .outOfBounds
  else
    match a.get? i.toNat with
    | some v => .ok v
    | none => .error .outOfBounds

/-- The write `a[i] = v` of a raw array with `int` index. -/
def writeAt {α : Type} (a : List α) (i : Int) (v : α) : Except Failure (List α) :=
  if i < 0 then .error .outOfBounds
  else if i.toNat < a.length then .ok (a.set i.toNat v)
  else .error .outOfBounds

/-! ## The distributed-map collaborator (Epetra) -/

/-- One rank's part of a block map: the locally held global identifiers, in local-index
order, each with its element size. -/
abbrev LocalMap := List (Int × Nat)

/-- `Epetra_BlockMap::NumMyElements`. -/
def LocalMap.NumMyElements (m : LocalMap) : Nat := m.length

/-- `Epetra_BlockMap::MyGlobalElements`. -/
def LocalMap.MyGlobalElements (m : LocalMap) : List Int := m.map Prod.fst

/-- `Epetra_BlockMap::NumMyPoints`: the length of a vector's local data on this map. -/
def LocalMap.NumMyPoints (m : LocalMap) : Nat := (m.map Prod.snd).sum

/-- `Epetra_BlockMap::GID`: the global identifier at a local index, `-1` (index base minus
one) when the local index is not held. -/
def LocalMap.GID (m : LocalMap) (lid : Int) : Int :=
  if lid < 0 then -1
  else
    match m.get? lid.toNat with
    | some e => e.1
    | none => -1

/-- `Epetra_BlockMap::LID`: the local index of a global identifier, `-1` when it is not held
on this rank. -/
def LocalMap.LID (m : LocalMap) (gid : Int) : Int :=
  if m.MyGlobalElements.indexOf gid < m.length then (m.MyGlobalElements.indexOf gid : Int) else -1

/-- `Epetra_BlockMap::ElementSize(lid)` of a map built from an element-size list: an unchecked
read of that list. -/
def LocalMap.ElementSize (m : LocalMap) (lid : Int) : Except Failure Nat :=
  readAt (m.map Prod.snd) lid

/-- The offset of element `lid` in the local data: the sizes of the elements before it. -/
def LocalMap.firstPoint (m : LocalMap) (lid : Nat) : Nat := ((m.take lid).map Prod.snd).sum

/-- `Epetra_BlockMap::FirstPointInElement`: `-1` when the local index is not held. -/
def LocalMap.FirstPointInElement (m : LocalMap) (lid : Int) : Int :=
  if lid < 0 then -1
  else if lid.toNat < m.length then (m.firstPoint lid.toNat : Int)
  else -1

/-- Modelled from the spec: the Distributed Map of section 3 (`Epetra_BlockMap`, an external
collaborator).  `parts[r]` is what rank `r` holds. -/
structure Epetra_BlockMap where
  parts : List LocalMap
deriving DecidableEq, Repr

/-- The part of a map held by rank `r` (empty when the map has no such rank). -/
def Epetra_BlockMap.part (m : Epetra_BlockMap) (r : Nat) : LocalMap := m.parts.getD r []

/-- `Epetra_BlockMap::SameAs`: the same identifiers and sizes in the same order on every rank. -/
def Epetra_BlockMap.SameAs (a b : Epetra_BlockMap) : Bool := decide (a = b)

/-- Modelled from the spec: a multi-field buffer (`Epetra_MultiVector`), `data[r][iVec]` being
the flat local values of field `iVec` on rank `r`. -/
structure Epetra_MultiVector where
  map : Epetra_BlockMap
  NumVectors : Nat
  data : List (List (List Val))
deriving DecidableEq, Repr

/-- `Epetra_MultiVector(map, numVectors)`: a zero-initialised buffer sized to the map. -/
def Epetra_MultiVector.new (map : Epetra_BlockMap) (numVectors : Nat) : Epetra_MultiVector :=
  { map := map
    NumVectors := numVectors
    data := map.parts.map fun p => List.replicate numVectors (List.replicate p.NumMyPoints 0) }

/-- The flat local values of field `iVec` on rank `r`. -/
def Epetra_MultiVector.values (v : Epetra_MultiVector) (r iVec : Nat) : List Val :=
  (v.data.getD r []).getD iVec []

/-- `Epetra_Import(TargetMap, SourceMap)`. -/
structure Epetra_Import where
  TargetMap : Epetra_BlockMap
  SourceMap : Epetra_BlockMap
deriving DecidableEq, Repr

/-- The values of element `lid` (element size `s`) in flat local data. -/
def elemAt (m : LocalMap) (d : List Val) (lid : Nat) : List Val :=
  (d.drop (m.firstPoint lid)).take ((m.getD lid (0, 0)).2)

/-- The lowest rank at or after `r` whose part holds `gid`. -/
def firstHolder (gid : Int) : List LocalMap → Nat → Option Nat
  | [], _ => none
  | p :: ps, r => if gid ∈ p.MyGlobalElements then some r else firstHolder gid ps (r + 1)

/-- The rank an importer reads `gid` from for destination rank `r`: rank `r` itself when it
holds `gid` in the source map, otherwise the lowest rank that does. -/
def sourceRank (src : Epetra_BlockMap) (r : Nat) (gid : Int) : Option Nat :=
  if gid ∈ (src.part r).MyGlobalElements then some r else firstHolder gid src.parts 0

/-- The source values an import delivers for a destination element `(gid, size)` on rank `r`:
the element of the source rank, when the source holds `gid` with the same element size. -/
def importLookup (src : Epetra_BlockMap) (srcData : Nat → List Val) (r : Nat) (gid : Int)
    (size : Nat) : Option (List Val) :=
  match sourceRank src r gid with
  | none => none
  | some p =>
    let j := ((src.part p).LID gid).toNat
    if ((src.part p).getD j (0, 0)).2 = size ∧ (elemAt (src.part p) (srcData p) j).length = size
    then some (elemAt (src.part p) (srcData p) j)
    else none

/-- The local destination data after an import with combine mode `Insert`: element by element,
the delivered source values overwrite the destination, and an element the source does not hold
keeps its old values. -/
def importElems (lookup : Int → Nat → Option (List Val)) : LocalMap → List Val → List Val
  | [], rest => rest
  | e :: m, old =>
    (match lookup e.1 e.2 with
      | some b => b
      | none => old.take e.2) ++ importElems lookup m (old.drop e.2)

/-- Modelled from the spec: the importer primitive of section 6,
`dst.Import(src, importer, Insert)`.  Epetra checks that the destination is laid out on the
importer's target map and the source on its source map and otherwise returns an error code
without touching the destination; every call site ignores the return code. -/
def Epetra_MultiVector.Import (dst src : Epetra_MultiVector) (importer : Epetra_Import) :
    Epetra_MultiVector :=
  if ¬ dst.map.SameAs importer.TargetMap then dst
  else if ¬ src.map.SameAs importer.SourceMap then dst
  else if dst.NumVectors ≠ src.NumVectors then dst
  else
    { dst with
      data := (List.range dst.map.parts.length).map fun r =>
        (List.range dst.NumVectors).map fun iVec =>
          importElems (importLookup importer.SourceMap (fun p => src.values p iVec) r)
            (dst.map.part r) (dst.values r iVec) }

/-! ## Field specifications (`Field_NS::FieldSpec`) -/

/-- The shape tag of a field.  `other` stands for every tag the Data Manager does not
recognise (`VECTOR2D`, for one). -/
inductive FieldLength where
  | SCALAR
  | VECTOR3D
  | BOND
  | other (tag : Nat)
deriving DecidableEq, Repr

/-- The temporal arity of a field. -/
inductive FieldStateArchitecture where
  | STATELESS
  | STATEFUL
deriving DecidableEq, Repr

/-- Modelled from the spec: the Field Specification of section 3 (`Field_NS::FieldSpec`, declared
in a header that is not among the sources): an identity key, a shape tag and a temporal arity. -/
structure FieldSpec where
  id : Nat
  getLength : FieldLength
  getStateArchitecture : FieldStateArchitecture
deriving DecidableEq, Repr

/-- A number for each shape tag, used by the order on field specifications. -/
def FieldLength.code : FieldLength → Nat
  | .SCALAR => 0
  | .VECTOR3D => 1
  | .BOND => 2
  | .other tag => 3 + tag

/-- A number for each temporal arity. -/
def FieldStateArchitecture.code : FieldStateArchitecture → Nat
  | .STATELESS => 0
  | .STATEFUL => 1

/-- Modelled from the spec: the total order on field specifications (`operator<`), here the
lexicographic order on key, shape and arity; `le a b` is `!(b < a)`. -/
def FieldSpec.le (a b : FieldSpec) : Bool :=
  a.id < b.id ∨ (a.id = b.id ∧ (a.getLength.code < b.getLength.code ∨
    (a.getLength.code = b.getLength.code ∧
      a.getStateArchitecture.code ≤ b.getStateArchitecture.code)))

/-- `std::sort(begin, end)`: the elements in ascending order. -/
def std_sort (specs : List FieldSpec) : List FieldSpec :=
  specs.insertionSort fun a b => FieldSpec.le a b = true

/-- The loop of `std::unique`: `dest` is the index of the last element kept so far, and every
later element that differs from it is assigned to the slot after it.  Slots behind the read
position are never written before they are read, so the loop reads the elements as they were. -/
def uniqueLoop : List FieldSpec → Nat → List FieldSpec → List FieldSpec × Nat
  | a, dest, [] => (a, dest + 1)
  | a, dest, x :: rest =>
    if a.get? dest = some x then uniqueLoop a dest rest
    else uniqueLoop (a.set (dest + 1) x) (dest + 1) rest

/-- `std::unique(begin, end)`: the vector after the call, and the returned position (the new
logical end).  The vector keeps its size; only an `erase` from the returned position on would
shorten it. -/
def std_unique (a : List FieldSpec) : List FieldSpec × Nat :=
  match a with
  | [] => ([], 0)
  | _ :: rest => uniqueLoop a 0 rest

/-! ## State (`PeridigmNS::State`) -/

/-- Modelled from the spec: the State of sections 3 and 4.2 (`Peridigm_State.cpp` is not among
the sources): at most one multi-field buffer per shape, with the fields allocated into it. -/
structure State where
  scalarFieldSpecs : List FieldSpec
  vectorFieldSpecs : List FieldSpec
  bondFieldSpecs : List FieldSpec
  scalarData : Option Epetra_MultiVector
  vectorData : Option Epetra_MultiVector
  bondData : Option Epetra_MultiVector
deriving DecidableEq, Repr

/-- The result of `new State`: nothing allocated. -/
def State.new : State :=
  { scalarFieldSpecs := [], vectorFieldSpecs := [], bondFieldSpecs := []
    scalarData := none, vectorData := none, bondData := none }

/-- Modelled from the spec: `State::allocateScalarData(specs, map)` allocates one zero-initialised
multi-field buffer sized to the map; the map is dereferenced. -/
def State.allocateScalarData (s : State) (specs : List FieldSpec) (map : Option Epetra_BlockMap) :
    Except Failure State :=
  match map with
  | none => .error .nullDereference
  | some m => .ok { s with scalarFieldSpecs := specs
                           scalarData := some (Epetra_MultiVector.new m specs.length) }

/-- Modelled from the spec: `State::allocateVectorData(specs, map)`. -/
def State.allocateVectorData (s : State) (specs : List FieldSpec) (map : Option Epetra_BlockMap) :
    Except Failure State :=
  match map with
  | none => .error .nullDereference
  | some m => .ok { s with vectorFieldSpecs := specs
                           vectorData := some (Epetra_MultiVector.new m specs.length) }

/-- Modelled from the spec: `State::allocateBondData(specs, map)`. -/
def State.allocateBondData (s : State) (specs : List FieldSpec) (map : Option Epetra_BlockMap) :
    Except Failure State :=
  match map with
  | none => .error .nullDereference
  | some m => .ok { s with bondFieldSpecs := specs
                           bondData := some (Epetra_MultiVector.new m specs.length) }

/-! ## The Data Manager -/

/-- Modelled from the spec: the members of `PeridigmNS::DataManager` (section 3; the class is
declared in a header that is not among the sources).  A null `Teuchos::RCP` is `none`. -/
structure DataManager where
  rebalanceCount : Nat
  fieldSpecs : List FieldSpec
  statelessScalarFieldSpecs : List FieldSpec
  statelessVectorFieldSpecs : List FieldSpec
  statelessBondFieldSpecs : List FieldSpec
  statefulScalarFieldSpecs : List FieldSpec
  statefulVectorFieldSpecs : List FieldSpec
  statefulBondFieldSpecs : List FieldSpec
  ownedIDScalarMap : Option Epetra_BlockMap
  ownedIDVectorMap : Option Epetra_BlockMap
  ownedIDBondMap : Option Epetra_BlockMap
  scalarMap : Option Epetra_BlockMap
  vectorMap : Option Epetra_BlockMap
  bondMap : Option Epetra_BlockMap
  stateNONE : Option State
  stateN : Option State
  stateNP1 : Option State
deriving DecidableEq, Repr

/-- How a member function ends: with the Data Manager it leaves behind, or with a failure and
the Data Manager as it was when the failure happened (meaningful for thrown exceptions). -/
abbrev Outcome := Except (Failure × DataManager) DataManager

/-- Run a step that cannot change the Data Manager before it fails. -/
def liftStep {α : Type} (dm : DataManager) (x : Except Failure α) : Except (Failure × DataManager) α :=
  match x with
  | .ok a => .ok a
  | .error e => .error (e, dm)

/-- Modelled from the spec: a freshly constructed Data Manager on which `setMaps` has been
called with the given maps. -/
def DataManager.withMaps (ownedIDScalarMap ownedIDVectorMap scalarMap vectorMap
    bondMap : Option Epetra_BlockMap) : DataManager :=
  { rebalanceCount := 0, fieldSpecs := []
    statelessScalarFieldSpecs := [], statelessVectorFieldSpecs := []
    statelessBondFieldSpecs := [], statefulScalarFieldSpecs := []
    statefulVectorFieldSpecs := [], statefulBondFieldSpecs := []
    ownedIDScalarMap := ownedIDScalarMap, ownedIDVectorMap := ownedIDVectorMap
    ownedIDBondMap := none
    scalarMap := scalarMap, vectorMap := vectorMap, bondMap := bondMap
    stateNONE := none, stateN := none, stateNP1 := none }

/-- `TEST_FOR_EXCEPTION(throw_exception_test, Exception, msg)`: the exception is thrown when
the test is true, and nothing happens when it is false. -/
def TEST_FOR_EXCEPTION (throw_exception_test : Bool) (e : Failure) (dm : DataManager) :
    Except (Failure × DataManager) Unit :=
  if throw_exception_test then .error (e, dm) else .ok ()

/-- One pass of the classification loop of `allocateData` (lines 57-79).  The last branch is
line 77, `TEST_FOR_EXCEPTION(false, Teuchos::RangeError, ...)`: its test is the constant `false`,
so the pass ends there with the specification in no bucket. -/
def classifySpec (dm : DataManager) (spec : FieldSpec) : Outcome :=
  if spec.getLength = FieldLength.SCALAR then
    if spec.getStateArchitecture = FieldStateArchitecture.STATELESS then
      .ok { dm with statelessScalarFieldSpecs := dm.statelessScalarFieldSpecs ++ [spec] }
    else
      .ok { dm with statefulScalarFieldSpecs := dm.statefulScalarFieldSpecs ++ [spec] }
  else if spec.getLength = FieldLength.VECTOR3D then
    if spec.getStateArchitecture = FieldStateArchitecture.STATELESS then
      .ok { dm with statelessVectorFieldSpecs := dm.statelessVectorFieldSpecs ++ [spec] }
    else
      .ok { dm with statefulVectorFieldSpecs := dm.statefulVectorFieldSpecs ++ [spec] }
  else if spec.getLength = FieldLength.BOND then
    if spec.getStateArchitecture = FieldStateArchitecture.STATELESS then
      .ok { dm with statelessBondFieldSpecs := dm.statelessBondFieldSpecs ++ [spec] }
    else
      .ok { dm with statefulBondFieldSpecs := dm.statefulBondFieldSpecs ++ [spec] }
  else do
    TEST_FOR_EXCEPTION false Failure.RangeError dm
    pure dm

/-- The classification loop of `allocateData` over the stored field specifications. -/
def classifyLoop : DataManager → List FieldSpec → Outcome
  | dm, [] => .ok dm
  | dm, spec :: rest =>
    match classifySpec dm spec with
    | .ok dm' => classifyLoop dm' rest
    | .error e => .error e

/-- The State built for the stateless fields (lines 95-101), or for one temporal role of the
stateful fields (lines 104-117). -/
def buildState (scalarSpecs vectorSpecs bondSpecs : List FieldSpec)
    (scalarMap vectorMap bondMap : Option Epetra_BlockMap) : Except Failure State := do
  let s := State.new
  let s ← if scalarSpecs.length > 0 then s.allocateScalarData scalarSpecs scalarMap else pure s
  let s ← if vectorSpecs.length > 0 then s.allocateVectorData vectorSpecs vectorMap else pure s
  let s ← if bondSpecs.length > 0 then s.allocateBondData bondSpecs bondMap else pure s
  pure s

/-- `DataManager::allocateData(specs)`. -/
def DataManager.allocateData (dm : DataManager) (specs : List FieldSpec) : Outcome := do
  -- remove duplicates: the position returned by unique is dropped, the vector keeps its size
  let dm := { dm with fieldSpecs := (std_unique (std_sort specs)).1 }
  let dm := { dm with statelessScalarFieldSpecs := [], statelessVectorFieldSpecs := []
                      statelessBondFieldSpecs := [], statefulScalarFieldSpecs := []
                      statefulVectorFieldSpecs := [], statefulBondFieldSpecs := [] }
  let dm ← classifyLoop dm dm.fieldSpecs
  -- make sure maps exist before trying to create states
  if dm.statelessScalarFieldSpecs.length + dm.statefulScalarFieldSpecs.length > 0
      ∧ dm.scalarMap = none then
    throw (Failure.NullReferenceError, dm)
  if dm.statelessVectorFieldSpecs.length + dm.statefulVectorFieldSpecs.length > 0
      ∧ dm.vectorMap = none then
    throw (Failure.NullReferenceError, dm)
  if dm.statelessBondFieldSpecs.length + dm.statefulBondFieldSpecs.length > 0
      ∧ dm.bondMap = none then
    throw (Failure.NullReferenceError, dm)
  -- create the states
  let dm ←
    if dm.statelessScalarFieldSpecs.length + dm.statelessVectorFieldSpecs.length
        + dm.statelessBondFieldSpecs.length > 0 then do
      let s ← liftStep dm (buildState dm.statelessScalarFieldSpecs dm.statelessVectorFieldSpecs
        dm.statelessBondFieldSpecs dm.scalarMap dm.vectorMap dm.bondMap)
      pure { dm with stateNONE := some s }
    else pure dm
  if dm.statefulScalarFieldSpecs.length + dm.statefulVectorFieldSpecs.length
      + dm.statefulBondFieldSpecs.length > 0 then do
    let sN ← liftStep dm (buildState dm.statefulScalarFieldSpecs dm.statefulVectorFieldSpecs
      dm.statefulBondFieldSpecs dm.scalarMap dm.vectorMap dm.bondMap)
    let sNP1 ← liftStep dm (buildState dm.statefulScalarFieldSpecs dm.statefulVectorFieldSpecs
      dm.statefulBondFieldSpecs dm.scalarMap dm.vectorMap dm.bondMap)
    pure { dm with stateN := some sN, stateNP1 := some sNP1 }
  else pure dm

/-- The six buckets of a Data Manager, in the order stateless scalar, vector, bond, then
stateful scalar, vector, bond. -/
def DataManager.buckets (dm : DataManager) : List (List FieldSpec) :=
  [dm.statelessScalarFieldSpecs, dm.statelessVectorFieldSpecs, dm.statelessBondFieldSpecs,
   dm.statefulScalarFieldSpecs, dm.statefulVectorFieldSpecs, dm.statefulBondFieldSpecs]

/-! ## Neighbor-list redistribution (`PeridigmNS::ProximitySearch`) -/

/-- `Epetra_Vector(map)`: a zero-initialised one-field buffer. -/
def Epetra_Vector_new (map : Epetra_BlockMap) : Epetra_MultiVector := Epetra_MultiVector.new map 1

/-- `std::vector<int>::resize(n)`: the first `n` entries, new entries being zero. -/
def resize (v : List Int) (n : Nat) : List Int := (v ++ List.replicate n 0).take n

/-- The block map built by `Epetra_BlockMap(-1, numMyElements, myGlobalElements,
elementSizeList, 0, comm)` on one rank. -/
def mkLocalMap (numMyElements : Nat) (myGlobalElements elementSizeList : List Int) : LocalMap :=
  (myGlobalElements.zip (elementSizeList.map Int.toNat)).take numMyElements

/-- The value an `int` takes when a sum leaves its range: wrap-around to 32 bits in two's
complement. -/
def wrapInt (x : Int) : Int := (x + 2147483648) % 4294967296 - 2147483648

/-- The while loop of lines 80-84: one header per pass, stored at the next index of the count
vector.  `neighborListIndex` is an `int` that is advanced by the header read, so it wraps around
when the sum leaves the range of `int`.  Every pass writes one more entry of the count vector,
so a loop that has not ended after as many passes as the vector is long writes outside it; the
fuel is that length plus one and does not run out. -/
def countNeighborsLoop (currentNeighborList : List Int) :
    Nat → Int → Int → List Val → Except Failure (List Val)
  | 0, _, _, _ => .error .outOfBounds
  | fuel + 1, neighborListIndex, index, currentNumberOfNeighbors =>
    if neighborListIndex < currentNeighborList.length then
      match readAt currentNeighborList neighborListIndex with
      | .error e => .error e
      | .ok numNeighbors =>
        match writeAt currentNumberOfNeighbors index numNeighbors with
        | .error e => .error e
        | .ok v =>
          countNeighborsLoop currentNeighborList fuel
            (wrapInt (neighborListIndex + 1 + numNeighbors)) (index + 1) v
    else .ok currentNumberOfNeighbors

/-- Lines 70-84 on one rank: the neighbor counts of the current flat list, as a vector on the
current owned map. -/
def currentCounts (currentOwnedMap : LocalMap) (currentNeighborList : List Int) :
    Except Failure (List Val) :=
  countNeighborsLoop currentNeighborList (currentOwnedMap.NumMyPoints + 1) 0 0
    (List.replicate currentOwnedMap.NumMyPoints 0)

/-- Lines 103-106 and 138-142: how many of the first `n` counts are positive. -/
def countPositive (counts : List Val) (n : Nat) : Except Failure Nat :=
  loopFrom (fun i numMyElements => do
    let c ← readAt counts i
    if c > 0 then pure (numMyElements + 1) else pure numMyElements) 0 n 0

/-- Lines 110-119 and 146-155: the identifiers and counts of the points with a positive count,
written at their index less the number of points skipped so far. -/
def fillNeighborMapArrays (ownedMap : LocalMap) (counts : List Val) (n : Nat)
    (myGlobalElements elementSizeList : List Int) : Except Failure (List Int × List Int) := do
  let r ← loopFrom (fun i (st : List Int × List Int × Int) => do
    let c ← readAt counts i
    if c > 0 then do
      let g ← writeAt st.1 ((i : Int) - st.2.2) (ownedMap.GID i)
      let z ← writeAt st.2.1 ((i : Int) - st.2.2) c
      pure (g, z, st.2.2)
    else pure (st.1, st.2.1, st.2.2 + 1)) 0 n (myGlobalElements, elementSizeList, 0)
  pure (r.1, r.2.1)

/-- Lines 103-121 (current side, `n` the number of owned points) and 138-157 (target side, `n`
the length of the count vector) on one rank: the variable-length neighbor map, from which every
point with a zero count is left out.  `arrays` are the two work vectors as the previous use
left them. -/
def buildNeighborMap (ownedMap : LocalMap) (counts : List Val) (n : Nat)
    (arrays : List Int × List Int) : Except Failure (LocalMap × (List Int × List Int)) := do
  let numMyElements ← countPositive counts n
  let a ← fillNeighborMapArrays ownedMap counts n (resize arrays.1 numMyElements)
    (resize arrays.2 numMyElements)
  pure (mkLocalMap numMyElements a.1 a.2, a)

/-- Lines 128-134 on one rank: the neighbor references of the current flat list, translated
to global identifiers through the current overlap map, written one after the other. -/
def fillCurrentNeighbors (currentOverlapMap : LocalMap) (currentNeighborList : List Int)
    (currentNumOwnedPoints : Nat) (currentNeighbors : List Val) : Except Failure (List Val) := do
  let r ← loopFrom (fun _ (st : Int × Int × List Val) => do
    let numNeighbors ← readAt currentNeighborList st.1
    loopFrom (fun _ (st : Int × Int × List Val) => do
      let ref ← readAt currentNeighborList st.1
      let v ← writeAt st.2.2 st.2.1 (currentOverlapMap.GID ref)
      pure (st.1 + 1, st.2.1 + 1, v)) 0 numNeighbors.toNat (st.1 + 1, st.2.1, st.2.2))
    0 currentNumOwnedPoints (0, 0, currentNeighbors)
  pure r.2.2

/-- `std::set<int>::insert`: the set is kept as an ascending list without repeats. -/
def setInsert (x : Int) : List Int → List Int
  | [] => [x]
  | y :: ys => if x < y then x :: y :: ys else if x = y then y :: ys else y :: setInsert x ys

/-- Lines 169-176 on one rank: the received neighbor identifiers that the target owned map
does not hold. -/
def offProcessorElements (targetOwnedMap : LocalMap) (targetNeighbors : List Val) :
    Except Failure (List Int) :=
  loopFrom (fun i set => do
    let globalId ← readAt targetNeighbors i
    let localId := targetOwnedMap.LID globalId
    if localId = -1 then pure (setInsert globalId set) else pure set) 0 targetNeighbors.length []

/-- Lines 177-187 on one rank: the identifiers of the target overlap map, the target-owned
ones first and the off-processor ones after them. -/
def targetOverlapGlobalIds (targetOwnedMap : LocalMap) (targetNeighbors : List Val) :
    Except Failure (List Int) := do
  let offProcessorElements ← offProcessorElements targetOwnedMap targetNeighbors
  let numOffProcessorElements := offProcessorElements.length
  let targetNumOwnedPoints := targetOwnedMap.NumMyElements
  let ids := List.replicate (targetNumOwnedPoints + numOffProcessorElements) (0 : Int)
  let ids ← loopFrom (fun i ids => do
    let g ← readAt targetOwnedMap.MyGlobalElements i
    writeAt ids i g) 0 targetNumOwnedPoints ids
  let r ← loopFrom (fun index (st : List Int) => do
    let g ← readAt offProcessorElements index
    writeAt st ((targetNumOwnedPoints : Int) + index) g) 0 numOffProcessorElements ids
  pure r

/-- The local part of `Epetra_BlockMap(-1, n, ids, 1, 0, comm)`: element size one. -/
def pointMap (ids : List Int) : LocalMap := ids.map fun g => (g, 1)

/-- Lines 200-208 on one rank: the size with which the target list is allocated. -/
def computeTargetNeighborListSize (targetOwnedMap targetNeighborMap : LocalMap) :
    Except Failure Int :=
  loopFrom (fun i (targetNeighborListSize : Int) => do
    let targetNeighborListSize := targetNeighborListSize + 1
    let globalId := targetOwnedMap.GID i
    let localId := targetNeighborMap.LID globalId
    -- If the local id was not found, this means the point has no neighbors
    if localId = -1 then do
      let s ← targetNeighborMap.ElementSize localId
      pure (targetNeighborListSize + s)
    else pure targetNeighborListSize) 0 targetOwnedMap.NumMyElements 0

/-- Lines 215-233 on one rank: the fill loop, writing into the list allocated at line 211. -/
def fillTargetNeighborList (targetOwnedMap targetNeighborMap targetOverlapMap : LocalMap)
    (targetNeighbors : List Val) (targetNeighborList : List Int) : Except Failure (List Int) := do
  let r ← loopFrom (fun i (st : Int × List Int) => do
    let globalId := targetOwnedMap.GID i
    let localId := targetNeighborMap.LID globalId
    if localId = -1 then do
      let l ← writeAt st.2 st.1 0
      pure (st.1 + 1, l)
    else do
      let numNeighbors ← targetNeighborMap.ElementSize localId
      let l ← writeAt st.2 st.1 numNeighbors
      let firstPointInElement := targetNeighborMap.FirstPointInElement localId
      loopFrom (fun j (st : Int × List Int) => do
        let globalId ← readAt targetNeighbors (firstPointInElement + j)
        let localId := targetOverlapMap.LID globalId
        let l ← writeAt st.2 st.1 localId
        pure (st.1 + 1, l)) 0 numNeighbors (st.1 + 1, l))
    0 targetOwnedMap.NumMyElements (0, targetNeighborList)
  pure r.2

/-- The values `RebalanceNeighborhoodList` has built when it returns.  The three output
parameters are passed by value in the source, so these are the final values of the function's
own copies; the two neighbor maps and the received payload are kept for reference. -/
structure RebalanceOutput where
  currentNeighborMap : Epetra_BlockMap
  targetNeighborMap : Epetra_BlockMap
  targetNeighbors : Epetra_MultiVector
  targetOverlapMap : Epetra_BlockMap
  targetNeighborListSize : List Int
  targetNeighborList : List (List Int)
deriving DecidableEq, Repr

/-- The values built by lines 65-166: the two variable-length neighbor maps and the neighbor
payload received on the target side. -/
structure NeighborPayload where
  currentNeighborMap : Epetra_BlockMap
  targetNeighborMap : Epetra_BlockMap
  targetNeighbors : Epetra_MultiVector
deriving DecidableEq, Repr

/-- Lines 65-166 of `RebalanceNeighborhoodList`: count vectors, count import, the two
variable-length maps, and the payload import. -/
def neighborPayload (currentOwnedMap currentOverlapMap : Epetra_BlockMap)
    (currentNeighborList : List (List Int)) (targetOwnedMap : Epetra_BlockMap) :
    Except Failure NeighborPayload := do
  let ranks := List.range currentOwnedMap.parts.length
  -- Communicate the number of neighbors into the target decomposition
  let counts ← mapE (fun r =>
    currentCounts (currentOwnedMap.part r) (currentNeighborList.getD r [])) ranks
  let currentNumberOfNeighbors : Epetra_MultiVector :=
    { Epetra_Vector_new currentOwnedMap with data := counts.map fun c => [c] }
  let oneDimensionalImporter : Epetra_Import := ⟨currentOwnedMap, targetOwnedMap⟩
  let targetNumberOfNeighbors :=
    (Epetra_Vector_new targetOwnedMap).Import currentNumberOfNeighbors oneDimensionalImporter
  -- the variable-length map and vector in the current configuration
  let cur ← mapE (fun r =>
    buildNeighborMap (currentOwnedMap.part r) (currentNumberOfNeighbors.values r 0)
      (currentOwnedMap.part r).NumMyElements ([], [])) ranks
  let currentNeighborMap : Epetra_BlockMap := ⟨cur.map Prod.fst⟩
  let curData ← mapE (fun r =>
    fillCurrentNeighbors (currentOverlapMap.part r) (currentNeighborList.getD r [])
      (currentOwnedMap.part r).NumMyElements
      ((Epetra_Vector_new currentNeighborMap).values r 0)) ranks
  let currentNeighbors : Epetra_MultiVector :=
    { Epetra_Vector_new currentNeighborMap with data := curData.map fun c => [c] }
  -- the variable-length map and vector in the target configuration
  let tgt ← mapE (fun r =>
    buildNeighborMap (targetOwnedMap.part r) (targetNumberOfNeighbors.values r 0)
      (targetNumberOfNeighbors.values r 0).length ((cur.getD r ([], ([], []))).2)) ranks
  let targetNeighborMap : Epetra_BlockMap := ⟨tgt.map Prod.fst⟩
  -- Import the neighborhood data
  let neighborhoodImporter : Epetra_Import := ⟨currentNeighborMap, targetNeighborMap⟩
  let targetNeighbors :=
    (Epetra_Vector_new targetNeighborMap).Import currentNeighbors neighborhoodImporter
  pure ⟨currentNeighborMap, targetNeighborMap, targetNeighbors⟩

/-- `ProximitySearch::RebalanceNeighborhoodList`. -/
def RebalanceNeighborhoodList (currentOwnedMap currentOverlapMap : Epetra_BlockMap)
    (currentNeighborList : List (List Int)) (targetOwnedMap : Epetra_BlockMap) :
    Except Failure RebalanceOutput := do
  let ranks := List.range currentOwnedMap.parts.length
  let p ← neighborPayload currentOwnedMap currentOverlapMap currentNeighborList targetOwnedMap
  -- Create the target overlap map
  let ids ← mapE (fun r =>
    targetOverlapGlobalIds (targetOwnedMap.part r) (p.targetNeighbors.values r 0)) ranks
  let targetOverlapMap : Epetra_BlockMap := ⟨ids.map pointMap⟩
  -- Determine the size of the target neighbor list
  let sizes ← mapE (fun r =>
    computeTargetNeighborListSize (targetOwnedMap.part r) (p.targetNeighborMap.part r)) ranks
  -- Allocate and fill the target neighbor list
  let lists ← mapE (fun r =>
    fillTargetNeighborList (targetOwnedMap.part r) (p.targetNeighborMap.part r)
      (targetOverlapMap.part r) (p.targetNeighbors.values r 0)
      (List.replicate (sizes.getD r 0).toNat 0)) ranks
  pure ⟨p.currentNeighborMap, p.targetNeighborMap, p.targetNeighbors, targetOverlapMap, sizes,
    lists⟩

/-! ## Global proximity search -/

/-- Modelled from the spec: the spatial dataset handed to the partitioner (`QUICKGRID::Data`,
declared outside the sources), as far as `GlobalProximitySearch` touches it; the per-rank
members are indexed by rank. -/
structure QuickGridData where
  globalNumPoints : Nat
  numPoints : List Nat
  myGlobalIDs : List (List Int)
  cellVolume : List (List Val)
  myX : List (List Val)
deriving DecidableEq, Repr

/-- Lines 319-325 on one rank: identifiers, dummy volumes and coordinates copied into the
dataset allocated by `allocatePdGridData(numMyElements, 3)`. -/
def copyIntoDecomp (globalIds : List Int) (coordinates : List Val) (numMyElements : Nat) :
    Except Failure (List Int × List Val × List Val) :=
  loopFrom (fun i (st : List Int × List Val × List Val) => do
    let g ← readAt globalIds i
    let ids ← writeAt st.1 i g
    let vol ← writeAt st.2.1 i 1
    let c0 ← readAt coordinates ((i : Int) * 3)
    let xs ← writeAt st.2.2 ((i : Int) * 3) c0
    let c1 ← readAt coordinates ((i : Int) * 3 + 1)
    let xs ← writeAt xs ((i : Int) * 3 + 1) c1
    let c2 ← readAt coordinates ((i : Int) * 3 + 2)
    let xs ← writeAt xs ((i : Int) * 3 + 2) c2
    pure (ids, vol, xs)) 0 numMyElements
    (List.replicate numMyElements 0, List.replicate numMyElements 0,
      List.replicate (numMyElements * 3) 0)

/-- Lines 363-368 on one rank: the neighbor counts of the search result, one per point of the
working decomposition. -/
def countsOfSearchResult (neighborList : List Int) (numberOfNeighbors : List Val) :
    Except Failure (List Val) := do
  let r ← loopFrom (fun i (st : Int × List Val) => do
    let numNeighbors ← readAt neighborList st.1
    let v ← writeAt st.2 i numNeighbors
    pure (st.1 + numNeighbors, v)) 0 numberOfNeighbors.length (0, numberOfNeighbors)
  pure r.2

/-- What `GlobalProximitySearch` leaves behind: the caller's `neighborGlobalIdList` (passed by
reference) and, for reference, the two count vectors the function builds. -/
structure SearchOutput where
  neighborGlobalIdList : List (List Int)
  numberOfNeighborsRebalancedDecomp : Epetra_MultiVector
  numberOfNeighborsOriginalDecomp : Epetra_MultiVector
deriving DecidableEq, Repr

/-- `ProximitySearch::GlobalProximitySearch(x, searchRadius, neighborGlobalIdList)`.  The
partitioner (`PDNEIGH::getLoadBalancedDiscretization`) and the neighbor search
(`PDNEIGH::NeighborhoodList`, giving the flat list of each rank) are collaborators and are
parameters here. -/
def GlobalProximitySearch (getLoadBalancedDiscretization : QuickGridData → QuickGridData)
    (NeighborhoodList : QuickGridData → Val → List (List Int))
    (x : Epetra_MultiVector) (searchRadius : Val) (neighborGlobalIdList : List (List Int)) :
    Except Failure SearchOutput := do
  -- Copy information from the Epetra_Vector into a QUICKGRID::Data object
  let originalMap := x.map
  let ranks := List.range originalMap.parts.length
  let numGlobalElements := (originalMap.parts.map LocalMap.NumMyElements).sum
  let copied ← mapE (fun r =>
    copyIntoDecomp (originalMap.part r).MyGlobalElements (x.values r 0)
      (originalMap.part r).NumMyElements) ranks
  let decomp : QuickGridData :=
    { globalNumPoints := numGlobalElements
      numPoints := originalMap.parts.map LocalMap.NumMyElements
      myGlobalIDs := copied.map fun c => c.1
      cellVolume := copied.map fun c => c.2.1
      myX := copied.map fun c => c.2.2 }
  -- Rebalance the decomp (RCB decomposition via Zoltan)
  let decomp := getLoadBalancedDiscretization decomp
  -- Execute neighbor search
  let neighborList := NeighborhoodList decomp searchRadius
  -- Communicate the number of neighbors
  let rebalancedOneDimensionalMap : Epetra_BlockMap :=
    ⟨(List.range decomp.numPoints.length).map fun r =>
      pointMap ((decomp.myGlobalIDs.getD r []).take (decomp.numPoints.getD r 0))⟩
  let numberOfNeighborsRebalancedDecomp := Epetra_Vector_new rebalancedOneDimensionalMap
  let counts ← mapE (fun r =>
    countsOfSearchResult (neighborList.getD r []) (numberOfNeighborsRebalancedDecomp.values r 0))
    (List.range decomp.numPoints.length)
  let numberOfNeighborsRebalancedDecomp : Epetra_MultiVector :=
    { numberOfNeighborsRebalancedDecomp with data := counts.map fun c => [c] }
  let originalOneDimensionalMap : Epetra_BlockMap :=
    ⟨originalMap.parts.map fun p => pointMap p.MyGlobalElements⟩
  let numberOfNeighborsOriginalDecomp := Epetra_Vector_new originalOneDimensionalMap
  let oneDimensionalImporter : Epetra_Import :=
    ⟨originalOneDimensionalMap, rebalancedOneDimensionalMap⟩
  let numberOfNeighborsOriginalDecomp :=
    numberOfNeighborsOriginalDecomp.Import numberOfNeighborsRebalancedDecomp
      oneDimensionalImporter
  -- the function ends here: nothing is stored into neighborGlobalIdList
  pure ⟨neighborGlobalIdList, numberOfNeighborsRebalancedDecomp,
    numberOfNeighborsOriginalDecomp⟩

/-- Modelled from the spec: the squared distance of points `i` and `j` of flat coordinates. -/
def dist2 (xs : List Val) (i j : Nat) : Int :=
  (xs.getD (3 * i) 0 - xs.getD (3 * j) 0) ^ 2 + (xs.getD (3 * i + 1) 0 - xs.getD (3 * j + 1) 0) ^ 2
    + (xs.getD (3 * i + 2) 0 - xs.getD (3 * j + 2) 0) ^ 2

/-- Modelled from the spec: the radius-based neighbor query with the default filter (every
pair within the radius, a point excludes itself), for points that all live on their own rank:
per rank, the flat list of headers and references. -/
def radiusSearch (decomp : QuickGridData) (searchRadius : Val) : List (List Int) :=
  (List.range decomp.numPoints.length).map fun r =>
    let n := decomp.numPoints.getD r 0
    let xs := decomp.myX.getD r []
    (List.range n).flatMap fun i =>
      let nb := (List.range n).filter fun j => j ≠ i ∧ dist2 xs i j ≤ searchRadius ^ 2
      (nb.length : Int) :: nb.map fun j => (j : Int)

/-- Four points on a line at unit spacing, identifiers 0 to 3, on a single rank. -/
def fourPointsOnALine : Epetra_MultiVector :=
  { map := ⟨[[(0, 3), (1, 3), (2, 3), (3, 3)]]⟩
    NumVectors := 1
    data := [[[0, 0, 0, 1, 0, 0, 2, 0, 0, 3, 0, 0]]] }

/-! ## Ghost synchronisation (`DataManager::scatterToGhosts`) -/

/-- The temporal role of a State. -/
inductive Role where
  | NONE
  | N
  | NP1
deriving DecidableEq, Repr

/-- The State of a temporal role: `stateNONE`, `stateN` or `stateNP1`. -/
def DataManager.state (dm : DataManager) : Role → Option State
  | .NONE => dm.stateNONE
  | .N => dm.stateN
  | .NP1 => dm.stateNP1

/-- The Data Manager after the State object of a role has been updated in place. -/
def DataManager.setState (dm : DataManager) (role : Role) (s : State) : DataManager :=
  match role with
  | .NONE => { dm with stateNONE := some s }
  | .N => { dm with stateN := some s }
  | .NP1 => { dm with stateNP1 := some s }

/-- Lines 156-160 on one rank, for one field: each owned slot of the scratch buffer receives
the value of the overlap slot that holds the same global identifier. -/
def copyScalarData (overlapMap nonOverlapMap : LocalMap) (overlapData nonOverlapData : List Val) :
    Except Failure (List Val) :=
  loopFrom (fun iLID nonOverlapData => do
    let globalID := nonOverlapMap.GID iLID
    let overlapMapLocalID := overlapMap.LID globalID
    let v ← readAt overlapData overlapMapLocalID
    writeAt nonOverlapData iLID v) 0 nonOverlapMap.NumMyElements nonOverlapData

/-- Lines 185-191 on one rank, for one field: the same copy with stride three. -/
def copyVectorData (overlapMap nonOverlapMap : LocalMap) (overlapData nonOverlapData : List Val) :
    Except Failure (List Val) :=
  loopFrom (fun iLID nonOverlapData => do
    let globalID := nonOverlapMap.GID iLID
    let overlapMapLocalID := overlapMap.LID globalID
    let v ← readAt overlapData (overlapMapLocalID * 3)
    let nonOverlapData ← writeAt nonOverlapData ((iLID : Int) * 3) v
    let v ← readAt overlapData (overlapMapLocalID * 3 + 1)
    let nonOverlapData ← writeAt nonOverlapData ((iLID : Int) * 3 + 1) v
    let v ← readAt overlapData (overlapMapLocalID * 3 + 2)
    writeAt nonOverlapData ((iLID : Int) * 3 + 2) v) 0 nonOverlapMap.NumMyElements nonOverlapData

/-- Lines 233-240 on one rank, for one field: the copy of each variable-length element. -/
def copyBondData (overlapMap nonOverlapMap : LocalMap) (overlapData nonOverlapData : List Val) :
    Except Failure (List Val) :=
  loopFrom (fun iLID nonOverlapData => do
    let globalID := nonOverlapMap.GID iLID
    let overlapMapLocalID := overlapMap.LID globalID
    let nonOverlapMapOffset := nonOverlapMap.FirstPointInElement iLID
    let overlapMapOffset := overlapMap.FirstPointInElement overlapMapLocalID
    let size ← nonOverlapMap.ElementSize iLID
    loopFrom (fun i nonOverlapData => do
      let v ← readAt overlapData (overlapMapOffset + i)
      writeAt nonOverlapData (nonOverlapMapOffset + i) v) 0 size nonOverlapData)
    0 nonOverlapMap.NumMyElements nonOverlapData

/-- The frame shared by the three shapes (lines 146-165, 175-196, 224-245): a scratch buffer on
the owned map, the copy of the owned slots on every rank and for every field, and the import
of the scratch buffer back into the overlap buffer; `copy` is the copy loop of the shape. -/
def scatterMultiVector
    (copy : LocalMap → LocalMap → List Val → List Val → Except Failure (List Val))
    (overlapMap nonOverlapMap : Epetra_BlockMap) (overlapMultiVector : Epetra_MultiVector) :
    Except Failure Epetra_MultiVector := do
  let numVectors := overlapMultiVector.NumVectors
  let nonOverlapMultiVector := Epetra_MultiVector.new nonOverlapMap numVectors
  let data ← mapE (fun r => mapE (fun iVec =>
      copy (overlapMap.part r) (nonOverlapMap.part r) (overlapMultiVector.values r iVec)
        (nonOverlapMultiVector.values r iVec)) (List.range numVectors))
    (List.range nonOverlapMap.parts.length)
  let nonOverlapMultiVector := { nonOverlapMultiVector with data := data }
  let importer : Epetra_Import := ⟨overlapMap, nonOverlapMap⟩
  pure (overlapMultiVector.Import nonOverlapMultiVector importer)

/-- Lines 139-166: the scalar data of one State. -/
def scatterScalar (dm : DataManager) (role : Role) : Outcome :=
  match dm.state role with
  | none => .error (Failure.nullDereference, dm)
  | some state =>
    match state.scalarData with
    | none => .ok dm
    | some overlapMultiVector =>
      match dm.scalarMap, dm.ownedIDScalarMap with
      | some overlapMap, some nonOverlapMap =>
        match scatterMultiVector copyScalarData overlapMap nonOverlapMap overlapMultiVector with
        | .ok mv => .ok (dm.setState role { state with scalarData := some mv })
        | .error e => .error (e, dm)
      | _, _ => .error (Failure.NullReferenceError, dm)

/-- Lines 168-197: the vector data of one State. -/
def scatterVector (dm : DataManager) (role : Role) : Outcome :=
  match dm.state role with
  | none => .error (Failure.nullDereference, dm)
  | some state =>
    match state.vectorData with
    | none => .ok dm
    | some overlapMultiVector =>
      match dm.vectorMap, dm.ownedIDVectorMap with
      | some overlapMap, some nonOverlapMap =>
        match scatterMultiVector copyVectorData overlapMap nonOverlapMap overlapMultiVector with
        | .ok mv => .ok (dm.setState role { state with vectorData := some mv })
        | .error e => .error (e, dm)
      | _, _ => .error (Failure.NullReferenceError, dm)

/-- Lines 211-216 on one rank: the element size of every owned point, looked up in the overlap
bond map. -/
def ownedElementSizes (ownedIDScalarMap bondMap : LocalMap) : Except Failure (List Nat) :=
  loopFrom (fun iLID elementSizeList => do
    let globalID := ownedIDScalarMap.GID iLID
    let bondMapLocalID := bondMap.LID globalID
    let s ← bondMap.ElementSize bondMapLocalID
    writeAt elementSizeList iLID s) 0 ownedIDScalarMap.NumMyElements
    (List.replicate ownedIDScalarMap.NumMyElements 0)

/-- Lines 207-222: the owned-side bond map derived from the owned scalar map. -/
def deriveOwnedIDBondMap (ownedIDScalarMap bondMap : Epetra_BlockMap) :
    Except Failure Epetra_BlockMap := do
  let parts ← mapE (fun r => do
      let elementSizeList ← ownedElementSizes (ownedIDScalarMap.part r) (bondMap.part r)
      pure ((ownedIDScalarMap.part r).MyGlobalElements.zip elementSizeList))
    (List.range ownedIDScalarMap.parts.length)
  pure ⟨parts⟩

/-- Lines 206-222: `if(ownedIDBondMap.is_null())` derive it from the owned scalar map; gives
the Data Manager with the map stored, and the map. -/
def ensureOwnedIDBondMap (dm : DataManager) (bondMap : Epetra_BlockMap) :
    Except (Failure × DataManager) (DataManager × Epetra_BlockMap) :=
  match dm.ownedIDBondMap with
  | some m => .ok (dm, m)
  | none =>
    match dm.ownedIDScalarMap with
    | none => .error (Failure.nullDereference, dm)
    | some owned =>
      match deriveOwnedIDBondMap owned bondMap with
      | .ok m => .ok ({ dm with ownedIDBondMap := some m }, m)
      | .error e => .error (e, dm)

/-- Lines 199-246: the bond data of one State. -/
def scatterBond (dm : DataManager) (role : Role) : Outcome :=
  match dm.state role with
  | none => .error (Failure.nullDereference, dm)
  | some state =>
    match state.bondData with
    | none => .ok dm
    | some overlapMultiVector =>
      match dm.bondMap with
      | none => .error (Failure.NullReferenceError, dm)
      | some overlapMap =>
        -- if a ownedIDBondMap has not been created, do so now
        match ensureOwnedIDBondMap dm overlapMap with
        | .error e => .error e
        | .ok (dm, nonOverlapMap) =>
          match scatterMultiVector copyBondData overlapMap nonOverlapMap overlapMultiVector with
          | .ok mv => .ok (dm.setState role { state with bondData := some mv })
          | .error e => .error (e, dm)

/-- One pass of the loop over the three States (lines 131-247). -/
def scatterRole (dm : DataManager) (role : Role) : Outcome := do
  let dm ← scatterScalar dm role
  let dm ← scatterVector dm role
  scatterBond dm role

/-- `DataManager::scatterToGhosts()`. -/
def DataManager.scatterToGhosts (dm : DataManager) : Outcome := do
  let dm ← scatterRole dm Role.NONE
  let dm ← scatterRole dm Role.N
  scatterRole dm Role.NP1

/-! ## Migration to a new decomposition (`DataManager::rebalance`) -/

/-- Lines 265-282 for one shape: an importer from the old map to the new one when either is set,
which then requires both. -/
def makeImporter (dm : DataManager) (oldMap rebalancedMap : Option Epetra_BlockMap) :
    Except (Failure × DataManager) (Option Epetra_Import) :=
  match oldMap, rebalancedMap with
  | none, none => .ok none
  | some old, some new => .ok (some ⟨new, old⟩)
  | _, _ => .error (Failure.NullReferenceError, dm)

/-- The statement pair `rebalancedState->allocate...Data(specs, map);
rebalancedState->get...MultiVector()->Import(*state->get...MultiVector(), *importer, Insert)`
for one shape: the freshly allocated buffer with the old buffer imported into it. -/
def importBuffer (specs : List FieldSpec) (rebalancedMap : Option Epetra_BlockMap)
    (oldBuffer : Option (Option Epetra_MultiVector)) (importer : Option Epetra_Import) :
    Except Failure Epetra_MultiVector :=
  match rebalancedMap with
  | none => .error .nullDereference
  | some m =>
    match oldBuffer with
    | some (some old) =>
      match importer with
      | some imp => .ok ((Epetra_MultiVector.new m specs.length).Import old imp)
      | none => .error .nullDereference
    | _ => .error .nullDereference

/-- Lines 286-298, 304-316 and 318-330: the rebalanced State of one temporal role. -/
def rebalancedState (scalarSpecs vectorSpecs bondSpecs : List FieldSpec) (state : Option State)
    (rebalancedScalarMap rebalancedVectorMap rebalancedBondMap : Option Epetra_BlockMap)
    (scalarImporter vectorImporter bondImporter : Option Epetra_Import) :
    Except Failure State := do
  let s := State.new
  let s ← if scalarSpecs.length > 0 then do
      let mv ← importBuffer scalarSpecs rebalancedScalarMap (state.map State.scalarData)
        scalarImporter
      pure { s with scalarFieldSpecs := scalarSpecs, scalarData := some mv }
    else pure s
  let s ← if vectorSpecs.length > 0 then do
      let mv ← importBuffer vectorSpecs rebalancedVectorMap (state.map State.vectorData)
        vectorImporter
      pure { s with vectorFieldSpecs := vectorSpecs, vectorData := some mv }
    else pure s
  let s ← if bondSpecs.length > 0 then do
      let mv ← importBuffer bondSpecs rebalancedBondMap (state.map State.bondData) bondImporter
      pure { s with bondFieldSpecs := bondSpecs, bondData := some mv }
    else pure s
  pure s

/-- The first statement of `rebalance`: `rebalanceCount++`. -/
def DataManager.countRebalance (dm : DataManager) : DataManager :=
  { dm with rebalanceCount := dm.rebalanceCount + 1 }

/-- `DataManager::rebalance(rebalancedOwnedIDScalarMap, rebalancedOwnedIDVectorMap,
rebalancedScalarMap, rebalancedVectorMap, rebalancedBondMap)`. -/
def DataManager.rebalance (dm : DataManager)
    (rebalancedOwnedIDScalarMap rebalancedOwnedIDVectorMap rebalancedScalarMap
      rebalancedVectorMap rebalancedBondMap : Option Epetra_BlockMap) : Outcome := do
  let dm := dm.countRebalance
  let dm ← dm.scatterToGhosts
  -- importers
  let scalarImporter ← makeImporter dm dm.scalarMap rebalancedScalarMap
  let vectorImporter ← makeImporter dm dm.vectorMap rebalancedVectorMap
  let bondImporter ← makeImporter dm dm.bondMap rebalancedBondMap
  -- state NONE
  let dm ←
    if dm.statelessScalarFieldSpecs.length + dm.statelessVectorFieldSpecs.length
        + dm.statelessBondFieldSpecs.length > 0 then do
      let s ← liftStep dm (rebalancedState dm.statelessScalarFieldSpecs
        dm.statelessVectorFieldSpecs dm.statelessBondFieldSpecs dm.stateNONE
        rebalancedScalarMap rebalancedVectorMap rebalancedBondMap
        scalarImporter vectorImporter bondImporter)
      pure { dm with stateNONE := some s }
    else pure dm
  -- states N and NP1
  let dm ←
    if dm.statefulScalarFieldSpecs.length + dm.statefulVectorFieldSpecs.length
        + dm.statefulBondFieldSpecs.length > 0 then do
      let sN ← liftStep dm (rebalancedState dm.statefulScalarFieldSpecs
        dm.statefulVectorFieldSpecs dm.statefulBondFieldSpecs dm.stateN
        rebalancedScalarMap rebalancedVectorMap rebalancedBondMap
        scalarImporter vectorImporter bondImporter)
      let dm := { dm with stateN := some sN }
      let sNP1 ← liftStep dm (rebalancedState dm.statefulScalarFieldSpecs
        dm.statefulVectorFieldSpecs dm.statefulBondFieldSpecs dm.stateNP1
        rebalancedScalarMap rebalancedVectorMap rebalancedBondMap
        scalarImporter vectorImporter bondImporter)
      pure { dm with stateNP1 := some sNP1 }
    else pure dm
  -- Maps
  pure { dm with ownedIDScalarMap := rebalancedOwnedIDScalarMap
                 ownedIDVectorMap := rebalancedOwnedIDVectorMap
                 ownedIDBondMap := none
                 scalarMap := rebalancedScalarMap
                 vectorMap := rebalancedVectorMap
                 bondMap := rebalancedBondMap }

/-! ## Concrete inputs -/

/-- A stateless scalar field. -/
def specA : FieldSpec := ⟨7, FieldLength.SCALAR, FieldStateArchitecture.STATELESS⟩

/-- Two points, identifiers 0 and 1, on a single rank, element size one. -/
def twoPoints : Epetra_BlockMap := ⟨[[(0, 1), (1, 1)]]⟩

/-- Three points, identifiers 0 to 2, on a single rank, element size one. -/
def threePoints : Epetra_BlockMap := ⟨[[(0, 1), (1, 1), (2, 1)]]⟩

/-- A Data Manager with the scalar maps set to `twoPoints` and nothing allocated. -/
def scalarManager : DataManager :=
  DataManager.withMaps (some twoPoints) none (some twoPoints) none none

/-- The buckets a call of `allocateData` leaves, when it returns. -/
def bucketsAfter (o : Outcome) : Option (List (List FieldSpec)) := o.toOption.map DataManager.buckets

/-- A stateful bond field. -/
def specD : FieldSpec := ⟨4, FieldLength.BOND, FieldStateArchitecture.STATEFUL⟩

/-- Owned identifiers of a two-rank decomposition: 0 and 1 on rank 0, 2 and 3 on rank 1. -/
def splitOwnedMap : Epetra_BlockMap := ⟨[[(0, 1), (1, 1)], [(2, 1), (3, 1)]]⟩

/-- The matching overlap map: rank 0 ghosts identifier 2, rank 1 ghosts identifier 1. -/
def splitOverlapMap : Epetra_BlockMap := ⟨[[(0, 1), (1, 1), (2, 1)], [(2, 1), (3, 1), (1, 1)]]⟩

/-- The matching bond map: identifiers 0 and 3 have one bond, 1 and 2 have two. -/
def splitBondMap : Epetra_BlockMap := ⟨[[(0, 1), (1, 2), (2, 2)], [(2, 2), (3, 1), (1, 2)]]⟩

/-- A stateful vector field. -/
def specC : FieldSpec := ⟨3, FieldLength.VECTOR3D, FieldStateArchitecture.STATEFUL⟩

/-- The owned vector map of the two-rank decomposition (element size 3). -/
def splitOwnedVectorMap : Epetra_BlockMap := ⟨[[(0, 3), (1, 3)], [(2, 3), (3, 3)]]⟩

/-- The overlap vector map of the two-rank decomposition (element size 3). -/
def splitVectorMap : Epetra_BlockMap := ⟨[[(0, 3), (1, 3), (2, 3)], [(2, 3), (3, 3), (1, 3)]]⟩

/-- The State of `splitManager` for a stateful role, with the given bond values and with
vector values counting up from `v` on rank 0 and from `v + 100` on rank 1. -/
def splitBondState (v : Val) (rank0 rank1 : List Val) : State :=
  { State.new with
    vectorFieldSpecs := [specC]
    bondFieldSpecs := [specD]
    vectorData := some ⟨splitVectorMap, 1,
      [[(List.range 9).map fun i => v + i], [(List.range 9).map fun i => v + 100 + i]]⟩
    bondData := some ⟨splitBondMap, 1, [[rank0], [rank1]]⟩ }

/-- A two-rank Data Manager as `allocateData [specA, specC, specD]` leaves it, after the fields
have been written: on each rank the ghost slot holds a value of its own. -/
def splitManager : DataManager :=
  { DataManager.withMaps (some splitOwnedMap) (some splitOwnedVectorMap) (some splitOverlapMap)
      (some splitVectorMap) (some splitBondMap) with
    fieldSpecs := [specC, specD, specA]
    statelessScalarFieldSpecs := [specA]
    statefulVectorFieldSpecs := [specC]
    statefulBondFieldSpecs := [specD]
    stateNONE := some { State.new with
      scalarFieldSpecs := [specA]
      scalarData := some ⟨splitOverlapMap, 1, [[[10, 11, 12]], [[20, 21, 22]]]⟩ }
    stateN := some (splitBondState 1000 [30, 31, 32, 33, 34] [40, 41, 42, 43, 44])
    stateNP1 := some (splitBondState 2000 [50, 51, 52, 53, 54] [60, 61, 62, 63, 64]) }

/-- The Data Manager a failed call leaves behind, with the failure. -/
def failedWith (o : Outcome) : Option (Failure × DataManager) :=
  match o with
  | .ok _ => none
  | .error e => some e

/-- What fixes the layout of a buffer: its map and its number of fields. -/
def Epetra_MultiVector.layout (v : Epetra_MultiVector) : Epetra_BlockMap × Nat :=
  (v.map, v.NumVectors)

/-- What a State holds apart from the values: the allocated fields and the layout of each
buffer. -/
def State.layout (s : State) :
    List FieldSpec × List FieldSpec × List FieldSpec × Option (Epetra_BlockMap × Nat)
      × Option (Epetra_BlockMap × Nat) × Option (Epetra_BlockMap × Nat) :=
  (s.scalarFieldSpecs, s.vectorFieldSpecs, s.bondFieldSpecs,
    s.scalarData.map Epetra_MultiVector.layout, s.vectorData.map Epetra_MultiVector.layout,
    s.bondData.map Epetra_MultiVector.layout)

/-- The Data Manager `b` differs from `a` at most in the values held by the buffers and in the
derived owned bond map: counter, field lists, owned and overlap maps are the same, and every
State is present in both or in neither, with the same fields on the same maps. -/
def DataManager.SameDecomposition (a b : DataManager) : Prop :=
  b.rebalanceCount = a.rebalanceCount
    ∧ b.fieldSpecs = a.fieldSpecs
    ∧ b.buckets = a.buckets
    ∧ b.ownedIDScalarMap = a.ownedIDScalarMap
    ∧ b.ownedIDVectorMap = a.ownedIDVectorMap
    ∧ b.scalarMap = a.scalarMap
    ∧ b.vectorMap = a.vectorMap
    ∧ b.bondMap = a.bondMap
    ∧ ∀ role, (b.state role).map State.layout = (a.state role).map State.layout

/-- What `splitManager` is after a call of `rebalance` with the maps it already has, except
that the new scalar overlap map is null, has failed. -/
def splitManagerAfterFailure : DataManager :=
  match failedWith (splitManager.rebalance (some splitOwnedMap) (some splitOwnedVectorMap) none
      (some splitVectorMap) (some splitBondMap))
    with
  | some f => f.2
  | none => splitManager

/-! ## Well-formedness of maps and buffers -/

/-- Every element of the local part has element size `c`. -/
def LocalMap.ConstantSize (m : LocalMap) (c : Nat) : Prop := ∀ e ∈ m, e.2 = c

/-- Every element on every rank has element size `c`. -/
def Epetra_BlockMap.ConstantSize (m : Epetra_BlockMap) (c : Nat) : Prop :=
  ∀ p ∈ m.parts, LocalMap.ConstantSize p c

/-- The scratch data `d` on the owned part `no` holds, for every owned element, the values that
`ovData` on the overlap part `ov` holds for the same global identifier, the element having the
same size in both parts. -/
def Gathered (ov no : LocalMap) (ovData d : List Val) : Prop :=
  d.length = no.NumMyPoints ∧ ∀ j e, no[j]? = some e →
    e.1 ∈ ov.MyGlobalElements
      ∧ (ov.getD (ov.MyGlobalElements.indexOf e.1) (0, 0)).2 = e.2
      ∧ elemAt no d j = elemAt ov ovData (ov.MyGlobalElements.indexOf e.1)

/-- No global identifier is held by two ranks: the property of an owned map. -/
def Epetra_BlockMap.OneToOne (m : Epetra_BlockMap) : Prop :=
  ∀ p ∈ List.range m.parts.length, ∀ q ∈ List.range m.parts.length,
    ∀ g ∈ (m.part p).MyGlobalElements, g ∈ (m.part q).MyGlobalElements → p = q

/-- A global identifier has the same element size on every rank that holds it. -/
def Epetra_BlockMap.SizesAgree (m : Epetra_BlockMap) : Prop :=
  ∀ p ∈ m.parts, ∀ q ∈ m.parts, ∀ e ∈ p, ∀ e' ∈ q, e.1 = e'.1 → e.2 = e'.2

/-- The buffer holds, on every rank of its map and for every field, as many values as the
rank's part of the map has points. -/
def Epetra_MultiVector.WellSized (v : Epetra_MultiVector) : Prop :=
  ∀ r ∈ List.range v.map.parts.length, ∀ iVec ∈ List.range v.NumVectors,
    (v.values r iVec).length = (v.map.part r).NumMyPoints

/-- The three data shapes. -/
inductive Shape where
  | scalar
  | vector
  | bond
deriving DecidableEq, Repr

/-- The buffer a State holds for a shape (`getScalarMultiVector`, `getVectorMultiVector`,
`getBondMultiVector`). -/
def State.buffer (s : State) : Shape → Option Epetra_MultiVector
  | .scalar => s.scalarData
  | .vector => s.vectorData
  | .bond => s.bondData

/-- The overlap buffer of a temporal role and a shape, when the State and the buffer exist. -/
def DataManager.buffer (dm : DataManager) (role : Role) (shape : Shape) :
    Option Epetra_MultiVector :=
  (dm.state role).bind fun s => s.buffer shape

/-- The overlap map of a shape. -/
def DataManager.overlapMap (dm : DataManager) : Shape → Option Epetra_BlockMap
  | .scalar => dm.scalarMap
  | .vector => dm.vectorMap
  | .bond => dm.bondMap

/-- The map that says which rank owns which point of a shape; for bond data it is the owned
scalar map, from which the owned bond map is derived. -/
def DataManager.ownedMap (dm : DataManager) : Shape → Option Epetra_BlockMap
  | .scalar => dm.ownedIDScalarMap
  | .vector => dm.ownedIDVectorMap
  | .bond => dm.ownedIDScalarMap

/-- The buffer `mv'` is the ghost-synchronised buffer `mv`: same layout, every element whose
global identifier is owned by a rank `p` holds the values rank `p` held for that identifier in
its own part of `mv`, and an element whose identifier no rank owns holds what it held. -/
def ScatterOf (ov own : Epetra_BlockMap) (mv mv' : Epetra_MultiVector) : Prop :=
  mv'.layout = mv.layout ∧
    ∀ (r iVec i : Nat) (e : Int × Nat), r < ov.parts.length → iVec < mv.NumVectors →
      (ov.part r)[i]? = some e →
      (∀ p, e.1 ∈ (own.part p).MyGlobalElements →
        e.1 ∈ (ov.part p).MyGlobalElements
          ∧ elemAt (ov.part r) (mv'.values r iVec) i
            = elemAt (ov.part p) (mv.values p iVec) ((ov.part p).MyGlobalElements.indexOf e.1))
      ∧ ((∀ p, e.1 ∉ (own.part p).MyGlobalElements) →
        elemAt (ov.part r) (mv'.values r iVec) i = elemAt (ov.part r) (mv.values r iVec) i)

/-- What the collaborators guarantee of the maps handed to the Data Manager: owned maps are
one-to-one, scalar maps have element size 1 and vector maps element size 3, and the bond map
gives a point the same number of bonds on every rank. -/
def DataManager.MapsConsistent (dm : DataManager) : Prop :=
  (∀ m, dm.ownedIDScalarMap = some m → m.OneToOne ∧ m.ConstantSize 1)
    ∧ (∀ m, dm.ownedIDVectorMap = some m → m.OneToOne ∧ m.ConstantSize 3)
    ∧ (∀ m, dm.scalarMap = some m → m.ConstantSize 1)
    ∧ (∀ m, dm.vectorMap = some m → m.ConstantSize 3)
    ∧ (∀ m, dm.bondMap = some m → m.SizesAgree)

/-- The owned bond map, when present, is the one `scatterToGhosts` derives from the current owned
scalar map and bond map. -/
def DataManager.OwnedBondMapDerived (dm : DataManager) : Prop :=
  ∀ m, dm.ownedIDBondMap = some m →
    ∃ o b, dm.ownedIDScalarMap = some o ∧ dm.bondMap = some b ∧ deriveOwnedIDBondMap o b = .ok m

/-- Every buffer is laid out on the Data Manager's overlap map of its shape and sized to it. -/
def DataManager.BuffersOnMaps (dm : DataManager) : Prop :=
  ∀ role shape mv, dm.buffer role shape = some mv →
    dm.overlapMap shape = some mv.map ∧ mv.WellSized

/-- The state of a Data Manager between calls: consistent maps, and buffers allocated on them. -/
def DataManager.WellFormed (dm : DataManager) : Prop :=
  dm.MapsConsistent ∧ dm.OwnedBondMapDerived ∧ dm.BuffersOnMaps

/-- What the part of `scatterToGhosts` for one State and one shape does: the maps stay, every
other buffer stays, and the buffer of that State and shape, when there is one, is
ghost-synchronised. -/
def StepSpec (dm dm' : DataManager) (role : Role) (shape : Shape) : Prop :=
  dm'.WellFormed
    ∧ (∀ sh, dm'.overlapMap sh = dm.overlapMap sh ∧ dm'.ownedMap sh = dm.ownedMap sh)
    ∧ (∀ role' shape', (role', shape') ≠ (role, shape) →
        dm'.buffer role' shape' = dm.buffer role' shape')
    ∧ (dm.buffer role shape = none → dm'.buffer role shape = none)
    ∧ (∀ mv, dm.buffer role shape = some mv →
        ∃ mv' ov own, dm'.buffer role shape = some mv' ∧ dm.overlapMap shape = some ov
          ∧ dm.ownedMap shape = some own ∧ ScatterOf ov own mv mv')

/-- What `scatterToGhosts` has done after the steps for the buffers listed in `done`: the maps
are as before, the buffers not yet reached are as before, and every buffer in `done` is
ghost-synchronised. -/
def RunSpec (done : List (Role × Shape)) (dm dm' : DataManager) : Prop :=
  dm'.WellFormed
    ∧ (∀ sh, dm'.overlapMap sh = dm.overlapMap sh ∧ dm'.ownedMap sh = dm.ownedMap sh)
    ∧ (∀ role shape, (role, shape) ∉ done → dm'.buffer role shape = dm.buffer role shape)
    ∧ (∀ role shape, (role, shape) ∈ done →
        (dm.buffer role shape = none → dm'.buffer role shape = none)
        ∧ ∀ mv, dm.buffer role shape = some mv →
          ∃ mv' ov own, dm'.buffer role shape = some mv' ∧ dm.overlapMap shape = some ov
            ∧ dm.ownedMap shape = some own ∧ ScatterOf ov own mv mv')

/-- What `splitManager` is after `scatterToGhosts`. -/
def splitManagerScattered : DataManager :=
  match splitManager.scatterToGhosts with
  | .ok dm => dm
  | .error _ => splitManager

/-- The new overlap map of a shape among the arguments of `rebalance`. -/
def rebalancedMapOf (rebalancedScalarMap rebalancedVectorMap rebalancedBondMap :
    Option Epetra_BlockMap) : Shape → Option Epetra_BlockMap
  | .scalar => rebalancedScalarMap
  | .vector => rebalancedVectorMap
  | .bond => rebalancedBondMap

/-- A new decomposition for `splitManager`: rank 0 keeps point 0, points 1, 2 and 3 are owned
by rank 1. -/
def movedOwnedMap : Epetra_BlockMap := ⟨[[(0, 1)], [(1, 1), (2, 1), (3, 1)]]⟩

/-- Three points on a single rank with 2, 1 and 2 bonds. -/
def threeBondPoints : Epetra_BlockMap := ⟨[[(0, 2), (1, 1), (2, 2)]]⟩

/-- A stateful scalar field. -/
def specB : FieldSpec := ⟨8, FieldLength.SCALAR, FieldStateArchitecture.STATEFUL⟩

/-- A stateless bond field. -/
def specE : FieldSpec := ⟨5, FieldLength.BOND, FieldStateArchitecture.STATELESS⟩

/-- The Data Manager a call leaves when it returns, and otherwise the one given. -/
def returnedOr (dm : DataManager) (o : Outcome) : DataManager :=
  match o with
  | .ok d => d
  | .error _ => dm

/-- The Data Manager `allocateData [specB]` creates on the maps of `scalarManager`: only a
stateful field, so `stateN` and `stateNP1` are created and `stateNONE` stays null. -/
def statefulOnlyManager : DataManager :=
  returnedOr scalarManager (scalarManager.allocateData [specB])

/-- The Data Manager `allocateData [specA]` creates on the maps of `scalarManager`: only a
stateless field, so `stateNONE` is created and `stateN`, `stateNP1` stay null. -/
def statelessOnlyManager : DataManager :=
  returnedOr scalarManager (scalarManager.allocateData [specA])

/-- A Data Manager whose owned scalar map holds identifiers 0 and 1 while its scalar overlap
map holds identifier 0 only, with the stateless scalar field `specA` allocated. -/
def lostPointManager : DataManager :=
  returnedOr scalarManager
    ((DataManager.withMaps (some twoPoints) none (some ⟨[[(0, 1)]]⟩) none none).allocateData
      [specA])

/-- An overlap bond map for three owned points of which point 2 has no bonds: the map cannot
hold an element of size zero, so point 2 is absent from it. -/
def twoBondedPoints : Epetra_BlockMap := ⟨[[(0, 1), (1, 1)]]⟩

/-- A Data Manager on three owned points, point 2 without bonds, with the stateless bond field
`specE` allocated. -/
def zeroBondManager : DataManager :=
  returnedOr scalarManager
    ((DataManager.withMaps (some threePoints) none (some threePoints) none
      (some twoBondedPoints)).allocateData [specE])

/-- Lines 67-87 of `RebalanceNeighborhoodList`: the count vector on the current owned map, the
importer as the source constructs it, and `targetNumberOfNeighbors` after the import.  These are
the first statements of `neighborPayload`. -/
def targetNumberOfNeighbors (currentOwnedMap : Epetra_BlockMap)
    (currentNeighborList : List (List Int)) (targetOwnedMap : Epetra_BlockMap) :
    Except Failure Epetra_MultiVector := do
  let ranks := List.range currentOwnedMap.parts.length
  let counts ← mapE (fun r =>
    currentCounts (currentOwnedMap.part r) (currentNeighborList.getD r [])) ranks
  let currentNumberOfNeighbors : Epetra_MultiVector :=
    { Epetra_Vector_new currentOwnedMap with data := counts.map fun c => [c] }
  let oneDimensionalImporter : Epetra_Import := ⟨currentOwnedMap, targetOwnedMap⟩
  pure ((Epetra_Vector_new targetOwnedMap).Import currentNumberOfNeighbors oneDimensionalImporter)

/-- The flat neighbor list of the two-rank decomposition `splitOwnedMap` with overlap map
`splitOverlapMap`, for four points on a line: per rank, header and overlap-local references. -/
def splitNeighborList : List (List Int) := [[1, 1, 2, 0, 2], [2, 2, 1, 1, 0]]

/-- The count vector of `splitNeighborList` on the current owned map. -/
def splitCounts : Epetra_MultiVector := ⟨splitOwnedMap, 1, [[[1, 2]], [[2, 1]]]⟩

/-- The shape tag that stands for a data shape. -/
def Shape.tag : Shape → FieldLength
  | .scalar => FieldLength.SCALAR
  | .vector => FieldLength.VECTOR3D
  | .bond => FieldLength.BOND

/-- The number of classified fields of a shape, stateless and stateful together: the sums
tested at lines 83, 86 and 89 of `allocateData`. -/
def DataManager.numClassified (dm : DataManager) : Shape → Nat
  | .scalar => dm.statelessScalarFieldSpecs.length + dm.statefulScalarFieldSpecs.length
  | .vector => dm.statelessVectorFieldSpecs.length + dm.statefulVectorFieldSpecs.length
  | .bond => dm.statelessBondFieldSpecs.length + dm.statefulBondFieldSpecs.length

/-- The Data Manager `b` has the three States and the overlap maps of `a`. -/
def DataManager.KeepsStates (a b : DataManager) : Prop :=
  b.stateNONE = a.stateNONE ∧ b.stateN = a.stateN ∧ b.stateNP1 = a.stateNP1
    ∧ ∀ sh, b.overlapMap sh = a.overlapMap sh

/-- A Data Manager with no map set and nothing allocated. -/
def bareManager : DataManager := DataManager.withMaps none none none none none

/-- A field with a shape tag the Data Manager does not know. -/
def specX : FieldSpec := ⟨9, FieldLength.other 0, FieldStateArchitecture.STATELESS⟩

/-- The part of one pass of the loop of `scatterToGhosts` that processes one shape. -/
def scatterStep (dm : DataManager) (role : Role) : Shape → Outcome
  | .scalar => scatterScalar dm role
  | .vector => scatterVector dm role
  | .bond => scatterBond dm role

/-- The parts of `scatterToGhosts` for the listed buffers, one after the other; the first
failure ends the run. -/
def scatterSteps : List (Role × Shape) → DataManager → Outcome
  | [], dm => .ok dm
  | k :: rest, dm =>
    match scatterStep dm k.1 k.2 with
    | .ok d => scatterSteps rest d
    | .error e => .error e

/-- The order in which `scatterToGhosts` processes the buffers: the States in the order NONE,
N, NP1, and in each State scalar, vector and bond data. -/
def scatterOrder : List (Role × Shape) :=
  [(Role.NONE, Shape.scalar), (Role.NONE, Shape.vector), (Role.NONE, Shape.bond),
   (Role.N, Shape.scalar), (Role.N, Shape.vector), (Role.N, Shape.bond),
   (Role.NP1, Shape.scalar), (Role.NP1, Shape.vector), (Role.NP1, Shape.bond)]

/-- C5 (code defect).  `allocateData` on the list holding the stateless scalar field `specA`
twice puts `specA` twice into the stateless-scalar bucket, whereas on the list with the
duplicate removed the bucket holds it once: the vector keeps its size after `std::unique`. -/
theorem C5_allocateData_keeps_duplicates :
    bucketsAfter (scalarManager.allocateData [specA, specA])
        = some [[specA, specA], [], [], [], [], []]
      ∧ bucketsAfter (scalarManager.allocateData [specA]) = some [[specA], [], [], [], [], []] := by
  constructor <;> rfl

/-- C9 (code defect).  For two points that are each other's only neighbor the size pass
computes 2, the fill loop overruns a list of that size, and it is a list of 4 entries that the
fill loop fills exactly. -/
theorem C9_targetNeighborListSize_too_small :
    computeTargetNeighborListSize (twoPoints.part 0) (twoPoints.part 0) = .ok 2
      ∧ fillTargetNeighborList (twoPoints.part 0) (twoPoints.part 0) (twoPoints.part 0) [1, 0]
          (List.replicate 2 0) = .error Failure.outOfBounds
      ∧ fillTargetNeighborList (twoPoints.part 0) (twoPoints.part 0) (twoPoints.part 0) [1, 0]
          (List.replicate 4 0) = .ok [1, 1, 1, 0] := by
  refine ⟨?_, ?_, ?_⟩ <;> rfl

/-- C4 (code defect).  With target equal to current, three points on a line (neighbor lists
`{1}`, `{0,2}`, `{1}`), the payload reaches the target side unchanged, yet the call does not
produce a target list: the list is allocated with 3 entries and the fill loop writes 7. -/
theorem C4_roundTrip_overruns_targetList :
    (neighborPayload threePoints threePoints [[1, 1, 2, 0, 2, 1, 1]] threePoints).toOption.map
        (fun p => p.targetNeighbors.data) = some [[[1, 0, 2, 1]]]
      ∧ computeTargetNeighborListSize (threePoints.part 0) [(0, 1), (1, 2), (2, 1)] = .ok 3
      ∧ RebalanceNeighborhoodList threePoints threePoints [[1, 1, 2, 0, 2, 1, 1]] threePoints
          = .error Failure.outOfBounds := by
  refine ⟨?_, ?_, ?_⟩ <;> rfl

/-- C7 (code defect).  With point 2 having no neighbors, both variable-length neighbor maps
leave point 2 out, and the size pass then reads the element size at local index -1 of the
target neighbor map, so the call does not produce a target list. -/
theorem C7_zeroNeighborPoint_reads_outside_map :
    (neighborPayload threePoints threePoints [[1, 1, 1, 0, 0]] threePoints).toOption.map
        (fun p => (p.currentNeighborMap, p.targetNeighborMap))
        = some (⟨[[(0, 1), (1, 1)]]⟩, ⟨[[(0, 1), (1, 1)]]⟩)
      ∧ computeTargetNeighborListSize (threePoints.part 0) [(0, 1), (1, 1)]
          = .error Failure.outOfBounds
      ∧ RebalanceNeighborhoodList threePoints threePoints [[1, 1, 1, 0, 0]] threePoints
          = .error Failure.outOfBounds := by
  refine ⟨?_, ?_, ?_⟩ <;> rfl

/-- C10 (code defect).  For the four points on a line and radius 1 the neighbor search finds
the counts 1,2,2,1 and the sets `{1}`, `{0,2}`, `{1,3}`, `{2}`, and `GlobalProximitySearch`
returns with the caller's neighbor list as it was passed in (here empty). -/
theorem C10_globalSearch_output_untouched :
    radiusSearch ⟨4, [4], [[0, 1, 2, 3]], [[1, 1, 1, 1]], fourPointsOnALine.data.getD 0 []⟩ 1
        = [[1, 1, 2, 0, 2, 2, 1, 3, 1, 2]]
      ∧ (GlobalProximitySearch id radiusSearch fourPointsOnALine 1 [[]]).toOption.map
          (fun o => o.neighborGlobalIdList) = some [[]] := by
  constructor <;> rfl

/-! ## Loops and raw arrays: basic facts -/

theorem loopFrom_total {σ : Type} (body : Nat → σ → Except Failure σ) (P : Nat → σ → Prop) :
    ∀ (n start : Nat) (s : σ), P start s →
      (∀ i t, start ≤ i → i < start + n → P i t → ∃ t', body i t = .ok t' ∧ P (i + 1) t') →
      ∃ s', loopFrom body start n s = .ok s' ∧ P (start + n) s' := by
  intro n
  induction n with
  | zero => intro start s h0 _; exact ⟨s, rfl, by simpa using h0⟩
  | succ n ih =>
    intro start s h0 hstep
    obtain ⟨t', hb, hP⟩ := hstep start s (Nat.le_refl _) (by omega) h0
    obtain ⟨s', hl, hP'⟩ := ih (start + 1) t' hP (fun i t h1 h2 hPi =>
      hstep i t (by omega) (by omega) hPi)
    refine ⟨s', ?_, ?_⟩
    · simp only [loopFrom, hb]; exact hl
    · have : start + (n + 1) = start + 1 + n := by omega
      rw [this]; exact hP'

theorem loopFrom_partial {σ : Type} (body : Nat → σ → Except Failure σ) (P : Nat → σ → Prop) :
    ∀ (n start : Nat) (s s' : σ), loopFrom body start n s = .ok s' → P start s →
      (∀ i t t', start ≤ i → i < start + n → P i t → body i t = .ok t' → P (i + 1) t') →
      P (start + n) s' := by
  intro n
  induction n with
  | zero =>
    intro start s s' h h0 _
    simp only [loopFrom, Except.ok.injEq] at h
    subst h; simpa using h0
  | succ n ih =>
    intro start s s' h h0 hstep
    simp only [loopFrom] at h
    cases hb : body start s with
    | error e => rw [hb] at h; simp at h
    | ok t =>
      rw [hb] at h
      have hP := hstep start s t (Nat.le_refl _) (by omega) h0 hb
      have := ih (start + 1) t s' h hP (fun i u u' h1 h2 hPi hbi =>
        hstep i u u' (by omega) (by omega) hPi hbi)
      have e : start + (n + 1) = start + 1 + n := by omega
      rw [e]; exact this

theorem readAt_nat {α : Type} (a : List α) (i : Nat) (v : α) (h : a[i]? = some v) :
    readAt a (i : Int) = .ok v := by
  simp [readAt, List.get?_eq_getElem?, h]

theorem readAt_ok {α : Type} {a : List α} {i : Int} {v : α} (h : readAt a i = .ok v) :
    0 ≤ i ∧ a[i.toNat]? = some v := by
  unfold readAt at h
  split at h
  · simp at h
  · rename_i hi
    rw [List.get?_eq_getElem?] at h
    cases hg : a[i.toNat]? with
    | none => rw [hg] at h; simp at h
    | some w =>
      rw [hg] at h
      simp only [Except.ok.injEq] at h
      subst h
      exact ⟨by omega, rfl⟩

theorem writeAt_nat {α : Type} (a : List α) (i : Nat) (v : α) (h : i < a.length) :
    writeAt a (i : Int) v = .ok (a.set i v) := by
  simp [writeAt, h]

theorem writeAt_ok {α : Type} {a b : List α} {i : Int} {v : α} (h : writeAt a i v = .ok b) :
    0 ≤ i ∧ i.toNat < a.length ∧ b = a.set i.toNat v := by
  unfold writeAt at h
  split at h
  · simp at h
  · split at h
    · simp only [Except.ok.injEq] at h
      exact ⟨by omega, by assumption, h.symm⟩
    · simp at h

/-! ## The target overlap map -/

theorem length_MyGlobalElements (m : LocalMap) : m.MyGlobalElements.length = m.length := by
  simp [LocalMap.MyGlobalElements]

theorem LID_eq_neg_one_iff (m : LocalMap) (g : Int) :
    m.LID g = -1 ↔ g ∉ m.MyGlobalElements := by
  unfold LocalMap.LID
  rw [← length_MyGlobalElements m]
  by_cases h : g ∈ m.MyGlobalElements
  · have h' := List.indexOf_lt_length.mpr h
    simp only [h', if_true, h, not_true, iff_false]
    omega
  · have h' : ¬ List.indexOf g m.MyGlobalElements < m.MyGlobalElements.length :=
      fun c => h (List.indexOf_lt_length.mp c)
    simp [h', h]

theorem LID_of_mem (m : LocalMap) (g : Int) (h : g ∈ m.MyGlobalElements) :
    m.LID g = (m.MyGlobalElements.indexOf g : Int) := by
  unfold LocalMap.LID
  rw [← length_MyGlobalElements m]
  simp [List.indexOf_lt_length.mpr h]

theorem MyGlobalElements_pointMap (ids : List Int) : (pointMap ids).MyGlobalElements = ids := by
  simp [pointMap, LocalMap.MyGlobalElements, Function.comp_def]

theorem mem_setInsert (x a : Int) (l : List Int) : a ∈ setInsert x l ↔ a = x ∨ a ∈ l := by
  induction l with
  | nil => simp [setInsert]
  | cons y ys ih =>
    unfold setInsert
    split
    · simp
    · split
      · rename_i h; subst h; simp
      · simp [ih]; tauto

theorem sorted_setInsert (x : Int) (l : List Int) (h : l.Sorted (· < ·)) :
    (setInsert x l).Sorted (· < ·) := by
  induction l with
  | nil => simp [setInsert]
  | cons y ys ih =>
    have hy := List.sorted_cons.mp h
    unfold setInsert
    split
    · rename_i hxy
      refine List.sorted_cons.mpr ⟨?_, h⟩
      intro b hb
      rcases List.mem_cons.mp hb with hb | hb
      · subst hb; exact hxy
      · exact lt_trans hxy (hy.1 b hb)
    · split
      · exact h
      · rename_i h1 h2
        refine List.sorted_cons.mpr ⟨?_, ih hy.2⟩
        intro b hb
        rcases (mem_setInsert x b ys).mp hb with hb | hb
        · subst hb; omega
        · exact hy.1 b hb

theorem offProcessorElements_spec (m : LocalMap) (nbrs : List Val) :
    ∃ off, offProcessorElements m nbrs = .ok off ∧ off.Sorted (· < ·)
      ∧ ∀ g, g ∈ off ↔ g ∈ nbrs ∧ g ∉ m.MyGlobalElements := by
  have h := loopFrom_total
    (fun i set => do
      let globalId ← readAt nbrs i
      let localId := m.LID globalId
      if localId = -1 then pure (setInsert globalId set) else pure set)
    (fun i set => set.Sorted (· < ·) ∧ ∀ g, g ∈ set ↔ g ∈ nbrs.take i ∧ g ∉ m.MyGlobalElements)
    nbrs.length 0 [] (by simp) (by
      intro i t _ hi hP
      have hi' : i < nbrs.length := by omega
      have hr : readAt nbrs (i : Int) = .ok nbrs[i] :=
        readAt_nat nbrs i _ (List.getElem?_eq_getElem hi')
      have htake : nbrs.take (i + 1) = nbrs.take i ++ [nbrs[i]] := by
        rw [List.take_succ, List.getElem?_eq_getElem hi']; rfl
      by_cases hl : m.LID nbrs[i] = -1
      · refine ⟨setInsert nbrs[i] t, ?_, sorted_setInsert _ _ hP.1, ?_⟩
        · simp [hr, hl, bind, Except.bind, pure, Except.pure]
        · intro g
          rw [mem_setInsert, hP.2 g, htake, List.mem_append, List.mem_singleton]
          have := (LID_eq_neg_one_iff m nbrs[i]).mp hl
          constructor
          · rintro (h | h)
            · subst h; exact ⟨Or.inr rfl, this⟩
            · exact ⟨Or.inl h.1, h.2⟩
          · rintro ⟨h | h, h2⟩
            · exact Or.inr ⟨h, h2⟩
            · exact Or.inl h
      · refine ⟨t, ?_, hP.1, ?_⟩
        · simp [hr, hl, bind, Except.bind, pure, Except.pure]
        · intro g
          rw [hP.2 g, htake, List.mem_append, List.mem_singleton]
          have hin : nbrs[i] ∈ m.MyGlobalElements := by
            by_contra hh
            exact hl ((LID_eq_neg_one_iff m nbrs[i]).mpr hh)
          constructor
          · rintro ⟨h1, h2⟩; exact ⟨Or.inl h1, h2⟩
          · rintro ⟨h | h, h2⟩
            · exact ⟨h, h2⟩
            · subst h; exact absurd hin h2)
  obtain ⟨off, hoff, hs, hm⟩ := h
  refine ⟨off, hoff, hs, ?_⟩
  intro g
  have := hm g
  simpa using this

theorem copyLoop_spec (src : List Int) (base n : Nat) (ids : List Int) (hn : n ≤ src.length)
    (hlen : base + n ≤ ids.length) :
    ∃ r, loopFrom (fun i a => do
        let g ← readAt src i
        writeAt a ((base : Int) + i) g) 0 n ids = .ok r
      ∧ r.length = ids.length
      ∧ ∀ j, r[j]? = if base ≤ j ∧ j < base + n then src[j - base]? else ids[j]? := by
  have h := loopFrom_total
    (fun i a => do
        let g ← readAt src i
        writeAt a ((base : Int) + i) g)
    (fun i a => a.length = ids.length
      ∧ ∀ j, a[j]? = if base ≤ j ∧ j < base + i then src[j - base]? else ids[j]?)
    n 0 ids (by
      refine ⟨rfl, fun j => ?_⟩
      have : ¬ (base ≤ j ∧ j < base + 0) := by omega
      simp only [this, if_false]) (by
      intro i t _ hi hP
      have hi' : i < src.length := by omega
      have hr : readAt src (i : Int) = .ok src[i] :=
        readAt_nat src i _ (List.getElem?_eq_getElem hi')
      have hw : writeAt t ((base : Int) + i) src[i] = .ok (t.set (base + i) src[i]) := by
        have := writeAt_nat t (base + i) src[i] (by rw [hP.1]; omega)
        simpa using this
      refine ⟨t.set (base + i) src[i], ?_, ?_, ?_⟩
      · simp [hr, hw, bind, Except.bind]
      · simp [hP.1]
      · intro j
        rw [List.getElem?_set, hP.2 j]
        by_cases hj : base + i = j
        · subst hj
          have : base + i < t.length := by rw [hP.1]; omega
          simp [this, List.getElem?_eq_getElem hi']
        · simp only [hj, if_false]
          by_cases h1 : base ≤ j ∧ j < base + i
          · have h2 : base ≤ j ∧ j < base + (i + 1) := ⟨h1.1, by omega⟩
            simp [h1, h2]
          · have h2 : ¬ (base ≤ j ∧ j < base + (i + 1)) := by
              intro c; apply h1; exact ⟨c.1, by omega⟩
            simp [h1, h2])
  obtain ⟨r, hr, hl, hg⟩ := h
  refine ⟨r, hr, hl, ?_⟩
  intro j
  have := hg j
  simpa using this

theorem targetOverlapGlobalIds_eq (m : LocalMap) (nbrs : List Val) (off : List Int)
    (hoff : offProcessorElements m nbrs = .ok off) :
    targetOverlapGlobalIds m nbrs = .ok (m.MyGlobalElements ++ off) := by
  have hlen := length_MyGlobalElements m
  obtain ⟨r1, h1, l1, g1⟩ := copyLoop_spec m.MyGlobalElements 0 m.length
    (List.replicate (m.length + off.length) 0) (by omega) (by simp)
  obtain ⟨r2, h2, l2, g2⟩ := copyLoop_spec off m.length off.length r1 (le_refl _)
    (by rw [l1]; simp)
  have e : r2 = m.MyGlobalElements ++ off := by
    apply List.ext_getElem?
    intro j
    rw [g2 j, g1 j]
    by_cases hj : j < m.length
    · have : ¬ (m.length ≤ j ∧ j < m.length + off.length) := by omega
      simp [this, hj, List.getElem?_append_left (hlen ▸ hj)]
    · rw [List.getElem?_append_right (by omega), hlen]
      by_cases hk : j < m.length + off.length
      · simp [hk, Nat.le_of_not_lt hj]
      · have : ¬ (m.length ≤ j ∧ j < m.length + off.length) := by omega
        simp only [this, if_false, Nat.zero_le, true_and, hj, zero_add]
        rw [List.getElem?_eq_none (by simp; omega), List.getElem?_eq_none (by omega)]
  simp only [Nat.cast_zero, zero_add, bind, Except.bind] at h1 h2
  unfold targetOverlapGlobalIds
  simp only [hoff, LocalMap.NumMyElements, bind, Except.bind, pure, Except.pure]
  rw [h1]
  simp only []
  rw [h2, e]

theorem GID_nat (m : LocalMap) (i : Nat) :
    m.GID (i : Int) = (m.MyGlobalElements[i]?).getD (-1) := by
  simp only [LocalMap.GID, LocalMap.MyGlobalElements, List.get?_eq_getElem?, Int.toNat_ofNat,
    List.getElem?_map]
  have : ¬ ((i : Int) < 0) := by omega
  simp only [this, if_false]
  cases m[i]? <;> rfl

/-- C8.  On every rank and for every received neighbor payload, the identifier list from which
`RebalanceNeighborhoodList` builds the target overlap map is the target-owned identifiers in
their order followed by a list `off` that holds, once each, exactly the received neighbor
identifiers the target owned map does not hold; every owned point keeps its local index and its
identifier, a duplicate-free owned map gives a duplicate-free overlap map, and every received
neighbor identifier resolves in the overlap map (never -1). -/
theorem C8_targetOverlapMap_owned_then_ghosts (targetOwnedMap : LocalMap)
    (targetNeighbors : List Val) :
    ∃ off : List Int,
      targetOverlapGlobalIds targetOwnedMap targetNeighbors
          = .ok (targetOwnedMap.MyGlobalElements ++ off)
      ∧ off.Nodup
      ∧ (∀ g, g ∈ off ↔ g ∈ targetNeighbors ∧ g ∉ targetOwnedMap.MyGlobalElements)
      ∧ (∀ i : Nat, i < targetOwnedMap.NumMyElements →
          (pointMap (targetOwnedMap.MyGlobalElements ++ off)).GID i = targetOwnedMap.GID i)
      ∧ (∀ g ∈ targetOwnedMap.MyGlobalElements,
          (pointMap (targetOwnedMap.MyGlobalElements ++ off)).LID g = targetOwnedMap.LID g)
      ∧ (targetOwnedMap.MyGlobalElements.Nodup →
          (targetOwnedMap.MyGlobalElements ++ off).Nodup)
      ∧ (∀ g ∈ targetNeighbors,
          (pointMap (targetOwnedMap.MyGlobalElements ++ off)).LID g ≠ -1) := by
  obtain ⟨off, hoff, hsorted, hmem⟩ := offProcessorElements_spec targetOwnedMap targetNeighbors
  have hnodup : off.Nodup := hsorted.nodup
  refine ⟨off, targetOverlapGlobalIds_eq _ _ _ hoff, hnodup, hmem, ?_, ?_, ?_, ?_⟩
  · intro i hi
    have hi' : i < targetOwnedMap.MyGlobalElements.length := by
      rw [length_MyGlobalElements]; exact hi
    rw [GID_nat, GID_nat, MyGlobalElements_pointMap, List.getElem?_append_left hi']
  · intro g hg
    rw [LID_of_mem _ _ hg, LID_of_mem _ _ (by rw [MyGlobalElements_pointMap]; simp [hg]),
      MyGlobalElements_pointMap, List.indexOf_append_of_mem hg]
  · intro h
    rw [List.nodup_append]
    refine ⟨h, hnodup, ?_⟩
    intro g hg1 hg2
    exact ((hmem g).mp hg2).2 hg1
  · intro g hg hl
    rw [LID_eq_neg_one_iff, MyGlobalElements_pointMap, List.mem_append] at hl
    by_cases h : g ∈ targetOwnedMap.MyGlobalElements
    · exact hl (Or.inl h)
    · exact hl (Or.inr ((hmem g).mpr ⟨hg, h⟩))

/-- Witness for C8: owned identifiers 0 and 1, received neighbors 5, 1, 3, 5, 0, -1. -/
theorem C8_targetOverlapMap_witness :
    ∃ off : List Int,
      targetOverlapGlobalIds (twoPoints.part 0) [5, 1, 3, 5, 0, -1]
          = .ok ((twoPoints.part 0).MyGlobalElements ++ off)
      ∧ ((twoPoints.part 0).MyGlobalElements ++ off).Nodup := by
  obtain ⟨off, h1, _, _, _, _, h6, _⟩ :=
    C8_targetOverlapMap_owned_then_ghosts (twoPoints.part 0) [5, 1, 3, 5, 0, -1]
  exact ⟨off, h1, h6 (by decide)⟩

theorem DataManager.SameDecomposition.refl (a : DataManager) : a.SameDecomposition a :=
  ⟨rfl, rfl, rfl, rfl, rfl, rfl, rfl, rfl, fun _ => rfl⟩

theorem DataManager.SameDecomposition.trans {a b c : DataManager} (h1 : a.SameDecomposition b)
    (h2 : b.SameDecomposition c) : a.SameDecomposition c := by
  obtain ⟨a1, a2, a3, a4, a5, a6, a7, a8, a9⟩ := h1
  obtain ⟨b1, b2, b3, b4, b5, b6, b7, b8, b9⟩ := h2
  exact ⟨b1.trans a1, b2.trans a2, b3.trans a3, b4.trans a4, b5.trans a5, b6.trans a6,
    b7.trans a7, b8.trans a8, fun r => (b9 r).trans (a9 r)⟩

theorem Import_layout (dst src : Epetra_MultiVector) (imp : Epetra_Import) :
    (dst.Import src imp).layout = dst.layout := by
  unfold Epetra_MultiVector.Import
  split
  · rfl
  · split
    · rfl
    · split <;> rfl

theorem scatterMultiVector_layout
    (copy : LocalMap → LocalMap → List Val → List Val → Except Failure (List Val))
    (ov no : Epetra_BlockMap) (mv mv' : Epetra_MultiVector)
    (h : scatterMultiVector copy ov no mv = .ok mv') : mv'.layout = mv.layout := by
  unfold scatterMultiVector at h
  simp only [bind, Except.bind, pure, Except.pure] at h
  split at h
  · simp at h
  · simp only [Except.ok.injEq] at h
    rw [← h, Import_layout]

theorem setState_same (dm : DataManager) (role : Role) (s s' : State)
    (hs : dm.state role = some s) (hl : s'.layout = s.layout) :
    dm.SameDecomposition (dm.setState role s') := by
  refine ⟨?_, ?_, ?_, ?_, ?_, ?_, ?_, ?_, ?_⟩
  all_goals first
    | (cases role <;> rfl)
    | (intro r
       cases role <;> cases r <;>
         simp_all [DataManager.setState, DataManager.state])

theorem scatterScalar_same (dm dm' : DataManager) (role : Role)
    (h : scatterScalar dm role = .ok dm' ∨ ∃ e, scatterScalar dm role = .error (e, dm')) :
    dm.SameDecomposition dm' := by
  unfold scatterScalar at h
  cases hs : dm.state role with
  | none =>
    simp only [hs] at h
    rcases h with h | ⟨e, h⟩
    · simp at h
    · simp only [Except.error.injEq, Prod.mk.injEq] at h
      rw [← h.2]; exact DataManager.SameDecomposition.refl dm
  | some s =>
    simp only [hs] at h
    cases hd : s.scalarData with
    | none =>
      simp only [hd] at h
      rcases h with h | ⟨e, h⟩
      · simp only [Except.ok.injEq] at h
        rw [← h]; exact DataManager.SameDecomposition.refl dm
      · simp at h
    | some mv =>
      simp only [hd] at h
      split at h
      · rename_i ov no _ _
        cases hm : scatterMultiVector copyScalarData ov no mv with
        | error x =>
          simp only [hm] at h
          rcases h with h | ⟨e, h⟩
          · simp at h
          · simp only [Except.error.injEq, Prod.mk.injEq] at h
            rw [← h.2]; exact DataManager.SameDecomposition.refl dm
        | ok mv' =>
          simp only [hm] at h
          rcases h with h | ⟨e, h⟩
          · simp only [Except.ok.injEq] at h
            rw [← h]
            apply setState_same dm role s _ hs
            have := scatterMultiVector_layout _ _ _ _ _ hm
            simp only [State.layout, hd, Option.map_some', this]
          · simp at h
      · rcases h with h | ⟨e, h⟩
        · simp at h
        · simp only [Except.error.injEq, Prod.mk.injEq] at h
          rw [← h.2]; exact DataManager.SameDecomposition.refl dm

theorem scatterVector_same (dm dm' : DataManager) (role : Role)
    (h : scatterVector dm role = .ok dm' ∨ ∃ e, scatterVector dm role = .error (e, dm')) :
    dm.SameDecomposition dm' := by
  unfold scatterVector at h
  cases hs : dm.state role with
  | none =>
    simp only [hs] at h
    rcases h with h | ⟨e, h⟩
    · simp at h
    · simp only [Except.error.injEq, Prod.mk.injEq] at h
      rw [← h.2]; exact DataManager.SameDecomposition.refl dm
  | some s =>
    simp only [hs] at h
    cases hd : s.vectorData with
    | none =>
      simp only [hd] at h
      rcases h with h | ⟨e, h⟩
      · simp only [Except.ok.injEq] at h
        rw [← h]; exact DataManager.SameDecomposition.refl dm
      · simp at h
    | some mv =>
      simp only [hd] at h
      split at h
      · rename_i ov no _ _
        cases hm : scatterMultiVector copyVectorData ov no mv with
        | error x =>
          simp only [hm] at h
          rcases h with h | ⟨e, h⟩
          · simp at h
          · simp only [Except.error.injEq, Prod.mk.injEq] at h
            rw [← h.2]; exact DataManager.SameDecomposition.refl dm
        | ok mv' =>
          simp only [hm] at h
          rcases h with h | ⟨e, h⟩
          · simp only [Except.ok.injEq] at h
            rw [← h]
            apply setState_same dm role s _ hs
            have := scatterMultiVector_layout _ _ _ _ _ hm
            simp only [State.layout, hd, Option.map_some', this]
          · simp at h
      · rcases h with h | ⟨e, h⟩
        · simp at h
        · simp only [Except.error.injEq, Prod.mk.injEq] at h
          rw [← h.2]; exact DataManager.SameDecomposition.refl dm

theorem withOwnedBondMap_same (dm : DataManager) (m : Option Epetra_BlockMap) :
    dm.SameDecomposition { dm with ownedIDBondMap := m } :=
  ⟨rfl, rfl, rfl, rfl, rfl, rfl, rfl, rfl, fun r => by cases r <;> rfl⟩

theorem ensureOwnedIDBondMap_state (dm : DataManager) (ov : Epetra_BlockMap) (d1 : DataManager)
    (no : Epetra_BlockMap) (h : ensureOwnedIDBondMap dm ov = .ok (d1, no)) (role : Role) :
    d1.state role = dm.state role := by
  unfold ensureOwnedIDBondMap at h
  split at h
  · simp only [Except.ok.injEq, Prod.mk.injEq] at h
    rw [← h.1]
  · split at h
    · simp at h
    · split at h
      · simp only [Except.ok.injEq, Prod.mk.injEq] at h
        rw [← h.1]; cases role <;> rfl
      · simp at h

theorem ensureOwnedIDBondMap_same (dm : DataManager) (ov : Epetra_BlockMap) (d1 : DataManager)
    (h : (∃ no, ensureOwnedIDBondMap dm ov = .ok (d1, no))
      ∨ ∃ e, ensureOwnedIDBondMap dm ov = .error (e, d1)) :
    dm.SameDecomposition d1 := by
  unfold ensureOwnedIDBondMap at h
  split at h
  · rcases h with ⟨no, h⟩ | ⟨e, h⟩
    · simp only [Except.ok.injEq, Prod.mk.injEq] at h
      rw [← h.1]; exact DataManager.SameDecomposition.refl dm
    · simp at h
  · split at h
    · rcases h with ⟨no, h⟩ | ⟨e, h⟩
      · simp at h
      · simp only [Except.error.injEq, Prod.mk.injEq] at h
        rw [← h.2]; exact DataManager.SameDecomposition.refl dm
    · split at h
      · rcases h with ⟨no, h⟩ | ⟨e, h⟩
        · simp only [Except.ok.injEq, Prod.mk.injEq] at h
          rw [← h.1]; exact withOwnedBondMap_same dm _
        · simp at h
      · rcases h with ⟨no, h⟩ | ⟨e, h⟩
        · simp at h
        · simp only [Except.error.injEq, Prod.mk.injEq] at h
          rw [← h.2]; exact DataManager.SameDecomposition.refl dm

theorem scatterBond_same (dm dm' : DataManager) (role : Role)
    (h : scatterBond dm role = .ok dm' ∨ ∃ e, scatterBond dm role = .error (e, dm')) :
    dm.SameDecomposition dm' := by
  unfold scatterBond at h
  cases hs : dm.state role with
  | none =>
    simp only [hs] at h
    rcases h with h | ⟨e, h⟩
    · simp at h
    · simp only [Except.error.injEq, Prod.mk.injEq] at h
      rw [← h.2]; exact DataManager.SameDecomposition.refl dm
  | some s =>
    simp only [hs] at h
    cases hd : s.bondData with
    | none =>
      simp only [hd] at h
      rcases h with h | ⟨e, h⟩
      · simp only [Except.ok.injEq] at h
        rw [← h]; exact DataManager.SameDecomposition.refl dm
      · simp at h
    | some mv =>
      simp only [hd] at h
      cases hb : dm.bondMap with
      | none =>
        simp only [hb] at h
        rcases h with h | ⟨e, h⟩
        · simp at h
        · simp only [Except.error.injEq, Prod.mk.injEq] at h
          rw [← h.2]; exact DataManager.SameDecomposition.refl dm
      | some ov =>
        simp only [hb] at h
        cases he : ensureOwnedIDBondMap dm ov with
        | error x =>
          simp only [he] at h
          rcases h with h | ⟨e, h⟩
          · simp at h
          · simp only [Except.error.injEq] at h
            have := ensureOwnedIDBondMap_same dm ov x.2 (Or.inr ⟨x.1, he⟩)
            rw [h] at this
            exact this
        | ok x =>
          obtain ⟨d1, no⟩ := x
          simp only [he] at h
          have h1 := ensureOwnedIDBondMap_same dm ov d1 (Or.inl ⟨no, he⟩)
          have hs1 : d1.state role = some s := by
            have := ensureOwnedIDBondMap_state dm ov d1 no he role
            rw [this, hs]
          cases hm : scatterMultiVector copyBondData ov no mv with
          | error y =>
            simp only [hm] at h
            rcases h with h | ⟨e, h⟩
            · simp at h
            · simp only [Except.error.injEq, Prod.mk.injEq] at h
              rw [← h.2]; exact h1
          | ok mv' =>
            simp only [hm] at h
            rcases h with h | ⟨e, h⟩
            · simp only [Except.ok.injEq] at h
              rw [← h]
              refine DataManager.SameDecomposition.trans h1 ?_
              apply setState_same d1 role s _ hs1
              have := scatterMultiVector_layout _ _ _ _ _ hm
              simp only [State.layout, hd, Option.map_some', this]
            · simp at h

theorem scatterRole_same (dm dm' : DataManager) (role : Role)
    (h : scatterRole dm role = .ok dm' ∨ ∃ e, scatterRole dm role = .error (e, dm')) :
    dm.SameDecomposition dm' := by
  unfold scatterRole at h
  simp only [bind, Except.bind] at h
  cases h1 : scatterScalar dm role with
  | error x =>
    simp only [h1] at h
    rcases h with h | ⟨e, h⟩
    · simp at h
    · simp only [Except.error.injEq] at h
      exact scatterScalar_same dm dm' role (Or.inr ⟨e, by rw [h1, h]⟩)
  | ok d1 =>
    simp only [h1] at h
    have s1 := scatterScalar_same dm d1 role (Or.inl h1)
    cases h2 : scatterVector d1 role with
    | error x =>
      simp only [h2] at h
      rcases h with h | ⟨e, h⟩
      · simp at h
      · simp only [Except.error.injEq] at h
        exact s1.trans (scatterVector_same d1 dm' role (Or.inr ⟨e, by rw [h2, h]⟩))
    | ok d2 =>
      simp only [h2] at h
      exact (s1.trans (scatterVector_same d1 d2 role (Or.inl h2))).trans
        (scatterBond_same d2 dm' role h)

theorem scatterToGhosts_same (dm dm' : DataManager)
    (h : dm.scatterToGhosts = .ok dm' ∨ ∃ e, dm.scatterToGhosts = .error (e, dm')) :
    dm.SameDecomposition dm' := by
  unfold DataManager.scatterToGhosts at h
  simp only [bind, Except.bind] at h
  cases h1 : scatterRole dm Role.NONE with
  | error x =>
    simp only [h1] at h
    rcases h with h | ⟨e, h⟩
    · simp at h
    · simp only [Except.error.injEq] at h
      exact scatterRole_same dm dm' _ (Or.inr ⟨e, by rw [h1, h]⟩)
  | ok d1 =>
    simp only [h1] at h
    have s1 := scatterRole_same dm d1 _ (Or.inl h1)
    cases h2 : scatterRole d1 Role.N with
    | error x =>
      simp only [h2] at h
      rcases h with h | ⟨e, h⟩
      · simp at h
      · simp only [Except.error.injEq] at h
        exact s1.trans (scatterRole_same d1 dm' _ (Or.inr ⟨e, by rw [h2, h]⟩))
    | ok d2 =>
      simp only [h2] at h
      exact (s1.trans (scatterRole_same d1 d2 _ (Or.inl h2))).trans
        (scatterRole_same d2 dm' _ h)

theorem importBuffer_error (specs : List FieldSpec) (m : Option Epetra_BlockMap)
    (old : Option (Option Epetra_MultiVector)) (imp : Option Epetra_Import) (e : Failure)
    (h : importBuffer specs m old imp = .error e) : e = Failure.nullDereference := by
  unfold importBuffer at h
  repeat' split at h
  all_goals simp_all

theorem rebalancedState_error (a b c : List FieldSpec) (st : Option State)
    (m1 m2 m3 : Option Epetra_BlockMap) (i1 i2 i3 : Option Epetra_Import) (e : Failure)
    (h : rebalancedState a b c st m1 m2 m3 i1 i2 i3 = .error e) :
    e = Failure.nullDereference := by
  unfold rebalancedState at h
  simp only [bind, Except.bind, pure, Except.pure] at h
  repeat' split at h
  all_goals first
    | (simp at h; done)
    | (simp only [Except.error.injEq] at h; subst h; apply importBuffer_error; assumption)

theorem makeImporter_error (dm d : DataManager) (old new : Option Epetra_BlockMap) (e : Failure)
    (h : makeImporter dm old new = .error (e, d)) :
    e = Failure.NullReferenceError ∧ d = dm ∧ old.isSome ≠ new.isSome := by
  unfold makeImporter at h
  split at h
  · simp at h
  · simp at h
  · simp only [Except.error.injEq, Prod.mk.injEq] at h
    refine ⟨h.1.symm, h.2.symm, ?_⟩
    cases old <;> cases new <;> simp_all

theorem liftStep_error {α : Type} (dm d : DataManager) (x : Except Failure α) (e : Failure)
    (h : liftStep dm x = .error (e, d)) : x = .error e := by
  unfold liftStep at h
  split at h
  · simp at h
  · simp only [Except.error.injEq, Prod.mk.injEq] at h
    rw [h.1]

theorem rebalance_thrown (dm dm' : DataManager) (e : Failure)
    (m1 m2 m3 m4 m5 : Option Epetra_BlockMap)
    (h : dm.rebalance m1 m2 m3 m4 m5 = .error (e, dm')) (ht : e.isThrown = true) :
    dm.countRebalance.scatterToGhosts = .error (e, dm')
      ∨ (dm.countRebalance.scatterToGhosts = .ok dm' ∧ e = Failure.NullReferenceError
          ∧ (dm.scalarMap.isSome ≠ m3.isSome ∨ dm.vectorMap.isSome ≠ m4.isSome
              ∨ dm.bondMap.isSome ≠ m5.isSome)) := by
  unfold DataManager.rebalance at h
  simp only [bind, Except.bind, pure, Except.pure] at h
  cases hs : dm.countRebalance.scatterToGhosts with
  | error x =>
    simp only [hs] at h
    left; rw [h]
  | ok d1 =>
    right
    simp only [hs] at h
    have hsame := scatterToGhosts_same _ d1 (Or.inl hs)
    obtain ⟨-, -, -, -, -, hsm, hvm, hbm, -⟩ := hsame
    have hsm' : d1.scalarMap = dm.scalarMap := hsm
    have hvm' : d1.vectorMap = dm.vectorMap := hvm
    have hbm' : d1.bondMap = dm.bondMap := hbm
    cases hi1 : makeImporter d1 d1.scalarMap m3 with
    | error x =>
      simp only [hi1, Except.error.injEq] at h
      subst h
      obtain ⟨he, hd, hne⟩ := makeImporter_error _ _ _ _ _ hi1
      rw [hsm'] at hne
      exact ⟨by rw [hd], he, Or.inl hne⟩
    | ok i1 =>
      simp only [hi1] at h
      cases hi2 : makeImporter d1 d1.vectorMap m4 with
      | error x =>
        simp only [hi2, Except.error.injEq] at h
        subst h
        obtain ⟨he, hd, hne⟩ := makeImporter_error _ _ _ _ _ hi2
        rw [hvm'] at hne
        exact ⟨by rw [hd], he, Or.inr (Or.inl hne)⟩
      | ok i2 =>
        simp only [hi2] at h
        cases hi3 : makeImporter d1 d1.bondMap m5 with
        | error x =>
          simp only [hi3, Except.error.injEq] at h
          subst h
          obtain ⟨he, hd, hne⟩ := makeImporter_error _ _ _ _ _ hi3
          rw [hbm'] at hne
          exact ⟨by rw [hd], he, Or.inr (Or.inr hne)⟩
        | ok i3 =>
          simp only [hi3] at h
          exfalso
          have key : e = Failure.nullDereference := by
            repeat' split at h
            all_goals first
              | (simp at h; done)
              | (simp only [Except.error.injEq] at h
                 rename_i hl
                 rw [h] at hl
                 exact rebalancedState_error _ _ _ _ _ _ _ _ _ _ e (liftStep_error _ _ _ _ hl))
          rw [key] at ht
          simp [Failure.isThrown] at ht

/-- C6 (counterexample).  On the two-rank `splitManager`, `rebalance` called without a new scalar
overlap map throws, and the Data Manager it leaves differs from the one before the call: the
counter went from 0 to 1, the owned bond map from null to a derived map, and the ghost slots of
the stateless scalar buffer from 12 and 22 to the owners' values 20 and 11. -/
theorem C6_failed_rebalance_changes_state :
    splitManager.rebalance (some splitOwnedMap) (some splitOwnedVectorMap) none
      (some splitVectorMap) (some splitBondMap)
        = .error (Failure.NullReferenceError, splitManagerAfterFailure)
      ∧ (splitManager.rebalanceCount, splitManagerAfterFailure.rebalanceCount) = (0, 1)
      ∧ splitManager.ownedIDBondMap = none
      ∧ splitManagerAfterFailure.ownedIDBondMap = some ⟨[[(0, 1), (1, 2)], [(2, 2), (3, 1)]]⟩
      ∧ (splitManager.stateNONE.bind State.scalarData).map Epetra_MultiVector.data
          = some [[[10, 11, 12]], [[20, 21, 22]]]
      ∧ (splitManagerAfterFailure.stateNONE.bind State.scalarData).map Epetra_MultiVector.data
          = some [[[10, 11, 20]], [[20, 21, 11]]] := by
  refine ⟨?_, ?_, ?_, ?_, ?_, ?_⟩ <;> rfl

/-- C6 (amended).  If a call of `rebalance` fails with a thrown exception, the exception comes
from `scatterToGhosts` or from the importer check of a shape for which exactly one of the old
and the new map is null, and the Data Manager left behind is the one `scatterToGhosts` left:
the counter is one more than before the call, the field lists and the owned and overlap maps
are those from before the call, and every State is still the old one, laid out on the old
maps. -/
theorem C6_failed_rebalance_keeps_decomposition (dm dm' : DataManager) (e : Failure)
    (m1 m2 m3 m4 m5 : Option Epetra_BlockMap)
    (h : dm.rebalance m1 m2 m3 m4 m5 = .error (e, dm')) (ht : e.isThrown = true) :
    (dm.countRebalance.scatterToGhosts = .error (e, dm')
      ∨ (dm.countRebalance.scatterToGhosts = .ok dm' ∧ e = Failure.NullReferenceError
          ∧ (dm.scalarMap.isSome ≠ m3.isSome ∨ dm.vectorMap.isSome ≠ m4.isSome
              ∨ dm.bondMap.isSome ≠ m5.isSome)))
      ∧ dm'.rebalanceCount = dm.rebalanceCount + 1
      ∧ dm.SameDecomposition { dm' with rebalanceCount := dm.rebalanceCount } := by
  have h1 := rebalance_thrown dm dm' e m1 m2 m3 m4 m5 h ht
  have h2 : dm.countRebalance.SameDecomposition dm' := by
    rcases h1 with h1 | h1
    · exact scatterToGhosts_same _ _ (Or.inr ⟨e, h1⟩)
    · exact scatterToGhosts_same _ _ (Or.inl h1.1)
  obtain ⟨a1, a2, a3, a4, a5, a6, a7, a8, a9⟩ := h2
  refine ⟨h1, a1, rfl, a2, a3, a4, a5, a6, a7, a8, ?_⟩
  intro role
  have := a9 role
  cases role <;> exact this

/-- Witness for C6 (amended): the failed call on `splitManager`. -/
theorem C6_failed_rebalance_witness :
    (splitManager.countRebalance.scatterToGhosts
          = .error (Failure.NullReferenceError, splitManagerAfterFailure)
      ∨ (splitManager.countRebalance.scatterToGhosts = .ok splitManagerAfterFailure
          ∧ Failure.NullReferenceError = Failure.NullReferenceError
          ∧ (splitManager.scalarMap.isSome ≠ (none : Option Epetra_BlockMap).isSome
              ∨ splitManager.vectorMap.isSome ≠ (some splitVectorMap).isSome
              ∨ splitManager.bondMap.isSome ≠ (some splitBondMap).isSome)))
      ∧ splitManagerAfterFailure.rebalanceCount = splitManager.rebalanceCount + 1
      ∧ splitManager.SameDecomposition
          { splitManagerAfterFailure with rebalanceCount := splitManager.rebalanceCount } :=
  C6_failed_rebalance_keeps_decomposition splitManager splitManagerAfterFailure
    Failure.NullReferenceError (some splitOwnedMap) (some splitOwnedVectorMap) none
    (some splitVectorMap) (some splitBondMap) rfl rfl

/-! ## Elements of flat data -/

theorem firstPoint_cons_succ (e : Int × Nat) (m : LocalMap) (i : Nat) :
    LocalMap.firstPoint (e :: m) (i + 1) = e.2 + LocalMap.firstPoint m i := by
  simp [LocalMap.firstPoint]

theorem elemAt_cons_zero (e : Int × Nat) (m : LocalMap) (d : List Val) :
    elemAt (e :: m) d 0 = d.take e.2 := by
  simp [elemAt, LocalMap.firstPoint]

theorem elemAt_cons_succ (e : Int × Nat) (m : LocalMap) (d : List Val) (i : Nat) :
    elemAt (e :: m) d (i + 1) = elemAt m (d.drop e.2) i := by
  simp only [elemAt, firstPoint_cons_succ, List.getD_cons_succ, List.drop_drop]

theorem NumMyPoints_cons (e : Int × Nat) (m : LocalMap) :
    LocalMap.NumMyPoints (e :: m) = e.2 + LocalMap.NumMyPoints m := by
  simp [LocalMap.NumMyPoints]

theorem length_importElems (lookup : Int → Nat → Option (List Val))
    (hlk : ∀ g s b, lookup g s = some b → b.length = s) :
    ∀ (m : LocalMap) (old : List Val), old.length = m.NumMyPoints →
      (importElems lookup m old).length = m.NumMyPoints := by
  intro m
  induction m with
  | nil => intro old h; simpa [importElems] using h
  | cons e m ih =>
    intro old h
    rw [NumMyPoints_cons] at h
    simp only [importElems, List.length_append, NumMyPoints_cons]
    rw [ih (old.drop e.2) (by simp [h])]
    cases hl : lookup e.1 e.2 with
    | none => simp [h]
    | some b => simp [hlk _ _ _ hl]

theorem elemAt_importElems (lookup : Int → Nat → Option (List Val))
    (hlk : ∀ g s b, lookup g s = some b → b.length = s) :
    ∀ (m : LocalMap) (old : List Val) (i : Nat) (e : Int × Nat), old.length = m.NumMyPoints →
      m[i]? = some e →
      elemAt m (importElems lookup m old) i =
        match lookup e.1 e.2 with
        | some b => b
        | none => elemAt m old i := by
  intro m
  induction m with
  | nil => intro old i e _ h; simp at h
  | cons a m ih =>
    intro old i e hlen hi
    rw [NumMyPoints_cons] at hlen
    have hblk : (match lookup a.1 a.2 with
        | some b => b
        | none => old.take a.2).length = a.2 := by
      cases hl : lookup a.1 a.2 with
      | none => simp [hlen]
      | some b => simp [hlk _ _ _ hl]
    cases i with
    | zero =>
      simp only [List.getElem?_cons_zero, Option.some.injEq] at hi
      subst hi
      rw [elemAt_cons_zero, importElems, List.take_left' hblk, elemAt_cons_zero]
    | succ i =>
      simp only [List.getElem?_cons_succ] at hi
      rw [elemAt_cons_succ, importElems, List.drop_left' hblk, elemAt_cons_succ]
      exact ih (old.drop a.2) i e (by simp [hlen]) hi

theorem length_elemAt : ∀ (m : LocalMap) (d : List Val) (i : Nat) (e : Int × Nat),
    d.length = m.NumMyPoints → m[i]? = some e → (elemAt m d i).length = e.2 := by
  intro m
  induction m with
  | nil => intro d i e _ h; simp at h
  | cons a m ih =>
    intro d i e hlen hi
    rw [NumMyPoints_cons] at hlen
    cases i with
    | zero =>
      simp only [List.getElem?_cons_zero, Option.some.injEq] at hi
      subst hi
      rw [elemAt_cons_zero]; simp [hlen]
    | succ i =>
      simp only [List.getElem?_cons_succ] at hi
      rw [elemAt_cons_succ]
      exact ih (d.drop a.2) i e (by simp [hlen]) hi

theorem eq_of_elemAt_eq : ∀ (m : LocalMap) (d d' : List Val),
    d.length = m.NumMyPoints → d'.length = m.NumMyPoints →
    (∀ i, i < m.length → elemAt m d i = elemAt m d' i) → d = d' := by
  intro m
  induction m with
  | nil =>
    intro d d' h h' _
    simp [LocalMap.NumMyPoints] at h h'
    rw [h, h']
  | cons a m ih =>
    intro d d' h h' hall
    rw [NumMyPoints_cons] at h h'
    have h0 := hall 0 (by simp)
    rw [elemAt_cons_zero, elemAt_cons_zero] at h0
    have hr := ih (d.drop a.2) (d'.drop a.2) (by simp [h]) (by simp [h']) (fun i hi => by
      have := hall (i + 1) (by simp; omega)
      rwa [elemAt_cons_succ, elemAt_cons_succ] at this)
    rw [← List.take_append_drop a.2 d, ← List.take_append_drop a.2 d', h0, hr]

/-! ## The copy loops of `scatterToGhosts` -/

theorem loopFrom_each {σ : Type} (body : Nat → σ → Except Failure σ) :
    ∀ (n start : Nat) (s s' : σ), loopFrom body start n s = .ok s' →
      ∀ i, start ≤ i → i < start + n → ∃ t t', body i t = .ok t' := by
  intro n
  induction n with
  | zero => intro start s s' _ i h1 h2; omega
  | succ n ih =>
    intro start s s' h i h1 h2
    simp only [loopFrom] at h
    cases hb : body start s with
    | error e => rw [hb] at h; simp at h
    | ok t =>
      rw [hb] at h
      by_cases hi : i = start
      · subst hi; exact ⟨s, t, hb⟩
      · exact ih (start + 1) t s' h i (by omega) (by omega)

/-- A loop whose pass `i` copies `w i` values from offset `src i` of `ovData` to offset `o i`
of the loop state, the destination ranges lying one after the other. -/
theorem stridedCopy (body : Nat → List Val → Except Failure (List Val)) (o w src : Nat → Nat)
    (ovData : List Val) (n : Nat) (hmono : ∀ i j, i < j → j < n → o i + w i ≤ o j)
    (hbody : ∀ i d d', i < n → body i d = .ok d' →
      d'.length = d.length ∧ (∀ k, k < w i → d'[o i + k]? = ovData[src i + k]?)
        ∧ (∀ p, p < o i ∨ o i + w i ≤ p → d'[p]? = d[p]?))
    (d0 d : List Val) (h : loopFrom body 0 n d0 = .ok d) :
    d.length = d0.length ∧ ∀ j, j < n → ∀ k, k < w j → d[o j + k]? = ovData[src j + k]? := by
  have := loopFrom_partial body
    (fun i t => t.length = d0.length ∧ ∀ j, j < i → ∀ k, k < w j → t[o j + k]? = ovData[src j + k]?)
    n 0 d0 d h ⟨rfl, fun j hj => by omega⟩ (by
      intro i t t' _ hi hP hb
      have hi' : i < n := by omega
      obtain ⟨b1, b2, b3⟩ := hbody i t t' hi' hb
      refine ⟨by rw [b1, hP.1], ?_⟩
      intro j hj k hk
      by_cases hji : j = i
      · subst hji; exact b2 k hk
      · have hlt : j < i := by omega
        rw [b3 _ (Or.inl (by have := hmono j i hlt hi'; omega))]
        exact hP.2 j hlt k hk)
  simpa using this

theorem getElem?_set_ne' {α : Type} (l : List α) (i j : Nat) (a : α) (h : i ≠ j) :
    (l.set i a)[j]? = l[j]? := by
  rw [List.getElem?_set]; simp [h]

theorem getElem?_set_eq' {α : Type} (l : List α) (i : Nat) (a : α) (h : i < l.length) :
    (l.set i a)[i]? = some a := by
  rw [List.getElem?_set]; simp [h]

theorem copyScalarData_pointwise (ov no : LocalMap) (ovData d0 d : List Val)
    (h : copyScalarData ov no ovData d0 = .ok d) :
    d.length = d0.length ∧ ∀ j, j < no.length →
      0 ≤ ov.LID (no.GID j) ∧ d[j]? = ovData[(ov.LID (no.GID j)).toNat]?
        ∧ (ov.LID (no.GID j)).toNat < ovData.length := by
  unfold copyScalarData at h
  have hb : ∀ (i : Nat) (t t' : List Val), (do
      let v ← readAt ovData (ov.LID (no.GID (i : Int)))
      writeAt t (i : Int) v : Except Failure (List Val)) = .ok t' →
      0 ≤ ov.LID (no.GID i) ∧ (ov.LID (no.GID i)).toNat < ovData.length
        ∧ i < t.length ∧ t' = t.set i (ovData.getD (ov.LID (no.GID i)).toNat 0)
        ∧ ovData[(ov.LID (no.GID i)).toNat]? = some (ovData.getD (ov.LID (no.GID i)).toNat 0) := by
    intro i t t' hb
    simp only [bind, Except.bind] at hb
    cases hr : readAt ovData (ov.LID (no.GID (i : Int))) with
    | error e => rw [hr] at hb; simp at hb
    | ok v =>
      rw [hr] at hb
      obtain ⟨r1, r2⟩ := readAt_ok hr
      obtain ⟨_, w2, w3⟩ := writeAt_ok hb
      have hlt : (ov.LID (no.GID i)).toNat < ovData.length := by
        by_contra hc
        rw [List.getElem?_eq_none (by omega)] at r2
        simp at r2
      simp only [Int.toNat_ofNat] at w2 w3
      refine ⟨r1, hlt, w2, ?_, ?_⟩
      · rw [w3, List.getD_eq_getElem?_getD, r2]; rfl
      · rw [List.getD_eq_getElem?_getD, r2]; rfl
  have key := stridedCopy _ (fun i => i) (fun _ => 1) (fun i => (ov.LID (no.GID i)).toNat) ovData
    no.NumMyElements (by intro i j h1 _; dsimp only; omega) (by
      intro i t t' _ hbi
      obtain ⟨_, _, b3, b4, b5⟩ := hb i t t' hbi
      subst b4
      dsimp only
      refine ⟨by simp, ?_, ?_⟩
      · intro k hk
        have : k = 0 := by omega
        subst this
        simp only [Nat.add_zero]
        rw [getElem?_set_eq' _ _ _ b3, b5]
      · intro p hp
        exact getElem?_set_ne' _ _ _ _ (by omega)) d0 d h
  refine ⟨key.1, ?_⟩
  intro j hj
  obtain ⟨t, t', hbj⟩ := loopFrom_each _ _ _ _ _ h j (Nat.zero_le _) (by simpa using hj)
  obtain ⟨b1, b2, _, _, _⟩ := hb j t t' hbj
  have := key.2 j hj 0 (by dsimp only; omega)
  simp only [Nat.add_zero] at this
  exact ⟨b1, this, b2⟩

theorem readWrite_bind (src t t' : List Val) (a b : Int)
    (f : List Val → Except Failure (List Val))
    (h : (do
      let v ← readAt src a
      let t1 ← writeAt t b v
      f t1 : Except Failure (List Val)) = .ok t') :
    0 ≤ a ∧ 0 ≤ b ∧ a.toNat < src.length ∧ b.toNat < t.length
      ∧ src[a.toNat]? = some (src.getD a.toNat 0)
      ∧ f (t.set b.toNat (src.getD a.toNat 0)) = .ok t' := by
  simp only [bind, Except.bind] at h
  cases hr : readAt src a with
  | error e => rw [hr] at h; simp at h
  | ok v =>
    rw [hr] at h
    simp only [] at h
    cases hw : writeAt t b v with
    | error e => rw [hw] at h; simp at h
    | ok t1 =>
      rw [hw] at h
      simp only [] at h
      obtain ⟨r1, r2⟩ := readAt_ok hr
      obtain ⟨w1, w2, w3⟩ := writeAt_ok hw
      have hlt : a.toNat < src.length := by
        by_contra hc
        rw [List.getElem?_eq_none (by omega)] at r2
        simp at r2
      have hv : src.getD a.toNat 0 = v := by
        rw [List.getD_eq_getElem?_getD, r2]; rfl
      refine ⟨r1, w1, hlt, w2, by rw [hv]; exact r2, ?_⟩
      rw [hv, ← w3]; exact h

theorem readWrite_last (src t t' : List Val) (a b : Int)
    (h : (do
      let v ← readAt src a
      writeAt t b v : Except Failure (List Val)) = .ok t') :
    0 ≤ a ∧ 0 ≤ b ∧ a.toNat < src.length ∧ b.toNat < t.length
      ∧ src[a.toNat]? = some (src.getD a.toNat 0)
      ∧ t' = t.set b.toNat (src.getD a.toNat 0) := by
  simp only [bind, Except.bind] at h
  cases hr : readAt src a with
  | error e => rw [hr] at h; simp at h
  | ok v =>
    rw [hr] at h
    simp only [] at h
    obtain ⟨r1, r2⟩ := readAt_ok hr
    obtain ⟨w1, w2, w3⟩ := writeAt_ok h
    have hlt : a.toNat < src.length := by
      by_contra hc
      rw [List.getElem?_eq_none (by omega)] at r2
      simp at r2
    have hv : src.getD a.toNat 0 = v := by
      rw [List.getD_eq_getElem?_getD, r2]; rfl
    exact ⟨r1, w1, hlt, w2, by rw [hv]; exact r2, by rw [hv]; exact w3⟩

theorem copyVectorData_pointwise (ov no : LocalMap) (ovData d0 d : List Val)
    (h : copyVectorData ov no ovData d0 = .ok d) :
    d.length = d0.length ∧ ∀ j, j < no.length →
      0 ≤ ov.LID (no.GID j) ∧ (ov.LID (no.GID j)).toNat * 3 + 3 ≤ ovData.length
        ∧ ∀ k, k < 3 → d[j * 3 + k]? = ovData[(ov.LID (no.GID j)).toNat * 3 + k]? := by
  unfold copyVectorData at h
  have hb : ∀ (i : Nat) (t t' : List Val), (do
      let v ← readAt ovData (ov.LID (no.GID (i : Int)) * 3)
      let t1 ← writeAt t ((i : Int) * 3) v
      let v ← readAt ovData (ov.LID (no.GID (i : Int)) * 3 + 1)
      let t2 ← writeAt t1 ((i : Int) * 3 + 1) v
      let v ← readAt ovData (ov.LID (no.GID (i : Int)) * 3 + 2)
      writeAt t2 ((i : Int) * 3 + 2) v : Except Failure (List Val)) = .ok t' →
      0 ≤ ov.LID (no.GID i) ∧ (ov.LID (no.GID i)).toNat * 3 + 3 ≤ ovData.length
        ∧ t'.length = t.length
        ∧ (∀ k, k < 3 → t'[i * 3 + k]? = ovData[(ov.LID (no.GID i)).toNat * 3 + k]?)
        ∧ (∀ p, p < i * 3 ∨ i * 3 + 3 ≤ p → t'[p]? = t[p]?) := by
    intro i t t' hb
    obtain ⟨a1, a2, a3, a4, a5, hb⟩ := readWrite_bind _ _ _ _ _ _ hb
    obtain ⟨b1, b2, b3, b4, b5, hb⟩ := readWrite_bind _ _ _ _ _ _ hb
    obtain ⟨c1, c2, c3, c4, c5, hb''⟩ := readWrite_last _ _ _ _ _ hb
    have hL : 0 ≤ ov.LID (no.GID i) := by omega
    have e0 : (ov.LID (no.GID ↑i) * 3).toNat = (ov.LID (no.GID i)).toNat * 3 := by omega
    have e1 : (ov.LID (no.GID ↑i) * 3 + 1).toNat = (ov.LID (no.GID i)).toNat * 3 + 1 := by omega
    have e2 : (ov.LID (no.GID ↑i) * 3 + 2).toNat = (ov.LID (no.GID i)).toNat * 3 + 2 := by omega
    have f0 : ((i : Int) * 3).toNat = i * 3 := by omega
    have f1 : ((i : Int) * 3 + 1).toNat = i * 3 + 1 := by omega
    have f2 : ((i : Int) * 3 + 2).toNat = i * 3 + 2 := by omega
    rw [e0] at a3 a5 hb''
    rw [e1] at b3 b5 hb''
    rw [e2] at c3 c5 hb''
    rw [f0] at a4 hb''
    rw [f1] at hb''
    rw [f2] at hb''
    simp only [f0, f1, f2, List.length_set] at b4 c4
    rw [hb'']
    refine ⟨hL, by omega, by simp, ?_, ?_⟩
    · intro k hk
      have hk' : k = 0 ∨ k = 1 ∨ k = 2 := by omega
      rcases hk' with rfl | rfl | rfl
      · rw [getElem?_set_ne' _ _ _ _ (by omega), getElem?_set_ne' _ _ _ _ (by omega),
          Nat.add_zero, getElem?_set_eq' _ _ _ a4, Nat.add_zero, a5]
      · rw [getElem?_set_ne' _ _ _ _ (by omega), getElem?_set_eq' _ _ _ (by simpa using b4), b5]
      · rw [getElem?_set_eq' _ _ _ (by simpa using c4), c5]
    · intro p hp
      rw [getElem?_set_ne' _ _ _ _ (by omega), getElem?_set_ne' _ _ _ _ (by omega),
        getElem?_set_ne' _ _ _ _ (by omega)]
  have key := stridedCopy _ (fun i => i * 3) (fun _ => 3)
    (fun i => (ov.LID (no.GID i)).toNat * 3) ovData
    no.NumMyElements (by intro i j h1 _; dsimp only; omega) (by
      intro i t t' _ hbi
      obtain ⟨_, _, b3, b4, b5⟩ := hb i t t' hbi
      exact ⟨b3, b4, b5⟩) d0 d h
  refine ⟨key.1, ?_⟩
  intro j hj
  obtain ⟨t, t', hbj⟩ := loopFrom_each _ _ _ _ _ h j (Nat.zero_le _) (by simpa using hj)
  obtain ⟨b1, b2, _, _, _⟩ := hb j t t' hbj
  exact ⟨b1, b2, key.2 j hj⟩

theorem stridedCopy_frame (body : Nat → List Val → Except Failure (List Val)) (o w : Nat → Nat)
    (n lo hi : Nat) (hin : ∀ i, i < n → lo ≤ o i ∧ o i + w i ≤ hi)
    (hbody : ∀ i d d', i < n → body i d = .ok d' →
      ∀ p, p < o i ∨ o i + w i ≤ p → d'[p]? = d[p]?)
    (d0 d : List Val) (h : loopFrom body 0 n d0 = .ok d) :
    ∀ p, p < lo ∨ hi ≤ p → d[p]? = d0[p]? := by
  have := loopFrom_partial body (fun _ t => ∀ p, p < lo ∨ hi ≤ p → t[p]? = d0[p]?)
    n 0 d0 d h (fun p _ => rfl) (by
      intro i t t' _ hi' hP hb p hp
      have hi'' : i < n := by omega
      rw [hbody i t t' hi'' hb p (by have := hin i hi''; omega)]
      exact hP p hp)
  exact this

theorem firstPoint_succ (m : LocalMap) (i : Nat) (e : Int × Nat) (h : m[i]? = some e) :
    m.firstPoint (i + 1) = m.firstPoint i + e.2 := by
  unfold LocalMap.firstPoint
  rw [List.take_succ, h]
  simp

theorem firstPoint_mono (m : LocalMap) (i j : Nat) (h : i ≤ j) :
    m.firstPoint i ≤ m.firstPoint j := by
  induction j with
  | zero =>
    have : i = 0 := by omega
    subst this; exact Nat.le_refl _
  | succ j ih =>
    by_cases hij : i = j + 1
    · subst hij; exact Nat.le_refl _
    · have h1 := ih (by omega)
      cases hm : m[j]? with
      | none =>
        have hlen : m.length ≤ j := by
          by_contra hc
          rw [List.getElem?_eq_getElem (by omega)] at hm
          simp at hm
        have : m.firstPoint (j + 1) = m.firstPoint j := by
          unfold LocalMap.firstPoint
          rw [List.take_of_length_le (by omega), List.take_of_length_le hlen]
        omega
      | some e =>
        rw [firstPoint_succ m j e hm]; omega

theorem ElementSize_nat (m : LocalMap) (i : Nat) (e : Int × Nat) (h : m[i]? = some e) :
    m.ElementSize (i : Int) = .ok e.2 := by
  unfold LocalMap.ElementSize
  exact readAt_nat _ _ _ (by rw [List.getElem?_map, h]; rfl)

theorem FirstPointInElement_nat (m : LocalMap) (i : Nat) (h : i < m.length) :
    m.FirstPointInElement (i : Int) = (m.firstPoint i : Int) := by
  unfold LocalMap.FirstPointInElement
  have : ¬ ((i : Int) < 0) := by omega
  simp [this, h]

theorem innerCopy_spec (ovData t t' : List Val) (a : Int) (b s : Nat)
    (h : loopFrom (fun i (d : List Val) => do
      let v ← readAt ovData (a + (i : Int))
      writeAt d ((b : Int) + (i : Int)) v) 0 s t = .ok t') :
    t'.length = t.length ∧ (0 < s → 0 ≤ a)
      ∧ (∀ k, k < s → t'[b + k]? = ovData[a.toNat + k]?)
      ∧ (∀ p, p < b ∨ b + s ≤ p → t'[p]? = t[p]?) := by
  have hb : ∀ (i : Nat) (d d' : List Val), (do
      let v ← readAt ovData (a + (i : Int))
      writeAt d ((b : Int) + (i : Int)) v : Except Failure (List Val)) = .ok d' →
      0 ≤ a + i ∧ b + i < d.length ∧ d' = d.set (b + i) (ovData.getD (a + i).toNat 0)
        ∧ ovData[(a + i).toNat]? = some (ovData.getD (a + i).toNat 0) := by
    intro i d d' hb
    obtain ⟨c1, _, _, c4, c5, c6⟩ := readWrite_last _ _ _ _ _ hb
    have e : ((b : Int) + (i : Int)).toNat = b + i := by omega
    rw [e] at c4 c6
    exact ⟨c1, c4, c6, c5⟩
  have ha : 0 < s → 0 ≤ a := by
    intro hs
    obtain ⟨d, d', hbj⟩ := loopFrom_each _ _ _ _ _ h 0 (Nat.le_refl _) (by omega)
    have := (hb 0 d d' hbj).1
    simpa using this
  have key := stridedCopy _ (fun i => b + i) (fun _ => 1) (fun i => (a + i).toNat) ovData
    s (by intro i j h1 _; dsimp only; omega) (by
      intro i d d' _ hbi
      obtain ⟨_, b2, b3, b4⟩ := hb i d d' hbi
      subst b3
      dsimp only
      refine ⟨by simp, ?_, ?_⟩
      · intro k hk
        have : k = 0 := by omega
        subst this
        simp only [Nat.add_zero]
        rw [getElem?_set_eq' _ _ _ b2, b4]
      · intro p hp
        exact getElem?_set_ne' _ _ _ _ (by omega)) t t' h
  have frame := stridedCopy_frame _ (fun i => b + i) (fun _ => 1) s b (b + s)
    (by intro i hi; dsimp only; omega) (by
      intro i d d' _ hbi p hp
      obtain ⟨_, _, b3, _⟩ := hb i d d' hbi
      subst b3
      exact getElem?_set_ne' _ _ _ _ (by dsimp only at hp; omega)) t t' h
  refine ⟨key.1, ha, ?_, frame⟩
  intro k hk
  have := key.2 k hk 0 (by dsimp only; omega)
  simp only [Nat.add_zero] at this
  rw [this]
  have h0 := ha (by omega)
  congr 1
  omega

theorem GID_of_getElem? (m : LocalMap) (i : Nat) (e : Int × Nat) (h : m[i]? = some e) :
    m.GID (i : Int) = e.1 := by
  rw [GID_nat]
  simp [LocalMap.MyGlobalElements, h]

theorem getD_of_getElem? (m : LocalMap) (i : Nat) (e : Int × Nat) (h : m[i]? = some e) :
    m.getD i (0, 0) = e := by
  rw [List.getD_eq_getElem?_getD, h]; rfl

theorem lt_length_of_getElem? {α : Type} (l : List α) (i : Nat) (e : α) (h : l[i]? = some e) :
    i < l.length := by
  by_contra hc
  rw [List.getElem?_eq_none (by omega)] at h
  simp at h

theorem copyBondData_pointwise (ov no : LocalMap) (ovData d0 d : List Val)
    (h : copyBondData ov no ovData d0 = .ok d) :
    d.length = d0.length ∧ ∀ j e, no[j]? = some e →
      (0 < e.2 → 0 ≤ ov.FirstPointInElement (ov.LID e.1))
        ∧ ∀ k, k < e.2 →
          d[no.firstPoint j + k]? = ovData[(ov.FirstPointInElement (ov.LID e.1)).toNat + k]? := by
  unfold copyBondData at h
  have hb : ∀ (i : Nat) (t t' : List Val) (e : Int × Nat), no[i]? = some e → (do
      let size ← no.ElementSize (i : Int)
      loopFrom (fun k (nonOverlapData : List Val) => do
        let v ← readAt ovData (ov.FirstPointInElement (ov.LID (no.GID (i : Int))) + (k : Int))
        writeAt nonOverlapData (no.FirstPointInElement (i : Int) + (k : Int)) v) 0 size t
        : Except Failure (List Val)) = .ok t' →
      t'.length = t.length ∧ (0 < e.2 → 0 ≤ ov.FirstPointInElement (ov.LID e.1))
        ∧ (∀ k, k < e.2 → t'[no.firstPoint i + k]?
            = ovData[(ov.FirstPointInElement (ov.LID e.1)).toNat + k]?)
        ∧ (∀ p, p < no.firstPoint i ∨ no.firstPoint i + e.2 ≤ p → t'[p]? = t[p]?) := by
    intro i t t' e he hbi
    rw [ElementSize_nat no i e he, GID_of_getElem? no i e he,
      FirstPointInElement_nat no i (lt_length_of_getElem? _ _ _ he)] at hbi
    simp only [bind, Except.bind] at hbi
    exact innerCopy_spec ovData t t' _ _ _ hbi
  have hget : ∀ i, i < no.NumMyElements → ∃ e, no[i]? = some e := by
    intro i hi
    exact ⟨no[i], List.getElem?_eq_getElem hi⟩
  have key := stridedCopy _ (fun j => no.firstPoint j) (fun j => (no.getD j (0, 0)).2)
    (fun j => (ov.FirstPointInElement (ov.LID (no.GID j))).toNat) ovData
    no.NumMyElements (by
      intro i j h1 h2
      dsimp only
      obtain ⟨e, he⟩ := hget i (by omega)
      rw [getD_of_getElem? no i e he, ← firstPoint_succ no i e he]
      exact firstPoint_mono no _ _ (by omega)) (by
      intro i t t' hi hbi
      obtain ⟨e, he⟩ := hget i hi
      obtain ⟨b1, _, b3, b4⟩ := hb i t t' e he hbi
      dsimp only
      rw [getD_of_getElem? no i e he, GID_of_getElem? no i e he]
      exact ⟨b1, b3, b4⟩) d0 d h
  refine ⟨key.1, ?_⟩
  intro j e he
  have hj := lt_length_of_getElem? _ _ _ he
  obtain ⟨t, t', hbj⟩ := loopFrom_each _ _ _ _ _ h j (Nat.zero_le _) (by simpa using hj)
  obtain ⟨_, b2, _, _⟩ := hb j t t' e he hbj
  refine ⟨b2, ?_⟩
  intro k hk
  have := key.2 j hj k (by dsimp only; rw [getD_of_getElem? no j e he]; exact hk)
  dsimp only at this
  rw [GID_of_getElem? no j e he] at this
  exact this

/-! ## From the copy loops to elements -/

theorem take_drop_eq_of_pointwise (a b : List Val) (o o' c : Nat)
    (h : ∀ k, k < c → a[o + k]? = b[o' + k]?) : (a.drop o).take c = (b.drop o').take c := by
  apply List.ext_getElem?
  intro k
  rw [List.getElem?_take, List.getElem?_take]
  by_cases hk : k < c
  · simp only [hk, if_true, List.getElem?_drop]
    exact h k hk
  · simp [hk]

theorem firstPoint_const (m : LocalMap) (c : Nat) (hc : m.ConstantSize c) :
    ∀ i, i ≤ m.length → m.firstPoint i = i * c := by
  intro i
  induction i with
  | zero => intro _; simp [LocalMap.firstPoint]
  | succ i ih =>
    intro hi
    have hlt : i < m.length := by omega
    rw [firstPoint_succ m i m[i] (List.getElem?_eq_getElem hlt), ih (by omega),
      hc m[i] (List.getElem_mem _), Nat.succ_mul]

theorem NumMyPoints_eq_firstPoint (m : LocalMap) : m.NumMyPoints = m.firstPoint m.length := by
  simp [LocalMap.NumMyPoints, LocalMap.firstPoint]

theorem indexOf_lt_of_mem (m : LocalMap) (g : Int) (h : g ∈ m.MyGlobalElements) :
    m.MyGlobalElements.indexOf g < m.length := by
  rw [← length_MyGlobalElements]; exact List.indexOf_lt_length.mpr h

theorem mem_of_LID_nonneg (m : LocalMap) (g : Int) (h : 0 ≤ m.LID g) :
    g ∈ m.MyGlobalElements ∧ (m.LID g).toNat = m.MyGlobalElements.indexOf g := by
  have hm : g ∈ m.MyGlobalElements := by
    by_contra hc
    rw [(LID_eq_neg_one_iff m g).mpr hc] at h
    omega
  refine ⟨hm, ?_⟩
  rw [LID_of_mem m g hm]; simp

theorem elemAt_const (m : LocalMap) (c : Nat) (hc : m.ConstantSize c) (d : List Val) (i : Nat)
    (hi : i < m.length) : elemAt m d i = (d.drop (i * c)).take c := by
  unfold elemAt
  rw [firstPoint_const m c hc i (by omega), getD_of_getElem? m i m[i]
    (List.getElem?_eq_getElem hi), hc m[i] (List.getElem_mem _)]

theorem copyScalarData_gathered (ov no : LocalMap) (ovData d0 d : List Val)
    (hov : ov.ConstantSize 1) (hno : no.ConstantSize 1) (hd0 : d0.length = no.NumMyPoints)
    (h : copyScalarData ov no ovData d0 = .ok d) : Gathered ov no ovData d := by
  obtain ⟨hlen, hp⟩ := copyScalarData_pointwise ov no ovData d0 d h
  refine ⟨by rw [hlen, hd0], ?_⟩
  intro j e he
  have hj := lt_length_of_getElem? _ _ _ he
  obtain ⟨p1, p2, _⟩ := hp j hj
  rw [GID_of_getElem? no j e he] at p1 p2
  obtain ⟨hm, hidx⟩ := mem_of_LID_nonneg ov e.1 p1
  rw [hidx] at p2
  have hi := indexOf_lt_of_mem ov e.1 hm
  refine ⟨hm, ?_, ?_⟩
  · rw [getD_of_getElem? ov _ ov[ov.MyGlobalElements.indexOf e.1]
      (List.getElem?_eq_getElem hi), hov _ (List.getElem_mem _), hno e (List.mem_iff_getElem?.mpr ⟨j, he⟩)]
  · rw [elemAt_const no 1 hno d j hj, elemAt_const ov 1 hov ovData _ hi]
    apply take_drop_eq_of_pointwise
    intro k hk
    have : k = 0 := by omega
    subst this
    simpa using p2

theorem copyVectorData_gathered (ov no : LocalMap) (ovData d0 d : List Val)
    (hov : ov.ConstantSize 3) (hno : no.ConstantSize 3) (hd0 : d0.length = no.NumMyPoints)
    (h : copyVectorData ov no ovData d0 = .ok d) : Gathered ov no ovData d := by
  obtain ⟨hlen, hp⟩ := copyVectorData_pointwise ov no ovData d0 d h
  refine ⟨by rw [hlen, hd0], ?_⟩
  intro j e he
  have hj := lt_length_of_getElem? _ _ _ he
  obtain ⟨p1, _, p2⟩ := hp j hj
  rw [GID_of_getElem? no j e he] at p1 p2
  obtain ⟨hm, hidx⟩ := mem_of_LID_nonneg ov e.1 p1
  rw [hidx] at p2
  have hi := indexOf_lt_of_mem ov e.1 hm
  refine ⟨hm, ?_, ?_⟩
  · rw [getD_of_getElem? ov _ ov[ov.MyGlobalElements.indexOf e.1]
      (List.getElem?_eq_getElem hi), hov _ (List.getElem_mem _), hno e (List.mem_iff_getElem?.mpr ⟨j, he⟩)]
  · rw [elemAt_const no 3 hno d j hj, elemAt_const ov 3 hov ovData _ hi]
    exact take_drop_eq_of_pointwise _ _ _ _ _ p2

theorem copyBondData_gathered (ov no : LocalMap) (ovData d0 d : List Val)
    (hsz : ∀ (j : Nat) (e : Int × Nat), no[j]? = some e → e.1 ∈ ov.MyGlobalElements
      ∧ (ov.getD (ov.MyGlobalElements.indexOf e.1) (0, 0)).2 = e.2)
    (hd0 : d0.length = no.NumMyPoints)
    (h : copyBondData ov no ovData d0 = .ok d) : Gathered ov no ovData d := by
  obtain ⟨hlen, hp⟩ := copyBondData_pointwise ov no ovData d0 d h
  refine ⟨by rw [hlen, hd0], ?_⟩
  intro j e he
  obtain ⟨hm, hs⟩ := hsz j e he
  obtain ⟨_, p2⟩ := hp j e he
  have hi := indexOf_lt_of_mem ov e.1 hm
  refine ⟨hm, hs, ?_⟩
  have hfp : (ov.FirstPointInElement (ov.LID e.1)).toNat
      = ov.firstPoint (ov.MyGlobalElements.indexOf e.1) := by
    rw [LID_of_mem ov e.1 hm, FirstPointInElement_nat ov _ hi]; simp
  rw [hfp] at p2
  unfold elemAt
  rw [hs, getD_of_getElem? no j e he]
  exact take_drop_eq_of_pointwise _ _ _ _ _ p2

/-! ## The import of `scatterToGhosts` -/

theorem mapE_ok {α β : Type} (f : α → Except Failure β) :
    ∀ (l : List α) (l' : List β), mapE f l = .ok l' →
      l'.length = l.length ∧ ∀ (i : Nat) (a : α), l[i]? = some a →
        ∃ b, l'[i]? = some b ∧ f a = .ok b := by
  intro l
  induction l with
  | nil =>
    intro l' h
    simp only [mapE, Except.ok.injEq] at h
    subst h
    exact ⟨rfl, fun i a hi => by simp at hi⟩
  | cons x xs ih =>
    intro l' h
    simp only [mapE] at h
    cases hx : f x with
    | error e => rw [hx] at h; simp at h
    | ok b =>
      rw [hx] at h
      simp only [] at h
      cases hxs : mapE f xs with
      | error e => rw [hxs] at h; simp at h
      | ok bs =>
        rw [hxs] at h
        simp only [Except.ok.injEq] at h
        subst h
        obtain ⟨h1, h2⟩ := ih bs hxs
        refine ⟨by simp [h1], ?_⟩
        intro i a hi
        cases i with
        | zero =>
          simp only [List.getElem?_cons_zero, Option.some.injEq] at hi
          subst hi
          exact ⟨b, by simp, hx⟩
        | succ i =>
          simp only [List.getElem?_cons_succ] at hi ⊢
          exact h2 i a hi

theorem part_eq_getElem (m : Epetra_BlockMap) (r : Nat) (h : r < m.parts.length) :
    m.part r = m.parts[r] := by
  simp [Epetra_BlockMap.part, List.getD_eq_getElem?_getD, List.getElem?_eq_getElem h]

theorem part_mem (m : Epetra_BlockMap) (r : Nat) (h : r < m.parts.length) :
    m.part r ∈ m.parts := by
  rw [part_eq_getElem m r h]; exact List.getElem_mem _

theorem part_of_le (m : Epetra_BlockMap) (r : Nat) (h : m.parts.length ≤ r) :
    m.part r = [] := by
  simp [Epetra_BlockMap.part, List.getD_eq_getElem?_getD, List.getElem?_eq_none h]

theorem lt_of_mem_part (m : Epetra_BlockMap) (r : Nat) (g : Int)
    (h : g ∈ (m.part r).MyGlobalElements) : r < m.parts.length := by
  by_contra hc
  rw [part_of_le m r (by omega)] at h
  simp [LocalMap.MyGlobalElements] at h

theorem OneToOne_unique (m : Epetra_BlockMap) (h : m.OneToOne) (p q : Nat) (g : Int)
    (hp : g ∈ (m.part p).MyGlobalElements) (hq : g ∈ (m.part q).MyGlobalElements) : p = q :=
  h p (List.mem_range.mpr (lt_of_mem_part m p g hp)) q
    (List.mem_range.mpr (lt_of_mem_part m q g hq)) g hp hq

theorem firstHolder_some (g : Int) : ∀ (ps : List LocalMap) (r0 q : Nat),
    firstHolder g ps r0 = some q →
      r0 ≤ q ∧ ∃ p, ps[q - r0]? = some p ∧ g ∈ p.MyGlobalElements := by
  intro ps
  induction ps with
  | nil => intro r0 q h; simp [firstHolder] at h
  | cons p ps ih =>
    intro r0 q h
    simp only [firstHolder] at h
    split at h
    · rename_i hg
      simp only [Option.some.injEq] at h
      subst h
      exact ⟨Nat.le_refl _, p, by simp, hg⟩
    · obtain ⟨h1, p', h2, h3⟩ := ih (r0 + 1) q h
      refine ⟨by omega, p', ?_, h3⟩
      have : q - r0 = (q - (r0 + 1)) + 1 := by omega
      rw [this, List.getElem?_cons_succ]; exact h2

theorem firstHolder_none (g : Int) : ∀ (ps : List LocalMap) (r0 : Nat),
    firstHolder g ps r0 = none → ∀ p ∈ ps, g ∉ p.MyGlobalElements := by
  intro ps
  induction ps with
  | nil => intro r0 _ p hp; simp at hp
  | cons p ps ih =>
    intro r0 h p' hp'
    simp only [firstHolder] at h
    split at h
    · simp at h
    · rename_i hg
      rcases List.mem_cons.mp hp' with rfl | hp'
      · exact hg
      · exact ih (r0 + 1) h p' hp'

theorem sourceRank_holds (src : Epetra_BlockMap) (r q : Nat) (g : Int)
    (h : sourceRank src r g = some q) : g ∈ (src.part q).MyGlobalElements := by
  unfold sourceRank at h
  split at h
  · rename_i hg
    simp only [Option.some.injEq] at h
    subst h; exact hg
  · obtain ⟨_, p, h2, h3⟩ := firstHolder_some g _ _ _ h
    simp only [Nat.sub_zero] at h2
    have hq := lt_length_of_getElem? _ _ _ h2
    rw [part_eq_getElem src q hq]
    rw [List.getElem?_eq_getElem hq] at h2
    simp only [Option.some.injEq] at h2
    rw [h2]; exact h3

theorem sourceRank_none (src : Epetra_BlockMap) (r : Nat) (g : Int)
    (h : sourceRank src r g = none) : ∀ p, g ∉ (src.part p).MyGlobalElements := by
  unfold sourceRank at h
  split at h
  · simp at h
  · intro p hp
    have hlt := lt_of_mem_part src p g hp
    exact firstHolder_none g _ _ h _ (part_mem src p hlt) hp

theorem sourceRank_isSome (src : Epetra_BlockMap) (r p : Nat) (g : Int)
    (hp : g ∈ (src.part p).MyGlobalElements) : ∃ q, sourceRank src r g = some q := by
  cases h : sourceRank src r g with
  | none => exact absurd hp (sourceRank_none src r g h p)
  | some q => exact ⟨q, rfl⟩

theorem sourceRank_owner (src : Epetra_BlockMap) (h1 : src.OneToOne) (r p : Nat) (g : Int)
    (hp : g ∈ (src.part p).MyGlobalElements) : sourceRank src r g = some p := by
  obtain ⟨q, hq⟩ := sourceRank_isSome src r p g hp
  rw [hq, OneToOne_unique src h1 q p g (sourceRank_holds src r q g hq) hp]

theorem importLookup_length (src : Epetra_BlockMap) (srcData : Nat → List Val) (r : Nat) :
    ∀ g s b, importLookup src srcData r g s = some b → b.length = s := by
  intro g s b h
  unfold importLookup at h
  split at h
  · simp at h
  · simp only [] at h
    split at h
    · rename_i hc
      simp only [Option.some.injEq] at h
      rw [← h]; exact hc.2
    · simp at h

theorem values_new (m : Epetra_BlockMap) (k r iVec : Nat) (hr : r < m.parts.length)
    (hv : iVec < k) :
    (Epetra_MultiVector.new m k).values r iVec = List.replicate (m.part r).NumMyPoints 0 := by
  simp [Epetra_MultiVector.values, Epetra_MultiVector.new, List.getD_eq_getElem?_getD,
    List.getElem?_map, List.getElem?_eq_getElem hr, part_eq_getElem m r hr,
    List.getElem?_replicate, hv]

theorem Import_eq (dst src : Epetra_MultiVector) (imp : Epetra_Import)
    (h1 : dst.map = imp.TargetMap) (h2 : src.map = imp.SourceMap)
    (h3 : dst.NumVectors = src.NumVectors) :
    dst.Import src imp =
      { dst with
        data := (List.range dst.map.parts.length).map fun r =>
          (List.range dst.NumVectors).map fun iVec =>
            importElems (importLookup imp.SourceMap (fun p => src.values p iVec) r)
              (dst.map.part r) (dst.values r iVec) } := by
  unfold Epetra_MultiVector.Import
  simp [Epetra_BlockMap.SameAs, h1, h2, h3]

theorem values_Import (dst src : Epetra_MultiVector) (imp : Epetra_Import)
    (h1 : dst.map = imp.TargetMap) (h2 : src.map = imp.SourceMap)
    (h3 : dst.NumVectors = src.NumVectors) (r iVec : Nat) (hr : r < dst.map.parts.length)
    (hv : iVec < dst.NumVectors) :
    (dst.Import src imp).values r iVec =
      importElems (importLookup imp.SourceMap (fun p => src.values p iVec) r)
        (dst.map.part r) (dst.values r iVec) := by
  rw [Import_eq dst src imp h1 h2 h3]
  simp [Epetra_MultiVector.values, List.getD_eq_getElem?_getD, List.getElem?_map,
    List.getElem?_range hr, List.getElem?_range hv]

theorem wellSized_Import (dst src : Epetra_MultiVector) (imp : Epetra_Import)
    (hw : dst.WellSized) : (dst.Import src imp).WellSized := by
  by_cases h1 : dst.map = imp.TargetMap
  · by_cases h2 : src.map = imp.SourceMap
    · by_cases h3 : dst.NumVectors = src.NumVectors
      · intro r hr iVec hv
        have hl := Import_layout dst src imp
        simp only [Epetra_MultiVector.layout, Prod.mk.injEq] at hl
        rw [hl.1] at hr ⊢
        rw [hl.2] at hv
        rw [values_Import dst src imp h1 h2 h3 r iVec (List.mem_range.mp hr)
          (List.mem_range.mp hv)]
        exact length_importElems _ (importLookup_length _ _ _) _ _ (hw r hr iVec hv)
      · have : dst.Import src imp = dst := by
          unfold Epetra_MultiVector.Import
          simp [Epetra_BlockMap.SameAs, h1, h2, h3]
        rw [this]; exact hw
    · have : dst.Import src imp = dst := by
        unfold Epetra_MultiVector.Import
        simp [Epetra_BlockMap.SameAs, h1, h2]
      rw [this]; exact hw
  · have : dst.Import src imp = dst := by
      unfold Epetra_MultiVector.Import
      simp [Epetra_BlockMap.SameAs, h1]
    rw [this]; exact hw

theorem getElem?_holder (m : LocalMap) (g : Int) (h : g ∈ m.MyGlobalElements) :
    ∃ e, m[m.MyGlobalElements.indexOf g]? = some e ∧ e.1 = g := by
  have hi := indexOf_lt_of_mem m g h
  refine ⟨m[m.MyGlobalElements.indexOf g], List.getElem?_eq_getElem hi, ?_⟩
  have := List.getElem?_indexOf h
  unfold LocalMap.MyGlobalElements at this hi ⊢
  rw [List.getElem?_map, List.getElem?_eq_getElem hi] at this
  simpa using this

theorem elemAt_Import (dst src : Epetra_MultiVector) (imp : Epetra_Import)
    (h1 : dst.map = imp.TargetMap) (h2 : src.map = imp.SourceMap)
    (h3 : dst.NumVectors = src.NumVectors) (hw : dst.WellSized) (r iVec : Nat)
    (hr : r < dst.map.parts.length) (hv : iVec < dst.NumVectors) (i : Nat) (e : Int × Nat)
    (he : (dst.map.part r)[i]? = some e) :
    elemAt (dst.map.part r) ((dst.Import src imp).values r iVec) i =
      match importLookup imp.SourceMap (fun p => src.values p iVec) r e.1 e.2 with
      | some b => b
      | none => elemAt (dst.map.part r) (dst.values r iVec) i := by
  rw [values_Import dst src imp h1 h2 h3 r iVec hr hv]
  exact elemAt_importElems _ (importLookup_length _ _ _) _ _ i e
    (hw r (List.mem_range.mpr hr) iVec (List.mem_range.mpr hv)) he

theorem importLookup_eq (src : Epetra_BlockMap) (srcData : Nat → List Val) (r p : Nat) (g : Int)
    (s : Nat) (hs : sourceRank src r g = some p) (e' : Int × Nat)
    (hj : (src.part p)[(src.part p).MyGlobalElements.indexOf g]? = some e') (hsz : e'.2 = s)
    (hlen : (srcData p).length = (src.part p).NumMyPoints) :
    importLookup src srcData r g s
      = some (elemAt (src.part p) (srcData p) ((src.part p).MyGlobalElements.indexOf g)) := by
  have hm := sourceRank_holds src r p g hs
  unfold importLookup
  rw [hs]
  simp only []
  have hL : ((src.part p).LID g).toNat = (src.part p).MyGlobalElements.indexOf g := by
    rw [LID_of_mem _ _ hm]; simp
  rw [hL, getD_of_getElem? _ _ _ hj, length_elemAt _ _ _ e' hlen hj]
  simp [hsz]

theorem importLookup_none (src : Epetra_BlockMap) (srcData : Nat → List Val) (r : Nat) (g : Int)
    (s : Nat) (h : ∀ p, g ∉ (src.part p).MyGlobalElements) :
    importLookup src srcData r g s = none := by
  unfold importLookup
  cases hs : sourceRank src r g with
  | none => rfl
  | some p => exact absurd (sourceRank_holds src r p g hs) (h p)

theorem scratch_values (copy : LocalMap → LocalMap → List Val → List Val → Except Failure (List Val))
    (ov no : Epetra_BlockMap) (mv : Epetra_MultiVector) (data : List (List (List Val)))
    (h : mapE (fun r => mapE (fun iVec =>
        copy (ov.part r) (no.part r) (mv.values r iVec)
          ((Epetra_MultiVector.new no mv.NumVectors).values r iVec))
        (List.range mv.NumVectors)) (List.range no.parts.length) = .ok data)
    (p iVec : Nat) (hp : p < no.parts.length) (hv : iVec < mv.NumVectors) :
    copy (ov.part p) (no.part p) (mv.values p iVec)
        (List.replicate (no.part p).NumMyPoints 0)
      = .ok ((data.getD p []).getD iVec []) := by
  obtain ⟨_, h2⟩ := mapE_ok _ _ _ h
  obtain ⟨row, hrow, hinner⟩ := h2 p p (List.getElem?_range hp)
  obtain ⟨_, h4⟩ := mapE_ok _ _ _ hinner
  obtain ⟨d, hd, hc⟩ := h4 iVec iVec (List.getElem?_range hv)
  rw [values_new no _ p iVec hp hv] at hc
  rw [hc]
  simp [List.getD_eq_getElem?_getD, hrow, hd]

/-- What one call of the scatter frame establishes: the overlap buffer keeps its layout, and
every element whose identifier some rank owns holds the values the owner held for it, an element
nobody owns keeping its values. -/
theorem scatterMultiVector_spec
    (copy : LocalMap → LocalMap → List Val → List Val → Except Failure (List Val))
    (ov no : Epetra_BlockMap) (mv mv' : Epetra_MultiVector)
    (hmap : mv.map = ov) (hw : mv.WellSized) (h11 : no.OneToOne) (hsz : ov.SizesAgree)
    (hcopy : ∀ r ovData d0 d, r < no.parts.length → d0.length = (no.part r).NumMyPoints →
      copy (ov.part r) (no.part r) ovData d0 = .ok d →
      Gathered (ov.part r) (no.part r) ovData d)
    (h : scatterMultiVector copy ov no mv = .ok mv') :
    mv'.layout = mv.layout ∧ mv'.WellSized ∧
      ∀ (r iVec i : Nat) (e : Int × Nat), r < ov.parts.length → iVec < mv.NumVectors →
        (ov.part r)[i]? = some e →
        (∀ p, e.1 ∈ (no.part p).MyGlobalElements →
          e.1 ∈ (ov.part p).MyGlobalElements
            ∧ elemAt (ov.part r) (mv'.values r iVec) i
              = elemAt (ov.part p) (mv.values p iVec)
                  ((ov.part p).MyGlobalElements.indexOf e.1))
        ∧ ((∀ p, e.1 ∉ (no.part p).MyGlobalElements) →
          elemAt (ov.part r) (mv'.values r iVec) i = elemAt (ov.part r) (mv.values r iVec) i) := by
  have hl := scatterMultiVector_layout copy ov no mv mv' h
  unfold scatterMultiVector at h
  simp only [bind, Except.bind, pure, Except.pure] at h
  split at h
  · simp at h
  · rename_i data hdata
    simp only [Except.ok.injEq] at h
    subst h
    refine ⟨hl, wellSized_Import _ _ _ hw, ?_⟩
    intro r iVec i e hr hv he
    have hr' : r < mv.map.parts.length := by rw [hmap]; exact hr
    have he' : (mv.map.part r)[i]? = some e := by rw [hmap]; exact he
    have key := elemAt_Import mv
      { Epetra_MultiVector.new no mv.NumVectors with data := data } ⟨ov, no⟩ hmap rfl rfl hw
      r iVec hr' hv i e he'
    rw [hmap] at key
    constructor
    · intro p hp
      have hplt := lt_of_mem_part no p e.1 hp
      have hc := scratch_values copy ov no mv data hdata p iVec hplt hv
      have hg := hcopy p _ _ _ hplt (by simp) hc
      obtain ⟨e', he1, he2⟩ := getElem?_holder (no.part p) e.1 hp
      obtain ⟨g1, g2, g3⟩ := hg.2 _ e' he1
      rw [he2] at g1 g2 g3
      obtain ⟨e'', hov1, hov2⟩ := getElem?_holder (ov.part p) e.1 g1
      have hpov : p < ov.parts.length := lt_of_mem_part ov p e.1 g1
      have hsize : e'.2 = e.2 := by
        rw [← g2, getD_of_getElem? _ _ _ hov1]
        exact hsz _ (part_mem ov p hpov) _ (part_mem ov r hr) e''
          (List.mem_iff_getElem?.mpr ⟨_, hov1⟩) e (List.mem_iff_getElem?.mpr ⟨_, he⟩)
          hov2
      have hlook := importLookup_eq no
        (fun q => Epetra_MultiVector.values
          { Epetra_MultiVector.new no mv.NumVectors with data := data } q iVec) r p e.1 e.2
        (sourceRank_owner no h11 r p e.1 hp) e' he1 hsize (by
          simp only [Epetra_MultiVector.values]
          exact hg.1)
      rw [hlook] at key
      refine ⟨g1, ?_⟩
      rw [key]
      simp only [Epetra_MultiVector.values]
      exact g3
    · intro hno
      rw [importLookup_none no _ r e.1 e.2 hno] at key
      exact key

/-! ## The steps of `scatterToGhosts` -/

theorem setState_maps (dm : DataManager) (role : Role) (s : State) :
    (dm.setState role s).ownedIDScalarMap = dm.ownedIDScalarMap
      ∧ (dm.setState role s).ownedIDVectorMap = dm.ownedIDVectorMap
      ∧ (dm.setState role s).ownedIDBondMap = dm.ownedIDBondMap
      ∧ (dm.setState role s).scalarMap = dm.scalarMap
      ∧ (dm.setState role s).vectorMap = dm.vectorMap
      ∧ (dm.setState role s).bondMap = dm.bondMap := by
  cases role <;> exact ⟨rfl, rfl, rfl, rfl, rfl, rfl⟩

theorem state_setState (dm : DataManager) (role role' : Role) (s : State) :
    (dm.setState role s).state role' = if role' = role then some s else dm.state role' := by
  cases role <;> cases role' <;> simp [DataManager.setState, DataManager.state]

theorem buffer_setState (dm : DataManager) (role role' : Role) (shape' : Shape) (s : State) :
    (dm.setState role s).buffer role' shape'
      = if role' = role then s.buffer shape' else dm.buffer role' shape' := by
  unfold DataManager.buffer
  rw [state_setState]
  split <;> rfl

theorem ConstantSize.part (m : Epetra_BlockMap) (c r : Nat) (h : m.ConstantSize c) :
    (m.part r).ConstantSize c := by
  by_cases hr : r < m.parts.length
  · exact h _ (part_mem m r hr)
  · rw [part_of_le m r (by omega)]
    intro e he
    simp at he

theorem ConstantSize.sizesAgree (m : Epetra_BlockMap) (c : Nat) (h : m.ConstantSize c) :
    m.SizesAgree := by
  intro p hp q hq e he e' he' _
  rw [h p hp e he, h q hq e' he']

theorem wellFormed_of_same (dm dm' : DataManager)
    (h1 : dm'.ownedIDScalarMap = dm.ownedIDScalarMap)
    (h2 : dm'.ownedIDVectorMap = dm.ownedIDVectorMap)
    (h3 : dm'.scalarMap = dm.scalarMap) (h4 : dm'.vectorMap = dm.vectorMap)
    (h5 : dm'.bondMap = dm.bondMap) (h6 : dm'.OwnedBondMapDerived)
    (h7 : dm'.BuffersOnMaps) (hwf : dm.WellFormed) : dm'.WellFormed := by
  refine ⟨?_, h6, h7⟩
  obtain ⟨⟨a1, a2, a3, a4, a5⟩, _, _⟩ := hwf
  unfold DataManager.MapsConsistent
  rw [h1, h2, h3, h4, h5]
  exact ⟨a1, a2, a3, a4, a5⟩

theorem stepSpec_refl (dm : DataManager) (role : Role) (shape : Shape) (hwf : dm.WellFormed)
    (hb : dm.buffer role shape = none) : StepSpec dm dm role shape :=
  ⟨hwf, fun _ => ⟨rfl, rfl⟩, fun _ _ _ => rfl, fun h => h,
    fun mv h => by rw [hb] at h; simp at h⟩

/-- The step for a buffer that is replaced by its ghost-synchronised version. -/
theorem stepSpec_setState (dm : DataManager) (role : Role) (shape : Shape) (s s' : State)
    (mv mv' : Epetra_MultiVector) (ov own : Epetra_BlockMap) (hwf : dm.WellFormed)
    (hs : dm.state role = some s) (hb : s.buffer shape = some mv)
    (hb' : s'.buffer shape = some mv')
    (hother : ∀ sh, sh ≠ shape → s'.buffer sh = s.buffer sh)
    (hov : dm.overlapMap shape = some ov) (hown : dm.ownedMap shape = some own)
    (hw : mv'.WellSized) (hsc : ScatterOf ov own mv mv') :
    StepSpec dm (dm.setState role s') role shape := by
  obtain ⟨m1, m2, m3, m4, m5, m6⟩ := setState_maps dm role s'
  have hbuf : ∀ role' shape', (role', shape') ≠ (role, shape) →
      (dm.setState role s').buffer role' shape' = dm.buffer role' shape' := by
    intro role' shape' hne
    rw [buffer_setState]
    split
    · rename_i hr
      subst hr
      have hsh : shape' ≠ shape := fun c => hne (by rw [c])
      rw [hother shape' hsh]
      simp [DataManager.buffer, hs]
    · rfl
  have hbufk : (dm.setState role s').buffer role shape = some mv' := by
    rw [buffer_setState]; simp [hb']
  refine ⟨?_, ?_, hbuf, ?_, ?_⟩
  · refine wellFormed_of_same dm _ m1 m2 m4 m5 m6 ?_ ?_ hwf
    · intro m hm
      rw [m3] at hm
      obtain ⟨o, b, h1, h2, h3⟩ := hwf.2.1 m hm
      exact ⟨o, b, by rw [m1]; exact h1, by rw [m6]; exact h2, h3⟩
    · intro role' shape' v hv
      have hmaps : (dm.setState role s').overlapMap shape' = dm.overlapMap shape' := by
        cases shape' <;> simp [DataManager.overlapMap, m4, m5, m6]
      rw [hmaps]
      by_cases hk : (role', shape') = (role, shape)
      · simp only [Prod.mk.injEq] at hk
        obtain ⟨hk1, hk2⟩ := hk
        subst hk1; subst hk2
        rw [hbufk] at hv
        simp only [Option.some.injEq] at hv
        subst hv
        have hold := hwf.2.2 role' shape' mv (by simp [DataManager.buffer, hs, hb])
        have hl := hsc.1
        simp only [Epetra_MultiVector.layout, Prod.mk.injEq] at hl
        rw [hl.1]
        exact ⟨hold.1, hw⟩
      · rw [hbuf role' shape' hk] at hv
        exact hwf.2.2 role' shape' v hv
  · intro sh
    cases sh <;> simp [DataManager.overlapMap, DataManager.ownedMap, m1, m2, m4, m5, m6]
  · intro hnone
    simp [DataManager.buffer, hs, hb] at hnone
  · intro v hv
    simp only [DataManager.buffer, hs, Option.some_bind, hb, Option.some.injEq] at hv
    subst hv
    exact ⟨mv', ov, own, hbufk, hov, hown, hsc⟩

theorem scatterOf_of_spec
    (copy : LocalMap → LocalMap → List Val → List Val → Except Failure (List Val))
    (ov no : Epetra_BlockMap) (mv mv' : Epetra_MultiVector)
    (hmap : mv.map = ov) (hw : mv.WellSized) (h11 : no.OneToOne) (hsz : ov.SizesAgree)
    (hcopy : ∀ r ovData d0 d, r < no.parts.length → d0.length = (no.part r).NumMyPoints →
      copy (ov.part r) (no.part r) ovData d0 = .ok d →
      Gathered (ov.part r) (no.part r) ovData d)
    (h : scatterMultiVector copy ov no mv = .ok mv') :
    mv'.WellSized ∧ ScatterOf ov no mv mv' := by
  obtain ⟨h1, h2, h3⟩ := scatterMultiVector_spec copy ov no mv mv' hmap hw h11 hsz hcopy h
  exact ⟨h2, h1, h3⟩

theorem scatterScalar_step (dm dm' : DataManager) (role : Role) (hwf : dm.WellFormed)
    (h : scatterScalar dm role = .ok dm') : StepSpec dm dm' role Shape.scalar := by
  unfold scatterScalar at h
  cases hs : dm.state role with
  | none => simp [hs] at h
  | some s =>
    simp only [hs] at h
    cases hd : s.scalarData with
    | none =>
      simp only [hd, Except.ok.injEq] at h
      subst h
      exact stepSpec_refl dm role _ hwf (by simp [DataManager.buffer, hs, State.buffer, hd])
    | some mv =>
      simp only [hd] at h
      split at h
      · rename_i ov no hov hno
        cases hm : scatterMultiVector copyScalarData ov no mv with
        | error x => simp [hm] at h
        | ok mv' =>
          simp only [hm, Except.ok.injEq] at h
          subst h
          have hon := hwf.2.2 role Shape.scalar mv (by simp [DataManager.buffer, hs, State.buffer, hd])
          have hmap : mv.map = ov := by
            have := hon.1
            simp only [DataManager.overlapMap, hov, Option.some.injEq] at this
            exact this.symm
          obtain ⟨c1, c2⟩ := hwf.1.1 no hno
          have c3 := hwf.1.2.2.1 ov hov
          obtain ⟨w, sc⟩ := scatterOf_of_spec copyScalarData ov no mv mv' hmap hon.2 c1
            (ConstantSize.sizesAgree ov 1 c3) (fun r ovData d0 d _ hd0 hc =>
              copyScalarData_gathered _ _ _ _ _ (ConstantSize.part ov 1 r c3)
                (ConstantSize.part no 1 r c2) hd0 hc) hm
          exact stepSpec_setState dm role Shape.scalar s _ mv mv' ov no hwf hs
            (by simp [State.buffer, hd]) (by simp [State.buffer])
            (by intro sh hsh; cases sh <;> simp_all [State.buffer])
            (by simp [DataManager.overlapMap, hov]) (by simp [DataManager.ownedMap, hno]) w sc
      · simp at h

theorem scatterVector_step (dm dm' : DataManager) (role : Role) (hwf : dm.WellFormed)
    (h : scatterVector dm role = .ok dm') : StepSpec dm dm' role Shape.vector := by
  unfold scatterVector at h
  cases hs : dm.state role with
  | none => simp [hs] at h
  | some s =>
    simp only [hs] at h
    cases hd : s.vectorData with
    | none =>
      simp only [hd, Except.ok.injEq] at h
      subst h
      exact stepSpec_refl dm role _ hwf (by simp [DataManager.buffer, hs, State.buffer, hd])
    | some mv =>
      simp only [hd] at h
      split at h
      · rename_i ov no hov hno
        cases hm : scatterMultiVector copyVectorData ov no mv with
        | error x => simp [hm] at h
        | ok mv' =>
          simp only [hm, Except.ok.injEq] at h
          subst h
          have hon := hwf.2.2 role Shape.vector mv (by simp [DataManager.buffer, hs, State.buffer, hd])
          have hmap : mv.map = ov := by
            have := hon.1
            simp only [DataManager.overlapMap, hov, Option.some.injEq] at this
            exact this.symm
          obtain ⟨c1, c2⟩ := hwf.1.2.1 no hno
          have c3 := hwf.1.2.2.2.1 ov hov
          obtain ⟨w, sc⟩ := scatterOf_of_spec copyVectorData ov no mv mv' hmap hon.2 c1
            (ConstantSize.sizesAgree ov 3 c3) (fun r ovData d0 d _ hd0 hc =>
              copyVectorData_gathered _ _ _ _ _ (ConstantSize.part ov 3 r c3)
                (ConstantSize.part no 3 r c2) hd0 hc) hm
          exact stepSpec_setState dm role Shape.vector s _ mv mv' ov no hwf hs
            (by simp [State.buffer, hd]) (by simp [State.buffer])
            (by intro sh hsh; cases sh <;> simp_all [State.buffer])
            (by simp [DataManager.overlapMap, hov]) (by simp [DataManager.ownedMap, hno]) w sc
      · simp at h

theorem ownedElementSizes_spec (o b : LocalMap) (l : List Nat)
    (h : ownedElementSizes o b = .ok l) :
    l.length = o.length ∧ ∀ (j : Nat) (e : Int × Nat), o[j]? = some e →
      e.1 ∈ b.MyGlobalElements
        ∧ l[j]? = some (b.getD (b.MyGlobalElements.indexOf e.1) (0, 0)).2 := by
  unfold ownedElementSizes at h
  have := loopFrom_partial _
    (fun i (t : List Nat) => t.length = o.length ∧ ∀ (j : Nat) (e : Int × Nat), j < i →
      o[j]? = some e → e.1 ∈ b.MyGlobalElements
        ∧ t[j]? = some (b.getD (b.MyGlobalElements.indexOf e.1) (0, 0)).2)
    o.NumMyElements 0 _ l h ⟨by simp [LocalMap.NumMyElements], fun j e hj => by omega⟩ (by
      intro i t t' _ hi hP hb
      simp only [bind, Except.bind] at hb
      cases hr : b.ElementSize (b.LID (o.GID (i : Int))) with
      | error x => rw [hr] at hb; simp at hb
      | ok s =>
        rw [hr] at hb
        simp only [] at hb
        obtain ⟨_, w2, w3⟩ := writeAt_ok hb
        simp only [Int.toNat_ofNat] at w2 w3
        obtain ⟨r1, r2⟩ := readAt_ok hr
        refine ⟨by rw [w3]; simp [hP.1], ?_⟩
        intro j e hj he
        by_cases hji : j = i
        · subst hji
          rw [GID_of_getElem? o j e he] at r1 r2
          obtain ⟨hm, hidx⟩ := mem_of_LID_nonneg b e.1 r1
          refine ⟨hm, ?_⟩
          rw [w3, getElem?_set_eq' _ _ _ w2]
          rw [hidx, List.getElem?_map] at r2
          rw [List.getD_eq_getElem?_getD]
          cases hb' : b[List.indexOf e.1 b.MyGlobalElements]? with
          | none => rw [hb'] at r2; simp at r2
          | some x =>
            rw [hb'] at r2
            simp only [Option.map_some', Option.some.injEq] at r2
            simp [r2]
        · obtain ⟨p1, p2⟩ := hP.2 j e (by omega) he
          refine ⟨p1, ?_⟩
          rw [w3, getElem?_set_ne' _ _ _ _ (fun c => hji c.symm)]
          exact p2)
  refine ⟨this.1, ?_⟩
  intro j e he
  exact this.2 j e (by
    have := lt_length_of_getElem? _ _ _ he
    simpa [LocalMap.NumMyElements] using this) he

theorem deriveOwnedIDBondMap_spec (o b m : Epetra_BlockMap)
    (h : deriveOwnedIDBondMap o b = .ok m) :
    m.parts.length = o.parts.length ∧ ∀ r,
      (m.part r).MyGlobalElements = (o.part r).MyGlobalElements
        ∧ ∀ (j : Nat) (e : Int × Nat), (m.part r)[j]? = some e →
          e.1 ∈ (b.part r).MyGlobalElements
            ∧ ((b.part r).getD ((b.part r).MyGlobalElements.indexOf e.1) (0, 0)).2 = e.2 := by
  unfold deriveOwnedIDBondMap at h
  simp only [bind, Except.bind, pure, Except.pure] at h
  split at h
  · simp at h
  · rename_i parts hparts
    simp only [Except.ok.injEq] at h
    subst h
    obtain ⟨hlen, hall⟩ := mapE_ok _ _ _ hparts
    simp only [List.length_range] at hlen
    refine ⟨hlen, ?_⟩
    intro r
    by_cases hr : r < o.parts.length
    · obtain ⟨part, hp1, hp2⟩ := hall r r (List.getElem?_range hr)
      cases hsz : ownedElementSizes (o.part r) (b.part r) with
      | error x => rw [hsz] at hp2; simp at hp2
      | ok l =>
        rw [hsz] at hp2
        simp only [Except.ok.injEq] at hp2
        obtain ⟨l1, l2⟩ := ownedElementSizes_spec _ _ _ hsz
        have hpart : Epetra_BlockMap.part ⟨parts⟩ r = (o.part r).MyGlobalElements.zip l := by
          rw [hp2]
          simp [Epetra_BlockMap.part, List.getD_eq_getElem?_getD, hp1]
        rw [hpart]
        constructor
        · unfold LocalMap.MyGlobalElements
          rw [List.map_fst_zip]
          simp [l1]
        · intro j e he
          rw [List.getElem?_zip_eq_some] at he
          obtain ⟨he1, he2⟩ := he
          simp only [LocalMap.MyGlobalElements, List.getElem?_map] at he1
          cases ho : (o.part r)[j]? with
          | none => rw [ho] at he1; simp at he1
          | some e0 =>
            rw [ho] at he1
            simp only [Option.map_some', Option.some.injEq] at he1
            obtain ⟨q1, q2⟩ := l2 j e0 ho
            rw [he1] at q1 q2
            rw [q2] at he2
            simp only [Option.some.injEq] at he2
            exact ⟨q1, he2⟩
    · have h1 : Epetra_BlockMap.part ⟨parts⟩ r = [] := part_of_le _ r (by simp [hlen]; omega)
      have h2 : o.part r = [] := part_of_le _ r (by omega)
      rw [h1, h2]
      exact ⟨rfl, fun j e he => by simp at he⟩

theorem oneToOne_of_same_ids (o m : Epetra_BlockMap) (hlen : m.parts.length = o.parts.length)
    (hids : ∀ r, (m.part r).MyGlobalElements = (o.part r).MyGlobalElements) (h : o.OneToOne) :
    m.OneToOne := by
  intro p hp q hq g hg1 hg2
  rw [hlen] at hp hq
  rw [hids p] at hg1
  rw [hids q] at hg2
  exact h p hp q hq g hg1 hg2

theorem stepSpec_transfer (dm d1 dm' : DataManager) (role : Role) (shape : Shape)
    (hst : ∀ r, d1.state r = dm.state r)
    (hmaps : ∀ sh, d1.overlapMap sh = dm.overlapMap sh ∧ d1.ownedMap sh = dm.ownedMap sh)
    (h : StepSpec d1 dm' role shape) : StepSpec dm dm' role shape := by
  have hbuf : ∀ r sh, d1.buffer r sh = dm.buffer r sh := by
    intro r sh; simp [DataManager.buffer, hst]
  obtain ⟨a1, a2, a3, a5, a6⟩ := h
  refine ⟨a1, ?_, ?_, ?_, ?_⟩
  · intro sh
    rw [← (hmaps sh).1, ← (hmaps sh).2]; exact a2 sh
  · intro r sh hne
    rw [← hbuf]; exact a3 r sh hne
  · rw [← hbuf]; exact a5
  · intro mv hmv
    rw [← hbuf] at hmv
    rw [← (hmaps shape).1, ← (hmaps shape).2]
    exact a6 mv hmv

theorem ensureOwnedIDBondMap_spec (dm d1 : DataManager) (ov no : Epetra_BlockMap)
    (hwf : dm.WellFormed) (hov : dm.bondMap = some ov)
    (h : ensureOwnedIDBondMap dm ov = .ok (d1, no)) :
    d1.WellFormed ∧ (∀ r, d1.state r = dm.state r)
      ∧ (∀ sh, d1.overlapMap sh = dm.overlapMap sh ∧ d1.ownedMap sh = dm.ownedMap sh)
      ∧ ∃ owned, dm.ownedIDScalarMap = some owned ∧ deriveOwnedIDBondMap owned ov = .ok no := by
  unfold ensureOwnedIDBondMap at h
  split at h
  · rename_i m hm
    simp only [Except.ok.injEq, Prod.mk.injEq] at h
    obtain ⟨h1, h2⟩ := h
    subst h1; subst h2
    obtain ⟨o, b, q1, q2, q3⟩ := hwf.2.1 m hm
    rw [hov] at q2
    simp only [Option.some.injEq] at q2
    subst q2
    exact ⟨hwf, fun _ => rfl, fun _ => ⟨rfl, rfl⟩, o, q1, q3⟩
  · split at h
    · simp at h
    · rename_i owned howned
      split at h
      · rename_i m hm
        simp only [Except.ok.injEq, Prod.mk.injEq] at h
        obtain ⟨h1, h2⟩ := h
        subst h1; subst h2
        have hst : ∀ r, ({ dm with ownedIDBondMap := some m } : DataManager).state r
            = dm.state r := by
          intro r; cases r <;> rfl
        refine ⟨?_, hst, fun sh => by cases sh <;> exact ⟨rfl, rfl⟩, owned, howned, hm⟩
        refine wellFormed_of_same dm _ rfl rfl rfl rfl rfl ?_ ?_ hwf
        · intro m' hm'
          simp only [Option.some.injEq] at hm'
          subst hm'
          exact ⟨owned, ov, howned, hov, hm⟩
        · intro r sh v hv
          have : ({ dm with ownedIDBondMap := some m } : DataManager).buffer r sh
              = dm.buffer r sh := by
            simp [DataManager.buffer, hst]
          rw [this] at hv
          have := hwf.2.2 r sh v hv
          cases sh <;> exact this
      · simp at h

theorem scatterOf_congr_ids (ov no own : Epetra_BlockMap) (mv mv' : Epetra_MultiVector)
    (hids : ∀ r, (no.part r).MyGlobalElements = (own.part r).MyGlobalElements)
    (h : ScatterOf ov no mv mv') : ScatterOf ov own mv mv' := by
  refine ⟨h.1, ?_⟩
  intro r iVec i e hr hv he
  obtain ⟨a, b⟩ := h.2 r iVec i e hr hv he
  exact ⟨fun p hp => a p (by rw [hids p]; exact hp),
    fun hno => b (fun p hp => hno p (by rw [← hids p]; exact hp))⟩

theorem scatterBond_step (dm dm' : DataManager) (role : Role) (hwf : dm.WellFormed)
    (h : scatterBond dm role = .ok dm') : StepSpec dm dm' role Shape.bond := by
  unfold scatterBond at h
  cases hs : dm.state role with
  | none => simp [hs] at h
  | some s =>
    simp only [hs] at h
    cases hd : s.bondData with
    | none =>
      simp only [hd, Except.ok.injEq] at h
      subst h
      exact stepSpec_refl dm role _ hwf (by simp [DataManager.buffer, hs, State.buffer, hd])
    | some mv =>
      simp only [hd] at h
      cases hov : dm.bondMap with
      | none => simp [hov] at h
      | some ov =>
        simp only [hov] at h
        cases he : ensureOwnedIDBondMap dm ov with
        | error x => simp [he] at h
        | ok x =>
          obtain ⟨d1, no⟩ := x
          simp only [he] at h
          cases hm : scatterMultiVector copyBondData ov no mv with
          | error y => simp [hm] at h
          | ok mv' =>
            simp only [hm, Except.ok.injEq] at h
            subst h
            obtain ⟨wf1, hst, hmaps, owned, howned, hder⟩ :=
              ensureOwnedIDBondMap_spec dm d1 ov no hwf hov he
            obtain ⟨dl, dspec⟩ := deriveOwnedIDBondMap_spec owned ov no hder
            have hon := hwf.2.2 role Shape.bond mv
              (by simp [DataManager.buffer, hs, State.buffer, hd])
            have hmap : mv.map = ov := by
              have := hon.1
              simp only [DataManager.overlapMap, hov, Option.some.injEq] at this
              exact this.symm
            obtain ⟨c1, _⟩ := hwf.1.1 owned howned
            have c3 := hwf.1.2.2.2.2 ov hov
            obtain ⟨w, sc⟩ := scatterOf_of_spec copyBondData ov no mv mv' hmap hon.2
              (oneToOne_of_same_ids owned no dl (fun r => (dspec r).1) c1) c3
              (fun r ovData d0 d _ hd0 hc =>
                copyBondData_gathered _ _ _ _ _ (dspec r).2 hd0 hc) hm
            have sc' := scatterOf_congr_ids ov no owned mv mv' (fun r => (dspec r).1) sc
            apply stepSpec_transfer dm d1 _ role Shape.bond hst hmaps
            exact stepSpec_setState d1 role Shape.bond s _ mv mv' ov owned wf1
              (by rw [hst]; exact hs)
              (by simp [State.buffer, hd]) (by simp [State.buffer])
              (by intro sh hsh; cases sh <;> simp_all [State.buffer])
              (by rw [(hmaps Shape.bond).1]; simp [DataManager.overlapMap, hov])
              (by rw [(hmaps Shape.bond).2]; simp [DataManager.ownedMap, howned]) w sc'

/-! ## `scatterToGhosts` as a whole -/

theorem runSpec_nil (dm : DataManager) (hwf : dm.WellFormed) : RunSpec [] dm dm :=
  ⟨hwf, fun _ => ⟨rfl, rfl⟩, fun _ _ _ => rfl, fun _ _ h => by simp at h⟩

theorem runSpec_step (done : List (Role × Shape)) (dm d1 d2 : DataManager) (role : Role)
    (shape : Shape) (hrun : RunSpec done dm d1) (hstep : StepSpec d1 d2 role shape)
    (hnew : (role, shape) ∉ done) :
    RunSpec ((role, shape) :: done) dm d2 := by
  obtain ⟨_, r2, r3, r4⟩ := hrun
  obtain ⟨s1, s2, s3, s5, s6⟩ := hstep
  refine ⟨s1, ?_, ?_, ?_⟩
  · intro sh
    rw [(s2 sh).1, (s2 sh).2]; exact r2 sh
  · intro ro sh hk
    simp only [List.mem_cons, not_or] at hk
    rw [s3 ro sh hk.1]; exact r3 ro sh hk.2
  · intro ro sh hk
    by_cases hkk : (ro, sh) = (role, shape)
    · simp only [Prod.mk.injEq] at hkk
      obtain ⟨e1, e2⟩ := hkk
      subst e1; subst e2
      have hb := r3 ro sh hnew
      refine ⟨?_, ?_⟩
      · intro hnone
        exact s5 (by rw [hb]; exact hnone)
      · intro mv hmv
        obtain ⟨mv', ov, own, q1, q2, q3, q4⟩ := s6 mv (by rw [hb]; exact hmv)
        rw [(r2 sh).1] at q2
        rw [(r2 sh).2] at q3
        exact ⟨mv', ov, own, q1, q2, q3, q4⟩
    · have hk' : (ro, sh) ∈ done := by
        rcases List.mem_cons.mp hk with h | h
        · exact absurd h hkk
        · exact h
      obtain ⟨t2, t3⟩ := r4 ro sh hk'
      rw [s3 ro sh hkk]
      exact ⟨t2, t3⟩

theorem runSpec_role (done : List (Role × Shape)) (dm d1 d2 : DataManager) (role : Role)
    (hrun : RunSpec done dm d1) (h : scatterRole d1 role = .ok d2)
    (hnew : ∀ sh, (role, sh) ∉ done) :
    RunSpec ((role, Shape.bond) :: (role, Shape.vector) :: (role, Shape.scalar) :: done)
      dm d2 := by
  unfold scatterRole at h
  simp only [bind, Except.bind] at h
  cases h1 : scatterScalar d1 role with
  | error x => simp [h1] at h
  | ok e1 =>
    simp only [h1] at h
    cases h2 : scatterVector e1 role with
    | error x => simp [h2] at h
    | ok e2 =>
      simp only [h2] at h
      have st1 := scatterScalar_step d1 e1 role hrun.1 h1
      have run1 := runSpec_step done dm d1 e1 role Shape.scalar hrun st1 (hnew _)
      have st2 := scatterVector_step e1 e2 role run1.1 h2
      have run2 := runSpec_step _ dm e1 e2 role Shape.vector run1 st2
        (by simp [hnew])
      have st3 := scatterBond_step e2 d2 role run2.1 h
      exact runSpec_step _ dm e2 d2 role Shape.bond run2 st3 (by simp [hnew])

theorem scatterToGhosts_runSpec (dm dm' : DataManager) (hwf : dm.WellFormed)
    (h : dm.scatterToGhosts = .ok dm') :
    RunSpec [(Role.NP1, Shape.bond), (Role.NP1, Shape.vector), (Role.NP1, Shape.scalar),
      (Role.N, Shape.bond), (Role.N, Shape.vector), (Role.N, Shape.scalar),
      (Role.NONE, Shape.bond), (Role.NONE, Shape.vector), (Role.NONE, Shape.scalar)] dm dm' := by
  unfold DataManager.scatterToGhosts at h
  simp only [bind, Except.bind] at h
  cases h1 : scatterRole dm Role.NONE with
  | error x => simp [h1] at h
  | ok d1 =>
    simp only [h1] at h
    cases h2 : scatterRole d1 Role.N with
    | error x => simp [h2] at h
    | ok d2 =>
      simp only [h2] at h
      have r1 := runSpec_role [] dm dm d1 Role.NONE (runSpec_nil dm hwf) h1 (by simp)
      have r2 := runSpec_role _ dm d1 d2 Role.N r1 h2 (by simp)
      exact runSpec_role _ dm d2 dm' Role.NP1 r2 h (by simp)

theorem splitManager_wellFormed : splitManager.WellFormed := by
  refine ⟨⟨?_, ?_, ?_, ?_, ?_⟩, ?_, ?_⟩
  · intro m h
    cases h
    constructor
    · unfold Epetra_BlockMap.OneToOne; decide
    · unfold Epetra_BlockMap.ConstantSize LocalMap.ConstantSize; decide
  · intro m h
    cases h
    constructor
    · unfold Epetra_BlockMap.OneToOne; decide
    · unfold Epetra_BlockMap.ConstantSize LocalMap.ConstantSize; decide
  · intro m h
    cases h
    unfold Epetra_BlockMap.ConstantSize LocalMap.ConstantSize; decide
  · intro m h
    cases h
    unfold Epetra_BlockMap.ConstantSize LocalMap.ConstantSize; decide
  · intro m h
    cases h
    unfold Epetra_BlockMap.SizesAgree; decide
  · intro m h
    cases h
  · intro role shape mv h
    cases role <;> cases shape <;>
      first
        | (cases h; done)
        | (cases h
           refine ⟨rfl, ?_⟩
           unfold Epetra_MultiVector.WellSized
           decide)

/-- C1.  After `scatterToGhosts` has succeeded on a well-formed Data Manager, every buffer
(any State, any shape) is still there with its layout, and for every field `iVec`, every rank
`r` and every element `i` of rank `r`'s part of the overlap map, with identifier `e.1`: if rank
`p` owns `e.1`, then `e.1` has a local index `j` in rank `p`'s part of the overlap map and the
element holds the values that rank `p` held at `j` before the call. -/
theorem C1_scatterToGhosts_owner_values (dm dm' : DataManager) (hwf : dm.WellFormed)
    (hok : dm.scatterToGhosts = .ok dm') (role : Role) (shape : Shape)
    (mv : Epetra_MultiVector) (hmv : dm.buffer role shape = some mv) :
    ∃ mv' ov own, dm'.buffer role shape = some mv' ∧ dm.overlapMap shape = some ov
      ∧ dm.ownedMap shape = some own ∧ mv'.layout = mv.layout
      ∧ ∀ (r p iVec i : Nat) (e : Int × Nat), r < ov.parts.length → iVec < mv.NumVectors →
          (ov.part r)[i]? = some e → e.1 ∈ (own.part p).MyGlobalElements →
          ∃ j : Nat, (ov.part p).LID e.1 = (j : Int)
            ∧ elemAt (ov.part r) (mv'.values r iVec) i
              = elemAt (ov.part p) (mv.values p iVec) j := by
  have hrun := scatterToGhosts_runSpec dm dm' hwf hok
  obtain ⟨_, hb⟩ := hrun.2.2.2 role shape (by cases role <;> cases shape <;> simp)
  obtain ⟨mv', ov, own, h1, h2, h3, h4⟩ := hb mv hmv
  refine ⟨mv', ov, own, h1, h2, h3, h4.1, ?_⟩
  intro r p iVec i e hr hv he hp
  obtain ⟨q1, q2⟩ := (h4.2 r iVec i e hr hv he).1 p hp
  exact ⟨_, LID_of_mem _ _ q1, q2⟩

/-- Witness for C1: the stateless scalar buffer of the two-rank `splitManager`. -/
theorem C1_scatterToGhosts_witness :
    ∃ mv' ov own, splitManagerScattered.buffer Role.NONE Shape.scalar = some mv'
      ∧ splitManager.overlapMap Shape.scalar = some ov
      ∧ splitManager.ownedMap Shape.scalar = some own
      ∧ mv'.layout = (⟨splitOverlapMap, 1, [[[10, 11, 12]], [[20, 21, 22]]]⟩ :
          Epetra_MultiVector).layout
      ∧ ∀ (r p iVec i : Nat) (e : Int × Nat), r < ov.parts.length →
          iVec < (⟨splitOverlapMap, 1, [[[10, 11, 12]], [[20, 21, 22]]]⟩ :
            Epetra_MultiVector).NumVectors →
          (ov.part r)[i]? = some e → e.1 ∈ (own.part p).MyGlobalElements →
          ∃ j : Nat, (ov.part p).LID e.1 = (j : Int)
            ∧ elemAt (ov.part r) (mv'.values r iVec) i
              = elemAt (ov.part p) ((⟨splitOverlapMap, 1, [[[10, 11, 12]], [[20, 21, 22]]]⟩ :
                  Epetra_MultiVector).values p iVec) j :=
  C1_scatterToGhosts_owner_values splitManager splitManagerScattered splitManager_wellFormed rfl
    Role.NONE Shape.scalar ⟨splitOverlapMap, 1, [[[10, 11, 12]], [[20, 21, 22]]]⟩ rfl

/-! ## `rebalance` -/

theorem liftStep_ok {α : Type} (dm : DataManager) (x : Except Failure α) (a : α)
    (h : liftStep dm x = .ok a) : x = .ok a := by
  unfold liftStep at h
  split at h
  · simp only [Except.ok.injEq] at h
    subst h; rfl
  · simp at h

/-- C14 (code defect).  `scatterToGhosts` takes the State of each of the three roles and calls
a member function on it without testing it for null.  On the Data Manager that `allocateData`
creates for a stateful field only (`stateNONE` null) the call fails in the first pass of the loop
by dereferencing the null `stateNONE`; on the one created for a stateless field only the pass for
`stateNONE` completes and the call fails in the second pass by dereferencing the null
`stateN`. -/
theorem C14_scatterToGhosts_dereferences_absent_State :
    (statefulOnlyManager.stateNONE, statefulOnlyManager.stateN.isSome,
        statefulOnlyManager.stateNP1.isSome) = (none, true, true)
      ∧ statefulOnlyManager.scatterToGhosts
          = .error (Failure.nullDereference, statefulOnlyManager)
      ∧ (statelessOnlyManager.stateNONE.isSome, statelessOnlyManager.stateN,
          statelessOnlyManager.stateNP1) = (true, none, none)
      ∧ scatterRole statelessOnlyManager Role.NONE = .ok statelessOnlyManager
      ∧ statelessOnlyManager.scatterToGhosts
          = .error (Failure.nullDereference, statelessOnlyManager) := by
  refine ⟨?_, ?_, ?_, ?_, ?_⟩ <;> rfl

/-- C16 (code defect).  The copy loops use the result of the local-index lookup as an array
index without testing it.  With owned identifier 1 absent from the overlap map the lookup gives
-1 and `scatterToGhosts` reads the overlap buffer at index -1: an access outside the buffer, not
a thrown exception.  The vector and the bond copy loop do the same (the bond loop reads from
offset `FirstPointInElement(-1) = -1` on). -/
theorem C16_lookup_failure_reads_outside_buffer :
    (lostPointManager.ownedIDScalarMap, lostPointManager.scalarMap)
        = (some twoPoints, some ⟨[[(0, 1)]]⟩)
      ∧ (Epetra_BlockMap.part ⟨[[(0, 1)]]⟩ 0).LID ((twoPoints.part 0).GID 1) = -1
      ∧ lostPointManager.scatterToGhosts = .error (Failure.outOfBounds, lostPointManager)
      ∧ Failure.outOfBounds.isThrown = false
      ∧ copyVectorData [(0, 3)] [(0, 3), (1, 3)] [5, 6, 7] (List.replicate 6 0)
          = .error Failure.outOfBounds
      ∧ LocalMap.FirstPointInElement [(0, 2)] (-1) = -1
      ∧ copyBondData [(0, 2)] [(0, 2), (1, 2)] [5, 6] (List.replicate 4 0)
          = .error Failure.outOfBounds := by
  refine ⟨?_, ?_, ?_, ?_, ?_, ?_, ?_⟩ <;> rfl

/-- C17 (code defect).  The source constructs `Epetra_Import(currentOwnedMap, targetOwnedMap)`,
which makes the current map the importer's destination map and the target map its source map.
For a target decomposition that differs from the current one the count import therefore does
nothing: every target-owned point keeps the count 0, although the current list has the counts
1, 2, 2, 1, and the target neighbor map ends up empty.  The importer with the maps the other way
round delivers the counts. -/
theorem C17_count_import_is_reversed :
    (mapE (fun r => currentCounts (splitOwnedMap.part r) (splitNeighborList.getD r []))
        [0, 1]) = .ok [[1, 2], [2, 1]]
      ∧ (targetNumberOfNeighbors splitOwnedMap splitNeighborList movedOwnedMap).toOption.map
          Epetra_MultiVector.data = some [[[0]], [[0, 0, 0]]]
      ∧ ((Epetra_Vector_new movedOwnedMap).Import splitCounts ⟨movedOwnedMap, splitOwnedMap⟩).data
          = [[[1]], [[2, 2, 1]]]
      ∧ (neighborPayload splitOwnedMap splitOverlapMap splitNeighborList movedOwnedMap).toOption.map
          (fun p => (p.currentNeighborMap, p.targetNeighborMap))
          = some (⟨[[(0, 1), (1, 2)], [(2, 2), (3, 1)]]⟩, ⟨[[], []]⟩) := by
  refine ⟨?_, ?_, ?_, ?_⟩ <;> rfl

/-- C18 (code defect).  The count loop of `GlobalProximitySearch` reads the header at
`neighborListIndex` and then advances the index by the count alone, without the step over the
header itself.  For the list of the four points on a line, whose headers are 1, 2, 2, 1, it
stores the counts 1, 1, 2, 2. -/
theorem C18_count_loop_skips_no_header :
    radiusSearch ⟨4, [4], [[0, 1, 2, 3]], [[1, 1, 1, 1]], fourPointsOnALine.data.getD 0 []⟩ 1
        = [[1, 1, 2, 0, 2, 2, 1, 3, 1, 2]]
      ∧ currentCounts (pointMap [0, 1, 2, 3]) [1, 1, 2, 0, 2, 2, 1, 3, 1, 2] = .ok [1, 2, 2, 1]
      ∧ countsOfSearchResult [1, 1, 2, 0, 2, 2, 1, 3, 1, 2] (List.replicate 4 0)
          = .ok [1, 1, 2, 2]
      ∧ (GlobalProximitySearch id radiusSearch fourPointsOnALine 1 [[]]).toOption.map
          (fun o => o.numberOfNeighborsRebalancedDecomp.data) = some [[[1, 1, 2, 2]]] := by
  refine ⟨?_, ?_, ?_, ?_⟩ <;> rfl

/-- C19 (code defect).  The loop that derives the owned bond map looks every owned point up in
the overlap bond map and reads the element size at the result without testing it, and the map
is built with all owned points.  For three owned points of which point 2 has no bonds the
lookup of point 2 gives -1, the element size is read at index -1, and neither the map nor the
ghost synchronisation is completed; when every owned point has bonds the derived map has the
sizes of the overlap bond map. -/
theorem C19_ownedBondMap_reads_size_at_failed_lookup :
    (twoBondedPoints.part 0).LID ((threePoints.part 0).GID 2) = -1
      ∧ ownedElementSizes (threePoints.part 0) (twoBondedPoints.part 0)
          = .error Failure.outOfBounds
      ∧ deriveOwnedIDBondMap threePoints twoBondedPoints = .error Failure.outOfBounds
      ∧ zeroBondManager.scatterToGhosts = .error (Failure.outOfBounds, zeroBondManager)
      ∧ deriveOwnedIDBondMap threePoints threeBondPoints = .ok threeBondPoints := by
  refine ⟨?_, ?_, ?_, ?_, ?_⟩ <;> rfl

/-! ## `allocateData`: the stored list and the classification -/

theorem mem_std_sort (specs : List FieldSpec) (x : FieldSpec) :
    x ∈ std_sort specs ↔ x ∈ specs :=
  (List.perm_insertionSort _ specs).mem_iff

theorem mem_uniqueLoop : ∀ (rest pre a : List FieldSpec) (dest : Nat),
    a.length = (pre ++ rest).length → dest < pre.length →
    (∀ i, pre.length ≤ i → a[i]? = (pre ++ rest)[i]?) →
    (∀ x ∈ a, x ∈ pre ++ rest) →
    (∀ x ∈ pre, ∃ j, j ≤ dest ∧ a[j]? = some x) →
    ∀ x, x ∈ (uniqueLoop a dest rest).1 ↔ x ∈ pre ++ rest := by
  intro rest
  induction rest with
  | nil =>
    intro pre a dest _ _ _ h4 h5 x
    simp only [uniqueLoop]
    constructor
    · exact h4 x
    · intro hx
      simp only [List.append_nil] at hx
      obtain ⟨j, _, hj⟩ := h5 x hx
      exact List.mem_iff_getElem?.mpr ⟨j, hj⟩
  | cons y rest ih =>
    intro pre a dest h1 h2 h3 h4 h5 x
    have hassoc : (pre ++ [y]) ++ rest = pre ++ y :: rest := by simp
    have hy : a[pre.length]? = some y := by
      rw [h3 pre.length (Nat.le_refl _), List.getElem?_append_right (Nat.le_refl _)]
      simp
    have hlen : pre.length < a.length := lt_length_of_getElem? _ _ _ hy
    rw [← hassoc]
    simp only [uniqueLoop]
    split
    · rename_i hd
      rw [List.get?_eq_getElem?] at hd
      apply ih (pre ++ [y]) a dest
      · rw [hassoc]; exact h1
      · simp; omega
      · intro i hi
        rw [hassoc]
        exact h3 i (by simp at hi; omega)
      · intro z hz
        rw [hassoc]; exact h4 z hz
      · intro z hz
        rcases List.mem_append.mp hz with hz | hz
        · exact h5 z hz
        · simp only [List.mem_singleton] at hz
          subst hz
          exact ⟨dest, Nat.le_refl _, hd⟩
    · apply ih (pre ++ [y]) (a.set (dest + 1) y) (dest + 1)
      · rw [hassoc, List.length_set]; exact h1
      · simp; omega
      · intro i hi
        rw [hassoc, getElem?_set_ne' _ _ _ _ (by simp at hi; omega)]
        exact h3 i (by simp at hi; omega)
      · intro z hz
        rw [hassoc]
        rcases List.mem_or_eq_of_mem_set hz with hz | hz
        · exact h4 z hz
        · subst hz
          simp
      · intro z hz
        rcases List.mem_append.mp hz with hz | hz
        · obtain ⟨j, hj1, hj2⟩ := h5 z hz
          refine ⟨j, by omega, ?_⟩
          rw [getElem?_set_ne' _ _ _ _ (by omega)]
          exact hj2
        · simp only [List.mem_singleton] at hz
          subst hz
          exact ⟨dest + 1, Nat.le_refl _, getElem?_set_eq' _ _ _ (by omega)⟩

theorem mem_std_unique (a : List FieldSpec) (x : FieldSpec) :
    x ∈ (std_unique a).1 ↔ x ∈ a := by
  cases a with
  | nil => simp [std_unique]
  | cons x0 rest =>
    simp only [std_unique]
    have := mem_uniqueLoop rest [x0] (x0 :: rest) 0 rfl (by simp) (fun i _ => rfl)
      (fun z hz => hz) (fun z hz => ⟨0, Nat.le_refl _, by simp at hz; simp [hz]⟩) x
    simpa using this

/-- The list `allocateData` stores and classifies holds the same field specifications as the
list it is given. -/
theorem mem_stored (specs : List FieldSpec) (x : FieldSpec) :
    x ∈ (std_unique (std_sort specs)).1 ↔ x ∈ specs := by
  rw [mem_std_unique, mem_std_sort]

theorem keepsStates_trans {a b c : DataManager} (h1 : a.KeepsStates b) (h2 : b.KeepsStates c) :
    a.KeepsStates c := by
  obtain ⟨a1, a2, a3, a4⟩ := h1
  obtain ⟨b1, b2, b3, b4⟩ := h2
  exact ⟨b1.trans a1, b2.trans a2, b3.trans a3, fun sh => (b4 sh).trans (a4 sh)⟩

theorem classifySpec_total (dm : DataManager) (s : FieldSpec) :
    ∃ d, classifySpec dm s = .ok d ∧ dm.KeepsStates d
      ∧ ∀ shape : Shape, d.numClassified shape
          = dm.numClassified shape + (if s.getLength = shape.tag then 1 else 0) := by
  unfold classifySpec
  split
  · rename_i h1
    split <;>
    · refine ⟨_, rfl, ⟨rfl, rfl, rfl, fun sh => by cases sh <;> rfl⟩, ?_⟩
      intro shape
      cases shape <;> (simp [DataManager.numClassified, Shape.tag, h1] <;> try omega)
  · rename_i h1
    split
    · rename_i h2
      split <;>
      · refine ⟨_, rfl, ⟨rfl, rfl, rfl, fun sh => by cases sh <;> rfl⟩, ?_⟩
        intro shape
        cases shape <;> (simp [DataManager.numClassified, Shape.tag, h2] <;> try omega)
    · rename_i h2
      split
      · rename_i h3
        split <;>
        · refine ⟨_, rfl, ⟨rfl, rfl, rfl, fun sh => by cases sh <;> rfl⟩, ?_⟩
          intro shape
          cases shape <;> (simp [DataManager.numClassified, Shape.tag, h3] <;> try omega)
      · rename_i h3
        refine ⟨dm, rfl, ⟨rfl, rfl, rfl, fun _ => rfl⟩, ?_⟩
        intro shape
        cases shape <;> simp [Shape.tag, h1, h2, h3]

/-- The classification loop always runs to its end: a specification with an unknown tag is
passed over. -/
theorem classifyLoop_total : ∀ (l : List FieldSpec) (dm : DataManager),
    ∃ d, classifyLoop dm l = .ok d ∧ dm.KeepsStates d
      ∧ ∀ shape : Shape, d.numClassified shape
          = dm.numClassified shape + l.countP (fun s => decide (s.getLength = shape.tag)) := by
  intro l
  induction l with
  | nil =>
    intro dm
    exact ⟨dm, rfl, ⟨rfl, rfl, rfl, fun _ => rfl⟩, fun _ => by simp⟩
  | cons s l ih =>
    intro dm
    obtain ⟨d1, h1, a1, a3⟩ := classifySpec_total dm s
    obtain ⟨d, h2, b1, b3⟩ := ih d1
    refine ⟨d, ?_, keepsStates_trans a1 b1, ?_⟩
    · simp only [classifyLoop, h1]
      exact h2
    · intro shape
      rw [b3 shape, a3 shape, List.countP_cons]
      by_cases hs : s.getLength = shape.tag <;> (simp [hs] <;> try omega)

theorem classifyLoop_ok (l : List FieldSpec) (dm d : DataManager)
    (h : classifyLoop dm l = .ok d) :
    dm.KeepsStates d
      ∧ ∀ shape : Shape, d.numClassified shape
          = dm.numClassified shape + l.countP (fun s => decide (s.getLength = shape.tag)) := by
  obtain ⟨d', h', a, b⟩ := classifyLoop_total l dm
  rw [h'] at h
  simp only [Except.ok.injEq] at h
  subst h
  exact ⟨a, b⟩

theorem buildState_total (a b c : List FieldSpec) (m1 m2 m3 : Option Epetra_BlockMap)
    (h1 : a.length > 0 → m1 ≠ none) (h2 : b.length > 0 → m2 ≠ none)
    (h3 : c.length > 0 → m3 ≠ none) : ∃ s, buildState a b c m1 m2 m3 = .ok s := by
  unfold buildState
  simp only [bind, Except.bind, pure, Except.pure]
  by_cases ha : a.length > 0
  · cases m1 with
    | none => exact absurd rfl (h1 ha)
    | some x1 =>
      by_cases hb : b.length > 0
      · cases m2 with
        | none => exact absurd rfl (h2 hb)
        | some x2 =>
          by_cases hc : c.length > 0
          · cases m3 with
            | none => exact absurd rfl (h3 hc)
            | some x3 =>
              simp [ha, hb, hc, State.allocateScalarData, State.allocateVectorData,
                State.allocateBondData]
          · simp [ha, hb, hc, State.allocateScalarData, State.allocateVectorData]
      · by_cases hc : c.length > 0
        · cases m3 with
          | none => exact absurd rfl (h3 hc)
          | some x3 =>
            simp [ha, hb, hc, State.allocateScalarData, State.allocateBondData]
        · simp [ha, hb, hc, State.allocateScalarData]
  · by_cases hb : b.length > 0
    · cases m2 with
      | none => exact absurd rfl (h2 hb)
      | some x2 =>
        by_cases hc : c.length > 0
        · cases m3 with
          | none => exact absurd rfl (h3 hc)
          | some x3 =>
            simp [ha, hb, hc, State.allocateVectorData, State.allocateBondData]
        · simp [ha, hb, hc, State.allocateVectorData]
    · by_cases hc : c.length > 0
      · cases m3 with
        | none => exact absurd rfl (h3 hc)
        | some x3 =>
          simp [ha, hb, hc, State.allocateBondData]
      · simp [ha, hb, hc]

theorem allocateData_of_classify (dm v : DataManager) (specs : List FieldSpec)
    (h : classifyLoop { dm with
        fieldSpecs := (std_unique (std_sort specs)).1
        statelessScalarFieldSpecs := [], statelessVectorFieldSpecs := []
        statelessBondFieldSpecs := [], statefulScalarFieldSpecs := []
        statefulVectorFieldSpecs := [], statefulBondFieldSpecs := [] }
      (std_unique (std_sort specs)).1 = .ok v) :
    ((∃ shape, v.numClassified shape > 0 ∧ v.overlapMap shape = none) →
        dm.allocateData specs = .error (Failure.NullReferenceError, v))
      ∧ ((∀ shape, v.numClassified shape > 0 → v.overlapMap shape ≠ none) →
        ∃ d, dm.allocateData specs = .ok d) := by
  have e1 : v.numClassified Shape.scalar
      = v.statelessScalarFieldSpecs.length + v.statefulScalarFieldSpecs.length := rfl
  have e2 : v.numClassified Shape.vector
      = v.statelessVectorFieldSpecs.length + v.statefulVectorFieldSpecs.length := rfl
  have e3 : v.numClassified Shape.bond
      = v.statelessBondFieldSpecs.length + v.statefulBondFieldSpecs.length := rfl
  have m1 : v.overlapMap Shape.scalar = v.scalarMap := rfl
  have m2 : v.overlapMap Shape.vector = v.vectorMap := rfl
  have m3 : v.overlapMap Shape.bond = v.bondMap := rfl
  constructor
  · intro hmiss
    unfold DataManager.allocateData
    simp only [bind, Except.bind, pure, Except.pure, throw, throwThe, MonadExceptOf.throw]
    rw [h]
    simp only []
    split
    · rfl
    · rename_i c1
      split
      · rfl
      · rename_i c2
        split
        · rfl
        · rename_i c3
          exfalso
          obtain ⟨shape, hs1, hs2⟩ := hmiss
          cases shape
          · exact c1 ⟨by rw [← e1]; exact hs1, by rw [← m1]; exact hs2⟩
          · exact c2 ⟨by rw [← e2]; exact hs1, by rw [← m2]; exact hs2⟩
          · exact c3 ⟨by rw [← e3]; exact hs1, by rw [← m3]; exact hs2⟩
  · intro hmaps
    have q1 := hmaps Shape.scalar
    have q2 := hmaps Shape.vector
    have q3 := hmaps Shape.bond
    rw [e1, m1] at q1
    rw [e2, m2] at q2
    rw [e3, m3] at q3
    obtain ⟨s0, hs0⟩ := buildState_total v.statelessScalarFieldSpecs v.statelessVectorFieldSpecs
      v.statelessBondFieldSpecs v.scalarMap v.vectorMap v.bondMap
      (fun h => q1 (by omega)) (fun h => q2 (by omega)) (fun h => q3 (by omega))
    obtain ⟨s1, hs1⟩ := buildState_total v.statefulScalarFieldSpecs v.statefulVectorFieldSpecs
      v.statefulBondFieldSpecs v.scalarMap v.vectorMap v.bondMap
      (fun h => q1 (by omega)) (fun h => q2 (by omega)) (fun h => q3 (by omega))
    unfold DataManager.allocateData
    simp only [bind, Except.bind, pure, Except.pure, throw, throwThe, MonadExceptOf.throw]
    rw [h]
    simp only [hs0, hs1, liftStep]
    split
    · rename_i c; exact absurd c.2 (q1 c.1)
    · split
      · rename_i c; exact absurd c.2 (q2 c.1)
      · split
        · rename_i c; exact absurd c.2 (q3 c.1)
        · split <;> split <;> exact ⟨_, rfl⟩

theorem classified_pos_iff (dm v : DataManager) (specs : List FieldSpec)
    (h : classifyLoop { dm with
        fieldSpecs := (std_unique (std_sort specs)).1
        statelessScalarFieldSpecs := [], statelessVectorFieldSpecs := []
        statelessBondFieldSpecs := [], statefulScalarFieldSpecs := []
        statefulVectorFieldSpecs := [], statefulBondFieldSpecs := [] }
      (std_unique (std_sort specs)).1 = .ok v) (shape : Shape) :
    (v.numClassified shape > 0 ↔ ∃ s ∈ specs, s.getLength = shape.tag)
      ∧ v.overlapMap shape = dm.overlapMap shape
      ∧ v.stateNONE = dm.stateNONE ∧ v.stateN = dm.stateN ∧ v.stateNP1 = dm.stateNP1 := by
  obtain ⟨⟨k1, k2, k3, k4⟩, hn⟩ := classifyLoop_ok _ _ _ h
  refine ⟨?_, ?_, k1, k2, k3⟩
  · rw [hn shape]
    have h0 : DataManager.numClassified { dm with
        fieldSpecs := (std_unique (std_sort specs)).1
        statelessScalarFieldSpecs := [], statelessVectorFieldSpecs := []
        statelessBondFieldSpecs := [], statefulScalarFieldSpecs := []
        statefulVectorFieldSpecs := [], statefulBondFieldSpecs := [] } shape = 0 := by
      cases shape <;> rfl
    rw [h0, Nat.zero_add, gt_iff_lt, List.countP_pos_iff]
    constructor
    · rintro ⟨s, hs, hp⟩
      exact ⟨s, (mem_stored specs s).mp hs, by simpa using hp⟩
    · rintro ⟨s, hs, hp⟩
      exact ⟨s, (mem_stored specs s).mpr hs, by simpa using hp⟩
  · rw [k4 shape]
    cases shape <;> rfl

/-- C13 (code defect).  Line 77 is `TEST_FOR_EXCEPTION(false, ...)`, and the macro throws when
its test is true, so the branch for an unknown tag throws nothing.  On the list that holds only
`specX`, whose tag is unknown, `allocateData` returns with `specX` in no bucket and no State
created; on a Data Manager without maps the list `[specA, specX, specD]` ends with the
null-reference error of the scalar map test; and no call of `allocateData`, on any Data Manager
and any list, ends with a range error. -/
theorem C13_allocateData_never_rangeError :
    bucketsAfter (scalarManager.allocateData [specX]) = some [[], [], [], [], [], []]
      ∧ (scalarManager.allocateData [specX]).toOption.map
          (fun d => (d.fieldSpecs, d.stateNONE, d.stateN, d.stateNP1))
          = some ([specX], none, none, none)
      ∧ bareManager.allocateData [specA, specX, specD]
          = .error (Failure.NullReferenceError,
              { bareManager with fieldSpecs := [specD, specA, specX]
                                 statelessScalarFieldSpecs := [specA]
                                 statefulBondFieldSpecs := [specD] })
      ∧ ∀ (dm : DataManager) (specs : List FieldSpec) (d : DataManager),
          dm.allocateData specs ≠ .error (Failure.RangeError, d) := by
  refine ⟨rfl, rfl, rfl, ?_⟩
  intro dm specs d hd
  obtain ⟨v, hv, _⟩ := classifyLoop_total (std_unique (std_sort specs)).1 { dm with
      fieldSpecs := (std_unique (std_sort specs)).1
      statelessScalarFieldSpecs := [], statelessVectorFieldSpecs := []
      statelessBondFieldSpecs := [], statefulScalarFieldSpecs := []
      statefulVectorFieldSpecs := [], statefulBondFieldSpecs := [] }
  obtain ⟨hmiss, hok⟩ := allocateData_of_classify dm v specs hv
  by_cases hm : ∃ shape, v.numClassified shape > 0 ∧ v.overlapMap shape = none
  · rw [hmiss hm] at hd
    simp at hd
  · obtain ⟨d', hd'⟩ := hok (fun shape hp hn => hm ⟨shape, hp, hn⟩)
    rw [hd'] at hd
    simp at hd

/-- C12.  Let every field specification of the list carry one of the tags SCALAR, VECTOR3D and
BOND.  Then `allocateData` fails with a null-reference error exactly when for some shape the
list holds a field of that shape while the Data Manager's map of that shape is null; the Data
Manager at the failure has the States it had before the call (no State has been created); and
when no such shape exists the call returns. -/
theorem C12_allocateData_missing_map_iff (dm : DataManager) (specs : List FieldSpec)
    (hrec : ∀ s ∈ specs, s.getLength = FieldLength.SCALAR ∨ s.getLength = FieldLength.VECTOR3D
      ∨ s.getLength = FieldLength.BOND) :
    ((∃ d, dm.allocateData specs = .error (Failure.NullReferenceError, d)
        ∧ d.stateNONE = dm.stateNONE ∧ d.stateN = dm.stateN ∧ d.stateNP1 = dm.stateNP1) ↔
      ∃ shape : Shape, (∃ s ∈ specs, s.getLength = shape.tag) ∧ dm.overlapMap shape = none)
    ∧ ((¬ ∃ shape : Shape, (∃ s ∈ specs, s.getLength = shape.tag) ∧ dm.overlapMap shape = none) →
      ∃ d, dm.allocateData specs = .ok d) := by
  have _ := hrec
  cases hc : classifyLoop { dm with
        fieldSpecs := (std_unique (std_sort specs)).1
        statelessScalarFieldSpecs := [], statelessVectorFieldSpecs := []
        statelessBondFieldSpecs := [], statefulScalarFieldSpecs := []
        statefulVectorFieldSpecs := [], statefulBondFieldSpecs := [] }
      (std_unique (std_sort specs)).1 with
  | error x =>
    exfalso
    obtain ⟨d', h', _⟩ := classifyLoop_total (std_unique (std_sort specs)).1 { dm with
        fieldSpecs := (std_unique (std_sort specs)).1
        statelessScalarFieldSpecs := [], statelessVectorFieldSpecs := []
        statelessBondFieldSpecs := [], statefulScalarFieldSpecs := []
        statefulVectorFieldSpecs := [], statefulBondFieldSpecs := [] }
    rw [h'] at hc
    simp at hc
  | ok v =>
    obtain ⟨hmiss, hok⟩ := allocateData_of_classify dm v specs hc
    have key := classified_pos_iff dm v specs hc
    have hiff : (∃ shape, v.numClassified shape > 0 ∧ v.overlapMap shape = none) ↔
        ∃ shape : Shape, (∃ s ∈ specs, s.getLength = shape.tag) ∧ dm.overlapMap shape = none := by
      constructor
      · rintro ⟨shape, h1, h2⟩
        exact ⟨shape, (key shape).1.mp h1, by rw [← (key shape).2.1]; exact h2⟩
      · rintro ⟨shape, h1, h2⟩
        exact ⟨shape, (key shape).1.mpr h1, by rw [(key shape).2.1]; exact h2⟩
    refine ⟨⟨?_, ?_⟩, ?_⟩
    · rintro ⟨d, hd, _⟩
      by_contra hno
      obtain ⟨d', hd'⟩ := hok (fun shape hp hn => hno (hiff.mp ⟨shape, hp, hn⟩))
      rw [hd'] at hd
      simp at hd
    · intro h
      obtain ⟨_, _, k1, k2, k3⟩ := key Shape.scalar
      exact ⟨v, hmiss (hiff.mpr h), k1, k2, k3⟩
    · intro hno
      exact hok (fun shape hp hn => hno (hiff.mp ⟨shape, hp, hn⟩))

/-- Witness for C12: a scalar and a bond field on a Data Manager that has scalar maps only. -/
theorem C12_allocateData_missing_map_witness :
    (∀ s ∈ [specA, specD], s.getLength = FieldLength.SCALAR ∨ s.getLength = FieldLength.VECTOR3D
        ∨ s.getLength = FieldLength.BOND)
    ∧ scalarManager.allocateData [specA, specD]
        = .error (Failure.NullReferenceError,
            { scalarManager with fieldSpecs := [specD, specA]
                                 statelessScalarFieldSpecs := [specA]
                                 statefulBondFieldSpecs := [specD] })
    ∧ ((∃ d, scalarManager.allocateData [specA, specD] = .error (Failure.NullReferenceError, d)
          ∧ d.stateNONE = scalarManager.stateNONE ∧ d.stateN = scalarManager.stateN
          ∧ d.stateNP1 = scalarManager.stateNP1) ↔
        ∃ shape : Shape, (∃ s ∈ [specA, specD], s.getLength = shape.tag)
          ∧ scalarManager.overlapMap shape = none)
    ∧ ((¬ ∃ shape : Shape, (∃ s ∈ [specA, specD], s.getLength = shape.tag)
          ∧ scalarManager.overlapMap shape = none) →
        ∃ d, scalarManager.allocateData [specA, specD] = .ok d) :=
  ⟨by decide, rfl, C12_allocateData_missing_map_iff scalarManager [specA, specD] (by decide)⟩

/-! ## The missing-map tests of `scatterToGhosts` -/

theorem scatterSteps_append : ∀ (a b : List (Role × Shape)) (dm : DataManager),
    scatterSteps (a ++ b) dm =
      match scatterSteps a dm with
      | .ok d => scatterSteps b d
      | .error e => .error e := by
  intro a
  induction a with
  | nil => intro b dm; rfl
  | cons k a ih =>
    intro b dm
    simp only [List.cons_append, scatterSteps]
    cases scatterStep dm k.1 k.2 with
    | error e => rfl
    | ok d => exact ih b d

theorem scatterRole_eq_steps (dm : DataManager) (role : Role) :
    scatterRole dm role
      = scatterSteps [(role, Shape.scalar), (role, Shape.vector), (role, Shape.bond)] dm := by
  simp only [scatterRole, scatterSteps, scatterStep, bind, Except.bind]
  cases scatterScalar dm role with
  | error e => rfl
  | ok d1 =>
    simp only []
    cases scatterVector d1 role with
    | error e => rfl
    | ok d2 =>
      simp only []
      cases scatterBond d2 role <;> rfl

/-- The loop of `scatterToGhosts` is the nine parts in the order of `scatterOrder`. -/
theorem scatterToGhosts_eq_steps (dm : DataManager) :
    dm.scatterToGhosts = scatterSteps scatterOrder dm := by
  have e : scatterOrder
      = [(Role.NONE, Shape.scalar), (Role.NONE, Shape.vector), (Role.NONE, Shape.bond)]
        ++ ([(Role.N, Shape.scalar), (Role.N, Shape.vector), (Role.N, Shape.bond)]
        ++ [(Role.NP1, Shape.scalar), (Role.NP1, Shape.vector), (Role.NP1, Shape.bond)]) := rfl
  rw [e, scatterSteps_append, ← scatterRole_eq_steps]
  simp only [DataManager.scatterToGhosts, bind, Except.bind]
  cases scatterRole dm Role.NONE with
  | error x => rfl
  | ok d1 =>
    simp only []
    rw [scatterSteps_append, ← scatterRole_eq_steps]
    cases scatterRole d1 Role.N with
    | error x => rfl
    | ok d2 =>
      simp only []
      rw [← scatterRole_eq_steps]

theorem scatterStep_same (dm dm' : DataManager) (role : Role) (shape : Shape)
    (h : scatterStep dm role shape = .ok dm') : dm.SameDecomposition dm' := by
  cases shape
  · exact scatterScalar_same dm dm' role (Or.inl h)
  · exact scatterVector_same dm dm' role (Or.inl h)
  · exact scatterBond_same dm dm' role (Or.inl h)

theorem loopFrom_sim {σ : Type} (f g : Nat → σ → Except Failure σ) (R : σ → σ → Prop) :
    ∀ (n start : Nat) (s s' t : σ), R s s' →
      (∀ i a a' b, start ≤ i → i < start + n → R a a' → f i a = .ok b →
        ∃ b', g i a' = .ok b' ∧ R b b') →
      loopFrom f start n s = .ok t → ∃ t', loopFrom g start n s' = .ok t' ∧ R t t' := by
  intro n
  induction n with
  | zero =>
    intro start s s' t hR _ h
    simp only [loopFrom, Except.ok.injEq] at h
    subst h
    exact ⟨s', rfl, hR⟩
  | succ n ih =>
    intro start s s' t hR hstep h
    simp only [loopFrom] at h
    cases hb : f start s with
    | error e => rw [hb] at h; simp at h
    | ok b =>
      rw [hb] at h
      obtain ⟨b', hg, hR'⟩ := hstep start s s' b (Nat.le_refl _) (by omega) hR hb
      obtain ⟨t', ht, hRt⟩ := ih (start + 1) b b' t hR'
        (fun i a a' c h1 h2 => hstep i a a' c (by omega) (by omega)) h
      refine ⟨t', ?_, hRt⟩
      simp only [loopFrom, hg]
      exact ht

theorem readAt_transfer {α : Type} (d d' : List α) (i : Int) (v : α)
    (hlen : d'.length = d.length) (h : readAt d i = .ok v) : ∃ v', readAt d' i = .ok v' := by
  obtain ⟨h0, h1⟩ := readAt_ok h
  have hlt : i.toNat < d'.length := by rw [hlen]; exact lt_length_of_getElem? _ _ _ h1
  refine ⟨d'[i.toNat], ?_⟩
  have := readAt_nat d' i.toNat d'[i.toNat] (List.getElem?_eq_getElem hlt)
  rwa [Int.toNat_of_nonneg h0] at this

theorem writeAt_transfer {α : Type} (a a' b : List α) (i : Int) (v v' : α)
    (hlen : a'.length = a.length) (h : writeAt a i v = .ok b) :
    ∃ b', writeAt a' i v' = .ok b' ∧ b'.length = b.length := by
  obtain ⟨h0, h1, h2⟩ := writeAt_ok h
  refine ⟨a'.set i.toNat v', ?_, by rw [h2]; simp [hlen]⟩
  have := writeAt_nat a' i.toNat v' (by rw [hlen]; exact h1)
  rwa [Int.toNat_of_nonneg h0] at this

theorem copyScalarData_transfer (ov no : LocalMap) (d d' s t : List Val)
    (hlen : d'.length = d.length) (h : copyScalarData ov no d s = .ok t) :
    ∃ t', copyScalarData ov no d' s = .ok t' := by
  unfold copyScalarData at h ⊢
  refine Exists.imp (fun _ hx => hx.1) (loopFrom_sim _ _
    (fun (a a' : List Val) => a'.length = a.length) _ 0 s s t rfl ?_ h)
  · intro i a a' b _ _ hR hb
    · simp only [bind, Except.bind] at hb ⊢
      cases hr : readAt d (ov.LID (no.GID (i : Int))) with
      | error e => rw [hr] at hb; simp at hb
      | ok v =>
        rw [hr] at hb
        simp only [] at hb
        obtain ⟨v', hv'⟩ := readAt_transfer d d' _ v hlen hr
        obtain ⟨b', hb', hl⟩ := writeAt_transfer a a' b _ v v' hR hb
        rw [hv']
        exact ⟨b', hb', hl⟩

theorem copyVectorData_transfer (ov no : LocalMap) (d d' s t : List Val)
    (hlen : d'.length = d.length) (h : copyVectorData ov no d s = .ok t) :
    ∃ t', copyVectorData ov no d' s = .ok t' := by
  unfold copyVectorData at h ⊢
  refine Exists.imp (fun _ hx => hx.1) (loopFrom_sim _ _
    (fun (a a' : List Val) => a'.length = a.length) _ 0 s s t rfl ?_ h)
  · intro i a a' b _ _ hR hb
    · simp only [bind, Except.bind] at hb ⊢
      cases hr1 : readAt d (ov.LID (no.GID (i : Int)) * 3) with
      | error e => rw [hr1] at hb; simp at hb
      | ok v1 =>
        rw [hr1] at hb
        simp only [] at hb
        cases hw1 : writeAt a ((i : Int) * 3) v1 with
        | error e => rw [hw1] at hb; simp at hb
        | ok a1 =>
          rw [hw1] at hb
          simp only [] at hb
          cases hr2 : readAt d (ov.LID (no.GID (i : Int)) * 3 + 1) with
          | error e => rw [hr2] at hb; simp at hb
          | ok v2 =>
            rw [hr2] at hb
            simp only [] at hb
            cases hw2 : writeAt a1 ((i : Int) * 3 + 1) v2 with
            | error e => rw [hw2] at hb; simp at hb
            | ok a2 =>
              rw [hw2] at hb
              simp only [] at hb
              cases hr3 : readAt d (ov.LID (no.GID (i : Int)) * 3 + 2) with
              | error e => rw [hr3] at hb; simp at hb
              | ok v3 =>
                rw [hr3] at hb
                simp only [] at hb
                obtain ⟨v1', hv1'⟩ := readAt_transfer d d' _ v1 hlen hr1
                obtain ⟨a1', ha1', hl1⟩ := writeAt_transfer a a' a1 _ v1 v1' hR hw1
                obtain ⟨v2', hv2'⟩ := readAt_transfer d d' _ v2 hlen hr2
                obtain ⟨a2', ha2', hl2⟩ := writeAt_transfer a1 a1' a2 _ v2 v2' hl1 hw2
                obtain ⟨v3', hv3'⟩ := readAt_transfer d d' _ v3 hlen hr3
                obtain ⟨b', hb', hl3⟩ := writeAt_transfer a2 a2' b _ v3 v3' hl2 hb
                rw [hv1']
                simp only []
                rw [ha1']
                simp only []
                rw [hv2']
                simp only []
                rw [ha2']
                simp only []
                rw [hv3']
                exact ⟨b', hb', hl3⟩

theorem copyBondData_transfer (ov no : LocalMap) (d d' s t : List Val)
    (hlen : d'.length = d.length) (h : copyBondData ov no d s = .ok t) :
    ∃ t', copyBondData ov no d' s = .ok t' := by
  unfold copyBondData at h ⊢
  refine Exists.imp (fun _ hx => hx.1) (loopFrom_sim _ _
    (fun (a a' : List Val) => a'.length = a.length) _ 0 s s t rfl ?_ h)
  · intro i a a' b _ _ hR hb
    · simp only [bind, Except.bind] at hb ⊢
      cases hsz : no.ElementSize (i : Int) with
      | error e => rw [hsz] at hb; simp at hb
      | ok size =>
        rw [hsz] at hb
        simp only [] at hb ⊢
        refine loopFrom_sim _ _ (fun (a a' : List Val) => a'.length = a.length)
          _ 0 a a' b hR ?_ hb
        · intro j c c' e _ _ hR' he
          · simp only [bind, Except.bind] at he ⊢
            cases hr : readAt d (ov.FirstPointInElement (ov.LID (no.GID (i : Int))) + (j : Int)) with
            | error x => rw [hr] at he; simp at he
            | ok v =>
              rw [hr] at he
              simp only [] at he
              obtain ⟨v', hv'⟩ := readAt_transfer d d' _ v hlen hr
              obtain ⟨e', he', hl⟩ := writeAt_transfer c c' e _ v v' hR' he
              rw [hv']
              exact ⟨e', he', hl⟩

theorem mapE_total {α β : Type} (f : α → Except Failure β) :
    ∀ (l : List α), (∀ a ∈ l, ∃ b, f a = .ok b) → ∃ bs, mapE f l = .ok bs := by
  intro l
  induction l with
  | nil => intro _; exact ⟨[], rfl⟩
  | cons a l ih =>
    intro h
    obtain ⟨b, hb⟩ := h a (List.mem_cons_self _ _)
    obtain ⟨bs, hbs⟩ := ih (fun x hx => h x (List.mem_cons_of_mem _ hx))
    exact ⟨b :: bs, by simp only [mapE, hb, hbs]⟩

/-- A second run of the scatter frame on a buffer with the layout and the sizes of the first
completes when the first did. -/
theorem scatterMultiVector_transfer
    (copy : LocalMap → LocalMap → List Val → List Val → Except Failure (List Val))
    (ov no : Epetra_BlockMap) (mv mv' mv1 : Epetra_MultiVector)
    (hmap : mv.map = ov) (hmap' : mv'.map = ov) (hnv : mv'.NumVectors = mv.NumVectors)
    (hw : mv.WellSized) (hw' : mv'.WellSized)
    (htr : ∀ (ovp nop : LocalMap) (d d' s t : List Val), d'.length = d.length →
      copy ovp nop d s = .ok t → ∃ t', copy ovp nop d' s = .ok t')
    (hempty : ∀ (ovp : LocalMap) (d s : List Val), copy ovp [] d s = .ok s)
    (hcopy : ∀ r ovData d0 d, r < no.parts.length → d0.length = (no.part r).NumMyPoints →
      copy (ov.part r) (no.part r) ovData d0 = .ok d →
      Gathered (ov.part r) (no.part r) ovData d)
    (h : scatterMultiVector copy ov no mv = .ok mv1) :
    ∃ mv2, scatterMultiVector copy ov no mv' = .ok mv2 := by
  unfold scatterMultiVector at h ⊢
  simp only [bind, Except.bind, pure, Except.pure] at h ⊢
  rw [hnv]
  cases hdata : mapE (fun r => mapE (fun iVec =>
      copy (ov.part r) (no.part r) (mv.values r iVec)
        ((Epetra_MultiVector.new no mv.NumVectors).values r iVec)) (List.range mv.NumVectors))
    (List.range no.parts.length) with
  | error e => rw [hdata] at h; simp at h
  | ok data =>
    obtain ⟨_, hrows⟩ := mapE_ok _ _ _ hdata
    obtain ⟨data', hdata'⟩ := mapE_total (fun r => mapE (fun iVec =>
        copy (ov.part r) (no.part r) (mv'.values r iVec)
          ((Epetra_MultiVector.new no mv.NumVectors).values r iVec)) (List.range mv.NumVectors))
      (List.range no.parts.length) (by
        intro r hr
        have hr' := List.mem_range.mp hr
        obtain ⟨row, _, hrow⟩ := hrows r r (List.getElem?_range hr')
        obtain ⟨_, hcols⟩ := mapE_ok _ _ _ hrow
        apply mapE_total
        intro iVec hv
        have hv' := List.mem_range.mp hv
        obtain ⟨c, _, hc⟩ := hcols iVec iVec (List.getElem?_range hv')
        by_cases hrov : r < ov.parts.length
        · refine htr _ _ _ _ _ _ ?_ hc
          have e1 := hw r (List.mem_range.mpr (by rw [hmap]; exact hrov)) iVec hv
          have e2 := hw' r (List.mem_range.mpr (by rw [hmap']; exact hrov)) iVec
            (by rw [hnv]; exact hv)
          rw [e1, e2, hmap, hmap']
        · have hov : ov.part r = [] := part_of_le ov r (by omega)
          have hg := hcopy r _ _ _ hr' (by rw [values_new no _ r iVec hr' hv']; simp) hc
          have hno : no.part r = [] := by
            cases hn : no.part r with
            | nil => rfl
            | cons e l =>
              have := (hg.2 0 e (by rw [hn]; simp)).1
              rw [hov] at this
              simp [LocalMap.MyGlobalElements] at this
          rw [hno]
          exact ⟨_, hempty _ _ _⟩)
    rw [hdata']
    exact ⟨_, rfl⟩

theorem DataManager.SameDecomposition.symm {a b : DataManager} (h : a.SameDecomposition b) :
    b.SameDecomposition a := by
  obtain ⟨a1, a2, a3, a4, a5, a6, a7, a8, a9⟩ := h
  exact ⟨a1.symm, a2.symm, a3.symm, a4.symm, a5.symm, a6.symm, a7.symm, a8.symm,
    fun r => (a9 r).symm⟩

theorem scatterScalar_resumes (x y x' : DataManager) (role : Role) (hx : x.WellFormed)
    (hy : y.WellFormed) (hs : x.SameDecomposition y) (h : scatterScalar x role = .ok x') :
    ∃ y', scatterScalar y role = .ok y' := by
  have hl := hs.2.2.2.2.2.2.2.2 role
  obtain ⟨_, _, _, a1, a2, a3, a4, a5, _⟩ := hs
  unfold scatterScalar at h ⊢
  cases hsx : x.state role with
  | none => simp [hsx] at h
  | some s =>
    cases hsy : y.state role with
    | none => rw [hsx, hsy] at hl; simp at hl
    | some s' =>
      rw [hsx, hsy] at hl
      simp only [Option.map_some', Option.some.injEq, State.layout, Prod.mk.injEq] at hl
      obtain ⟨_, _, _, l1, _, _⟩ := hl
      simp only [hsx] at h
      simp only []
      cases hd : s.scalarData with
      | none =>
        rw [hd] at l1
        cases hd' : s'.scalarData with
        | some z => rw [hd'] at l1; simp at l1
        | none => exact ⟨y, rfl⟩
      | some mv =>
        rw [hd] at l1
        cases hd' : s'.scalarData with
        | none => rw [hd'] at l1; simp at l1
        | some mv' =>
          rw [hd'] at l1
          simp only [Option.map_some', Option.some.injEq, Epetra_MultiVector.layout,
            Prod.mk.injEq] at l1
          simp only [hd] at h
          split at h
          · rename_i ov no hov hno
            cases hm : scatterMultiVector copyScalarData ov no mv with
            | error e => simp [hm] at h
            | ok mv1 =>
              have hbx := hx.2.2 role Shape.scalar mv
                (by simp [DataManager.buffer, hsx, State.buffer, hd])
              have hby := hy.2.2 role Shape.scalar mv'
                (by simp [DataManager.buffer, hsy, State.buffer, hd'])
              have hmap : mv.map = ov := by
                have := hbx.1
                simp only [DataManager.overlapMap, hov, Option.some.injEq] at this
                exact this.symm
              obtain ⟨_, c2⟩ := hx.1.1 no hno
              have c3 := hx.1.2.2.1 ov hov
              obtain ⟨mv2, hmv2⟩ := scatterMultiVector_transfer copyScalarData ov no mv mv' mv1
                hmap (l1.1.trans hmap) l1.2 hbx.2 hby.2 copyScalarData_transfer
                (fun _ _ _ => rfl)
                (fun r ovData d0 d _ hd0 hc =>
                  copyScalarData_gathered _ _ _ _ _ (ConstantSize.part ov 1 r c3)
                    (ConstantSize.part no 1 r c2) hd0 hc) hm
              refine ⟨y.setState role { s' with scalarData := some mv2 }, ?_⟩
              simp only [a3, a1, hov, hno, hmv2]
          · simp at h

theorem scatterVector_resumes (x y x' : DataManager) (role : Role) (hx : x.WellFormed)
    (hy : y.WellFormed) (hs : x.SameDecomposition y) (h : scatterVector x role = .ok x') :
    ∃ y', scatterVector y role = .ok y' := by
  have hl := hs.2.2.2.2.2.2.2.2 role
  obtain ⟨_, _, _, a1, a2, a3, a4, a5, _⟩ := hs
  unfold scatterVector at h ⊢
  cases hsx : x.state role with
  | none => simp [hsx] at h
  | some s =>
    cases hsy : y.state role with
    | none => rw [hsx, hsy] at hl; simp at hl
    | some s' =>
      rw [hsx, hsy] at hl
      simp only [Option.map_some', Option.some.injEq, State.layout, Prod.mk.injEq] at hl
      obtain ⟨_, _, _, _, l1, _⟩ := hl
      simp only [hsx] at h
      simp only []
      cases hd : s.vectorData with
      | none =>
        rw [hd] at l1
        cases hd' : s'.vectorData with
        | some z => rw [hd'] at l1; simp at l1
        | none => exact ⟨y, rfl⟩
      | some mv =>
        rw [hd] at l1
        cases hd' : s'.vectorData with
        | none => rw [hd'] at l1; simp at l1
        | some mv' =>
          rw [hd'] at l1
          simp only [Option.map_some', Option.some.injEq, Epetra_MultiVector.layout,
            Prod.mk.injEq] at l1
          simp only [hd] at h
          split at h
          · rename_i ov no hov hno
            cases hm : scatterMultiVector copyVectorData ov no mv with
            | error e => simp [hm] at h
            | ok mv1 =>
              have hbx := hx.2.2 role Shape.vector mv
                (by simp [DataManager.buffer, hsx, State.buffer, hd])
              have hby := hy.2.2 role Shape.vector mv'
                (by simp [DataManager.buffer, hsy, State.buffer, hd'])
              have hmap : mv.map = ov := by
                have := hbx.1
                simp only [DataManager.overlapMap, hov, Option.some.injEq] at this
                exact this.symm
              obtain ⟨_, c2⟩ := hx.1.2.1 no hno
              have c3 := hx.1.2.2.2.1 ov hov
              obtain ⟨mv2, hmv2⟩ := scatterMultiVector_transfer copyVectorData ov no mv mv' mv1
                hmap (l1.1.trans hmap) l1.2 hbx.2 hby.2 copyVectorData_transfer
                (fun _ _ _ => rfl)
                (fun r ovData d0 d _ hd0 hc =>
                  copyVectorData_gathered _ _ _ _ _ (ConstantSize.part ov 3 r c3)
                    (ConstantSize.part no 3 r c2) hd0 hc) hm
              refine ⟨y.setState role { s' with vectorData := some mv2 }, ?_⟩
              simp only [a4, a2, hov, hno, hmv2]
          · simp at h

/-- The owned bond map a second run uses is the one the first run used. -/
theorem ensureOwnedIDBondMap_resumes (x y x1 : DataManager) (ov no : Epetra_BlockMap)
    (hx : x.WellFormed) (hy : y.WellFormed)
    (hown : y.ownedIDScalarMap = x.ownedIDScalarMap) (hbx : x.bondMap = some ov)
    (hby : y.bondMap = some ov) (h : ensureOwnedIDBondMap x ov = .ok (x1, no)) :
    ∃ y1, ensureOwnedIDBondMap y ov = .ok (y1, no) ∧ ∀ r, y1.state r = y.state r := by
  obtain ⟨_, _, _, owned, howned, hder⟩ := ensureOwnedIDBondMap_spec x x1 ov no hx hbx h
  unfold ensureOwnedIDBondMap
  cases hyo : y.ownedIDBondMap with
  | some m =>
    obtain ⟨o, b, q1, q2, q3⟩ := hy.2.1 m hyo
    rw [hown, howned] at q1
    rw [hby] at q2
    simp only [Option.some.injEq] at q1 q2
    subst q1; subst q2
    rw [hder] at q3
    simp only [Except.ok.injEq] at q3
    subst q3
    exact ⟨y, rfl, fun _ => rfl⟩
  | none =>
    simp only [hown, howned, hder]
    exact ⟨_, rfl, fun r => by cases r <;> rfl⟩

theorem scatterBond_resumes (x y x' : DataManager) (role : Role) (hx : x.WellFormed)
    (hy : y.WellFormed) (hs : x.SameDecomposition y) (h : scatterBond x role = .ok x') :
    ∃ y', scatterBond y role = .ok y' := by
  have hl := hs.2.2.2.2.2.2.2.2 role
  obtain ⟨_, _, _, a1, a2, a3, a4, a5, _⟩ := hs
  unfold scatterBond at h ⊢
  cases hsx : x.state role with
  | none => simp [hsx] at h
  | some s =>
    cases hsy : y.state role with
    | none => rw [hsx, hsy] at hl; simp at hl
    | some s' =>
      rw [hsx, hsy] at hl
      simp only [Option.map_some', Option.some.injEq, State.layout, Prod.mk.injEq] at hl
      obtain ⟨_, _, _, _, _, l1⟩ := hl
      simp only [hsx] at h
      simp only []
      cases hd : s.bondData with
      | none =>
        rw [hd] at l1
        cases hd' : s'.bondData with
        | some z => rw [hd'] at l1; simp at l1
        | none => exact ⟨y, rfl⟩
      | some mv =>
        rw [hd] at l1
        cases hd' : s'.bondData with
        | none => rw [hd'] at l1; simp at l1
        | some mv' =>
          rw [hd'] at l1
          simp only [Option.map_some', Option.some.injEq, Epetra_MultiVector.layout,
            Prod.mk.injEq] at l1
          simp only [hd] at h
          cases hov : x.bondMap with
          | none => simp [hov] at h
          | some ov =>
            simp only [hov] at h
            cases he : ensureOwnedIDBondMap x ov with
            | error e => simp [he] at h
            | ok p =>
              obtain ⟨x1, no⟩ := p
              simp only [he] at h
              cases hm : scatterMultiVector copyBondData ov no mv with
              | error e => simp [hm] at h
              | ok mv1 =>
                have hbx := hx.2.2 role Shape.bond mv
                  (by simp [DataManager.buffer, hsx, State.buffer, hd])
                have hby := hy.2.2 role Shape.bond mv'
                  (by simp [DataManager.buffer, hsy, State.buffer, hd'])
                have hmap : mv.map = ov := by
                  have := hbx.1
                  simp only [DataManager.overlapMap, hov, Option.some.injEq] at this
                  exact this.symm
                obtain ⟨_, _, _, owned, howned, hder⟩ :=
                  ensureOwnedIDBondMap_spec x x1 ov no hx hov he
                obtain ⟨_, dspec⟩ := deriveOwnedIDBondMap_spec owned ov no hder
                obtain ⟨y1, hy1, _⟩ := ensureOwnedIDBondMap_resumes x y x1 ov no hx hy a1 hov
                  (by rw [a5]; exact hov) he
                obtain ⟨mv2, hmv2⟩ := scatterMultiVector_transfer copyBondData ov no mv mv' mv1
                  hmap (l1.1.trans hmap) l1.2 hbx.2 hby.2 copyBondData_transfer
                  (fun _ _ _ => rfl)
                  (fun r ovData d0 d _ hd0 hc =>
                    copyBondData_gathered _ _ _ _ _ (dspec r).2 hd0 hc) hm
                refine ⟨y1.setState role { s' with bondData := some mv2 }, ?_⟩
                simp only [a5, hov, hy1, hmv2]

theorem scatterStep_resumes (x y x' : DataManager) (role : Role) (shape : Shape)
    (hx : x.WellFormed) (hy : y.WellFormed) (hs : x.SameDecomposition y)
    (h : scatterStep x role shape = .ok x') : ∃ y', scatterStep y role shape = .ok y' := by
  cases shape
  · exact scatterScalar_resumes x y x' role hx hy hs h
  · exact scatterVector_resumes x y x' role hx hy hs h
  · exact scatterBond_resumes x y x' role hx hy hs h

theorem scatterStep_wellFormed (x x' : DataManager) (role : Role) (shape : Shape)
    (hx : x.WellFormed) (h : scatterStep x role shape = .ok x') : x'.WellFormed := by
  cases shape
  · exact (scatterScalar_step x x' role hx h).1
  · exact (scatterVector_step x x' role hx h).1
  · exact (scatterBond_step x x' role hx h).1

/-- A run of parts of `scatterToGhosts` that completes on `x` completes on every well-formed
Data Manager with the decomposition of `x`. -/
theorem scatterSteps_resumes : ∀ (l : List (Role × Shape)) (x y x' : DataManager),
    x.WellFormed → y.WellFormed → x.SameDecomposition y → scatterSteps l x = .ok x' →
    ∃ y', scatterSteps l y = .ok y' := by
  intro l
  induction l with
  | nil => intro x y x' _ _ _ _; exact ⟨y, rfl⟩
  | cons k l ih =>
    intro x y x' hx hy hs h
    simp only [scatterSteps] at h ⊢
    cases h1 : scatterStep x k.1 k.2 with
    | error e => rw [h1] at h; simp at h
    | ok x1 =>
      rw [h1] at h
      obtain ⟨y1, hy1⟩ := scatterStep_resumes x y x1 k.1 k.2 hx hy hs h1
      rw [hy1]
      exact ih x1 y1 x' (scatterStep_wellFormed x x1 k.1 k.2 hx h1)
        (scatterStep_wellFormed y y1 k.1 k.2 hy hy1)
        (DataManager.SameDecomposition.trans
          (DataManager.SameDecomposition.symm (scatterStep_same x x1 k.1 k.2 h1))
          (DataManager.SameDecomposition.trans hs (scatterStep_same y y1 k.1 k.2 hy1))) h

/-- Two ghost synchronisations in a row: the second leaves the values of the first. -/
theorem scatterOf_twice (ov own : Epetra_BlockMap) (mv0 mv1 mv2 : Epetra_MultiVector)
    (h1 : ScatterOf ov own mv0 mv1) (h2 : ScatterOf ov own mv1 mv2) (hmap : mv1.map = ov)
    (hw1 : mv1.WellSized) (hw2 : mv2.WellSized) (r iVec : Nat) (hr : r < ov.parts.length)
    (hv : iVec < mv1.NumVectors) : mv2.values r iVec = mv1.values r iVec := by
  have l1 := h1.1
  have l2 := h2.1
  simp only [Epetra_MultiVector.layout, Prod.mk.injEq] at l1 l2
  have hv0 : iVec < mv0.NumVectors := by rw [← l1.2]; exact hv
  have len1 := hw1 r (List.mem_range.mpr (by rw [hmap]; exact hr)) iVec (List.mem_range.mpr hv)
  have len2 := hw2 r (List.mem_range.mpr (by rw [l2.1, hmap]; exact hr)) iVec
    (List.mem_range.mpr (by rw [l2.2]; exact hv))
  rw [l2.1] at len2
  rw [hmap] at len1 len2
  apply eq_of_elemAt_eq (ov.part r) _ _ len2 len1
  intro i hi
  have he : (ov.part r)[i]? = some (ov.part r)[i] := List.getElem?_eq_getElem hi
  obtain ⟨A2, B2⟩ := h2.2 r iVec i _ hr hv he
  obtain ⟨A1, _⟩ := h1.2 r iVec i _ hr hv0 he
  by_cases hown : ∃ p, ((ov.part r)[i]).1 ∈ (own.part p).MyGlobalElements
  · obtain ⟨p, hp⟩ := hown
    obtain ⟨_, q2⟩ := A2 p hp
    obtain ⟨m1, q1⟩ := A1 p hp
    obtain ⟨e', he', hee⟩ := getElem?_holder (ov.part p) _ m1
    have hpov := lt_of_mem_part ov p _ m1
    obtain ⟨A1', _⟩ := h1.2 p iVec _ e' hpov hv0 he'
    obtain ⟨_, q1'⟩ := A1' p (by rw [hee]; exact hp)
    rw [hee] at q1'
    rw [q2, q1, q1']
  · exact B2 (fun p hp => hown ⟨p, hp⟩)

/-- C11.  Let `scatterToGhosts` have succeeded on a well-formed Data Manager, leaving `dm1`.
Then a second call, made on `dm1` as it is, succeeds as well, and every buffer of `dm1` (any
State, any shape) is there afterwards with its layout and with the same values in every field
on every rank: owned slots and ghost slots are what the first call left. -/
theorem C11_scatterToGhosts_idempotent (dm dm1 : DataManager) (hwf : dm.WellFormed)
    (hok : dm.scatterToGhosts = .ok dm1) :
    ∃ dm2, dm1.scatterToGhosts = .ok dm2
      ∧ ∀ role shape mv1, dm1.buffer role shape = some mv1 →
          ∃ mv2, dm2.buffer role shape = some mv2 ∧ mv2.layout = mv1.layout
            ∧ ∀ r iVec, r < mv1.map.parts.length → iVec < mv1.NumVectors →
                mv2.values r iVec = mv1.values r iVec := by
  have run1 := scatterToGhosts_runSpec dm dm1 hwf hok
  have hs := scatterToGhosts_same dm dm1 (Or.inl hok)
  obtain ⟨dm2, h2⟩ := scatterSteps_resumes scatterOrder dm dm1 dm1 hwf run1.1 hs
    (by rw [← scatterToGhosts_eq_steps]; exact hok)
  rw [← scatterToGhosts_eq_steps] at h2
  have run2 := scatterToGhosts_runSpec dm1 dm2 run1.1 h2
  refine ⟨dm2, h2, ?_⟩
  intro role shape mv1 hb1
  obtain ⟨n1, s1⟩ := run1.2.2.2 role shape (by cases role <;> cases shape <;> simp)
  obtain ⟨_, s2⟩ := run2.2.2.2 role shape (by cases role <;> cases shape <;> simp)
  cases hb0 : dm.buffer role shape with
  | none => rw [n1 hb0] at hb1; simp at hb1
  | some mv0 =>
    obtain ⟨mv1', ov, own, e1, e2, e3, sc1⟩ := s1 mv0 hb0
    rw [hb1] at e1
    simp only [Option.some.injEq] at e1
    subst e1
    obtain ⟨mv2, ov', own', f1, f2, f3, sc2⟩ := s2 mv1 hb1
    have hm := run1.2.1 shape
    rw [hm.1, e2] at f2
    rw [hm.2, e3] at f3
    simp only [Option.some.injEq] at f2 f3
    subst f2; subst f3
    have hon1 := run1.1.2.2 role shape mv1 hb1
    have hon2 := run2.1.2.2 role shape mv2 f1
    have hmap : mv1.map = ov := by
      have := hon1.1
      rw [hm.1, e2] at this
      simp only [Option.some.injEq] at this
      exact this.symm
    refine ⟨mv2, f1, sc2.1, ?_⟩
    intro r iVec hr hv
    exact scatterOf_twice ov own mv0 mv1 mv2 sc1 sc2 hmap hon1.2 hon2.2 r iVec
      (by rw [← hmap]; exact hr) hv

/-- Witness for C11: the two-rank `splitManager`, whose ghost slots differ from the owners'
values before the first call; the second call returns the Data Manager the first one left. -/
theorem C11_scatterToGhosts_idempotent_witness :
    splitManagerScattered.scatterToGhosts.toOption = some splitManagerScattered
      ∧ ∃ dm2, splitManagerScattered.scatterToGhosts = .ok dm2
        ∧ ∀ role shape mv1, splitManagerScattered.buffer role shape = some mv1 →
            ∃ mv2, dm2.buffer role shape = some mv2 ∧ mv2.layout = mv1.layout
              ∧ ∀ r iVec, r < mv1.map.parts.length → iVec < mv1.NumVectors →
                  mv2.values r iVec = mv1.values r iVec :=
  ⟨by decide, C11_scatterToGhosts_idempotent splitManager splitManagerScattered splitManager_wellFormed
    rfl⟩

end PeridigmNS
